import Mathlib

/-!
# Interactive HSNE: scale navigation, sub-graph extraction and the scale-update worker

A shallow embedding of the parts of the `hsne-analysis` plugin that select a scale and its
landmarks for a viewport (`UtilsScale.cpp`), extract and renormalise the transition graph of
the selected landmarks (`UtilsScale.cpp`, `Utils.h`) and guard the scale-update worker
(`HsneScaleUpdate.cpp`, `HsneScaleAction.cpp`).

Conventions of the embedding

* `uint32_t` and `size_t` values are natural numbers; every place where the source can wrap
  is written with an explicit `% 2 ^ 32` or `% 2 ^ 64`.
* `std::vector<uint32_t>` is `List Nat`; an out-of-range `operator[]` is undefined behaviour
  in the source and makes the embedded function return `none`.
* `float` weights and thresholds are rationals: sums, products and comparisons are exact.
* Output parameters become return values; a parameter that is read before it is written
  stays a parameter (the incoming contents of `localIDsOnCoarserScale`).
-/

namespace Hsne

/-! ## Machine integers -/

/-- Value of `std::numeric_limits<uint32_t>::max()`. -/
def UINT32_MAX : Nat := 2 ^ 32 - 1

/-- Result of `static_cast<int32_t>` on an integer: reduction into `[-2^31, 2^31)`. -/
def toInt32 (n : Int) : Int := (n + 2 ^ 31) % 2 ^ 32 - 2 ^ 31

/-- The lambda `abs_diff` of `localIDsOnCoarserScale`:
`std::abs(static_cast<int32_t>(a) - static_cast<int32_t>(b))`, returned as `int32_t`.
Subtraction and `std::abs` are taken in 32-bit two's complement. -/
def abs_diff (a b : Nat) : Int :=
  toInt32 |toInt32 (toInt32 (a : Int) - toInt32 (b : Int))|

/-! ## Hierarchy and visual target -/

/-- The part of `HsneHierarchy` read by the scale navigation.

* `numScales`, `numPoints`: the members `_numScales`, `_numPoints`.
* `influenceMapBottomUp`: `getInfluenceHierarchy().getMapBottomUp()`, indexed
  `[scale][dataPointID]`, each entry holding zero or one landmark id.
* `influencingLandmarksInNextScale`: the HDILib query behind
  `getInfluencingLandmarksInCoarserScale`; the library is not part of the repository, so the
  query is a field: for a scale and landmark ids it yields the `std::map` of coarser landmark
  ids with their influence, in key order. -/
structure HsneHierarchy where
  numScales : Nat
  numPoints : Nat
  influenceMapBottomUp : List (List (List Nat))
  influencingLandmarksInNextScale : Nat → List Nat → List (Nat × ℚ)

/-- Translation of `HsneHierarchy::getNumScales`. -/
def HsneHierarchy.getNumScales (h : HsneHierarchy) : Nat := h.numScales

/-- Translation of `HsneHierarchy::getTopScale`: `_numScales - 1` in `uint32_t`. -/
def HsneHierarchy.getTopScale (h : HsneHierarchy) : Nat := (h.numScales + 2 ^ 32 - 1) % 2 ^ 32

/-- Translation of `HsneHierarchy::getNumPoints`. -/
def HsneHierarchy.getNumPoints (h : HsneHierarchy) : Nat := h.numPoints

/-- Translation of `HsneHierarchy::getLocalIDsInCoarserScale`. The third argument is the
incoming content of the output vector, which is returned untouched by the early return. -/
def HsneHierarchy.getLocalIDsInCoarserScale (h : HsneHierarchy) (currentScale : Nat)
    (landmarkIdxs coarserScaleIDxs : List Nat) (tresh : ℚ) : List Nat :=
  if h.numScales ≤ currentScale then coarserScaleIDxs
  else ((h.influencingLandmarksInNextScale currentScale landmarkIdxs).filter
          (fun n => decide (tresh < n.2))).map Prod.fst

/-- The class `utils::VisualTarget`. -/
structure VisualTarget where
  target : Nat
  heuristic : Bool

/-! ## Bottom-up heuristic lookup -/

/-- The effect of `std::unique` followed by `erase`: consecutive equal entries collapse. -/
def stdUnique : List Nat → List Nat
  | [] => []
  | [a] => [a]
  | a :: b :: t => if a = b then stdUnique (b :: t) else a :: stdUnique (b :: t)

/-- The gathering loop of `computeLocalIDsOnCoarserScaleHeuristic`: the landmark lists of the
selected data points, appended in selection order. -/
def gatherInfluencingLandmarks (influenceMapButtomUp : List (List Nat)) :
    List Nat → Option (List Nat)
  | [] => some []
  | imageSelectionID :: rest =>
    match influenceMapButtomUp[imageSelectionID]?,
          gatherInfluencingLandmarks influenceMapButtomUp rest with
    | some influencingLandmarkIds, some tail => some (influencingLandmarkIds ++ tail)
    | _, _ => none

/-- Translation of `utils::computeLocalIDsOnCoarserScaleHeuristic`. -/
def computeLocalIDsOnCoarserScaleHeuristic (newScaleLevel : Nat) (imageSelectionIDs : List Nat)
    (hsneHierarchy : HsneHierarchy) : Option (List Nat) :=
  match hsneHierarchy.influenceMapBottomUp[newScaleLevel]? with
  | none => none
  | some influenceMapButtomUp =>
    match gatherInfluencingLandmarks influenceMapButtomUp imageSelectionIDs with
    | none => none
    | some gathered => some (stdUnique (gathered.insertionSort (fun a b => a ≤ b)))

/-! ## Traversal for a visual target -/

/-- Loop variables of `localIDsOnCoarserScale(VisualTarget, ...)`. The field `evaluated` is a
specification-only record of the levels evaluated so far with their candidates, newest first;
nothing reads it. -/
structure Traversal where
  levelCounter : Nat
  cache_localIDsOnCoarserScale : List Nat
  localIDsOnCoarserScale : List Nat
  evaluated : List (Nat × List Nat)
  deriving DecidableEq

/-- The loop condition `cComp`: `counter <= comp` going up, and
`counter >= 0 && counter < 10000` going down. -/
def cComp (up : Bool) (counter comp : Nat) : Bool :=
  if up then decide (counter ≤ comp) else decide (counter < 10000)

/-- The loop update `cUpdate`: `counter++` going up, `counter--` going down, in `uint32_t`. -/
def cUpdate (up : Bool) (counter : Nat) : Nat :=
  if up then (counter + 1) % 2 ^ 32 else (counter + 2 ^ 32 - 1) % 2 ^ 32

/-- The candidate computed by one pass of the loop body at `levelCounter`. -/
def evaluateLevel (imageSelectionIDs : List Nat) (hsneHierarchy : HsneHierarchy)
    (tresh_influence : ℚ) (levelCounter : Nat) (localIDsOnCoarserScale : List Nat) :
    Option (List Nat) :=
  if tresh_influence = -1 then
    computeLocalIDsOnCoarserScaleHeuristic levelCounter imageSelectionIDs hsneHierarchy
  else if levelCounter = 0 then
    some (hsneHierarchy.getLocalIDsInCoarserScale levelCounter imageSelectionIDs
      localIDsOnCoarserScale tresh_influence)
  else
    some (hsneHierarchy.getLocalIDsInCoarserScale levelCounter localIDsOnCoarserScale
      localIDsOnCoarserScale tresh_influence)

/-- The `for` loop "traverse hierarchy" of `localIDsOnCoarserScale(VisualTarget, ...)`.
`up` is `traverseDirection == UP`. The first argument bounds the number of condition checks;
`none` stands for a run that exceeds the bound or indexes out of range. -/
def traverseHierarchy (target : Nat) (imageSelectionIDs : List Nat)
    (hsneHierarchy : HsneHierarchy) (tresh_influence : ℚ) (up : Bool) :
    Nat → Traversal → Option Traversal
  | 0, _ => none
  | fuel + 1, s =>
    if cComp up s.levelCounter hsneHierarchy.getTopScale then
      match evaluateLevel imageSelectionIDs hsneHierarchy tresh_influence s.levelCounter
              s.localIDsOnCoarserScale with
      | none => none
      | some ids =>
        if (up && decide (ids.length ≤ target)) ||
            (!up && (decide (target < ids.length) ||
              decide (hsneHierarchy.getNumPoints ≤ imageSelectionIDs.length))) then
          some { levelCounter := s.levelCounter
                 cache_localIDsOnCoarserScale := s.localIDsOnCoarserScale
                 localIDsOnCoarserScale := ids
                 evaluated := (s.levelCounter, ids) :: s.evaluated }
        else
          traverseHierarchy target imageSelectionIDs hsneHierarchy tresh_influence up fuel
            { levelCounter := cUpdate up s.levelCounter
              cache_localIDsOnCoarserScale := s.localIDsOnCoarserScale
              localIDsOnCoarserScale := ids
              evaluated := (s.levelCounter, ids) :: s.evaluated }
    else some s

/-- Whether `localIDsOnCoarserScale(VisualTarget, ...)` traverses upwards. It goes down when
the target is heuristic and `numSelection > 0.125f * numPoints`; the comparison is taken
exactly (`float` represents both sides exactly below `2^24`). -/
def traversesUp (visualTarget : VisualTarget) (imageSelectionIDs : List Nat)
    (hsneHierarchy : HsneHierarchy) : Bool :=
  !(visualTarget.heuristic && decide (hsneHierarchy.getNumPoints < 8 * imageSelectionIDs.length))

/-- The state in which `localIDsOnCoarserScale(VisualTarget, ...)` enters its loop.
`localIDs₀` is the incoming content of the output vector. -/
def initialTraversal (visualTarget : VisualTarget) (imageSelectionIDs : List Nat)
    (hsneHierarchy : HsneHierarchy) (localIDs₀ : List Nat) : Traversal :=
  let topScale := hsneHierarchy.getTopScale
  let numPoints := hsneHierarchy.getNumPoints
  let numSelection := imageSelectionIDs.length
  let target := visualTarget.target
  -- skip data level scale if num data level points is larger than visual target
  let skip : Bool := decide ((10 * target) % 2 ^ 64 < numSelection) &&
    decide (1 < hsneHierarchy.getNumScales)
  let level₁ := if skip then 1 else 0
  let ids₁ := if skip then imageSelectionIDs else localIDs₀
  -- go to top level when entire image is in view
  let full : Bool := decide (numPoints ≤ numSelection)
  let level₂ := if full then topScale else level₁
  let ids₂ := if full then imageSelectionIDs else ids₁
  -- check if traverse down instead of up
  let down : Bool := !(traversesUp visualTarget imageSelectionIDs hsneHierarchy)
  { levelCounter := if down then topScale else level₂
    cache_localIDsOnCoarserScale := []
    localIDsOnCoarserScale := if down then imageSelectionIDs else ids₂
    evaluated := [] }

/-- What `localIDsOnCoarserScale(VisualTarget, ...)` leaves behind: the two outputs and the
specification-only record of evaluated levels. -/
structure ScaleSelection where
  newScaleLevel : Nat
  localIDsOnCoarserScale : List Nat
  evaluated : List (Nat × List Nat)
  deriving DecidableEq

/-- The part of `localIDsOnCoarserScale(VisualTarget, ...)` after the loop. -/
def selectClosest (target : Nat) (up : Bool) (s : Traversal) : ScaleSelection :=
  -- Check edge-case wrap around
  let newScaleLevel := if !up && s.levelCounter = UINT32_MAX then 0 else s.levelCounter
  if up && newScaleLevel = 0 then
    ⟨newScaleLevel, s.localIDsOnCoarserScale, s.evaluated⟩
  else if abs_diff s.cache_localIDsOnCoarserScale.length target
      < abs_diff s.localIDsOnCoarserScale.length target then
    ⟨if up && decide (0 < newScaleLevel) then newScaleLevel - 1 else (newScaleLevel + 1) % 2 ^ 32,
     s.cache_localIDsOnCoarserScale, s.evaluated⟩
  else
    ⟨newScaleLevel, s.localIDsOnCoarserScale, s.evaluated⟩

/-- Translation of `utils::localIDsOnCoarserScale(const VisualTarget, ...)`, with the record of
evaluated levels. The loop gets `topScale + 2` condition checks, which suffice whenever the
counter does not wrap upwards. -/
def localIDsOnCoarserScaleTraced (visualTarget : VisualTarget) (imageSelectionIDs : List Nat)
    (hsneHierarchy : HsneHierarchy) (tresh_influence : ℚ) (localIDs₀ : List Nat) :
    Option ScaleSelection :=
  let up := traversesUp visualTarget imageSelectionIDs hsneHierarchy
  match traverseHierarchy visualTarget.target imageSelectionIDs hsneHierarchy tresh_influence up
      (hsneHierarchy.getTopScale + 2)
      (initialTraversal visualTarget imageSelectionIDs hsneHierarchy localIDs₀) with
  | none => none
  | some s => some (selectClosest visualTarget.target up s)

/-- Translation of `utils::localIDsOnCoarserScale(const VisualTarget, ...)`: the outputs
`newScaleLevel` and `localIDsOnCoarserScale`. -/
def localIDsOnCoarserScale (visualTarget : VisualTarget) (imageSelectionIDs : List Nat)
    (hsneHierarchy : HsneHierarchy) (tresh_influence : ℚ) (localIDs₀ : List Nat) :
    Option (Nat × List Nat) :=
  (localIDsOnCoarserScaleTraced visualTarget imageSelectionIDs hsneHierarchy tresh_influence
    localIDs₀).map (fun r => (r.newScaleLevel, r.localIDsOnCoarserScale))

/-! ## Scale-update worker (`HsneScaleUpdate.cpp`) -/

/-- The signals of `HsneScaleUpdateWorker`. -/
inductive WorkerSignal
  | started
  | finished (success : Bool)
  | scaleLevelComputed (level : Nat)
  deriving DecidableEq

/-- The outgoing signals of `HsneScaleUpdate`. -/
inductive UpdateSignal
  | finished (success : Bool)
  | scaleLevelComputed (level : Nat)
  deriving DecidableEq

/-- The class `HsneScaleUpdate` together with the two event queues between its thread and the
worker thread (the worker lives in `_workerThread`, so every connection is queued).

* `isRunning`: the member `_isRunning`.
* `startWorker`: emissions of `startWorker()` not yet delivered to the worker.
* `fromWorker`: worker signals not yet delivered to `HsneScaleUpdate`, oldest first. -/
structure HsneScaleUpdate where
  isRunning : Bool
  startWorker : Nat
  fromWorker : List WorkerSignal
  deriving DecidableEq

/-- The constructor `HsneScaleUpdate::HsneScaleUpdate`: `_isRunning(false)`, nothing queued. -/
def HsneScaleUpdate.create : HsneScaleUpdate :=
  { isRunning := false, startWorker := 0, fromWorker := [] }

/-- The signals emitted by `HsneScaleUpdateWorker::updateScale`, in order:
`emit scaleLevelComputed(_newScaleLevel)` and, as its last statement, `emit finished(true)`.
The values it computes are left out. -/
def HsneScaleUpdateWorker.updateScale (newScaleLevel : Nat) : List WorkerSignal :=
  [WorkerSignal.scaleLevelComputed newScaleLevel, WorkerSignal.finished true]

/-- Translation of `HsneScaleUpdate::startComputation`: `setData` and `emit startWorker()`. -/
def HsneScaleUpdate.startComputation (s : HsneScaleUpdate) : HsneScaleUpdate :=
  { s with startWorker := s.startWorker + 1 }

/-- The "From-Worker" connections made in the constructor: `started` sets `_isRunning`,
`finished` clears it and re-emits, `scaleLevelComputed` is re-emitted. -/
def HsneScaleUpdate.onWorkerSignal (s : HsneScaleUpdate) :
    WorkerSignal → HsneScaleUpdate × List UpdateSignal
  | WorkerSignal.started => ({ s with isRunning := true }, [])
  | WorkerSignal.finished success => ({ s with isRunning := false }, [UpdateSignal.finished success])
  | WorkerSignal.scaleLevelComputed level => (s, [UpdateSignal.scaleLevelComputed level])

/-- What can happen to a `HsneScaleUpdate`. -/
inductive UpdateEvent
  /-- The owner calls `startComputation`. -/
  | startComputation
  /-- The worker thread takes one queued `startWorker()` and runs `updateScale`. -/
  | workerRuns (newScaleLevel : Nat)
  /-- The owner's thread delivers the oldest queued worker signal. -/
  | deliver
  deriving DecidableEq

/-- One step of the scale-update state machine. -/
def HsneScaleUpdate.step (s : HsneScaleUpdate) : UpdateEvent → HsneScaleUpdate
  | UpdateEvent.startComputation => s.startComputation
  | UpdateEvent.workerRuns newScaleLevel =>
    if 0 < s.startWorker then
      { s with startWorker := s.startWorker - 1
               fromWorker := s.fromWorker ++ HsneScaleUpdateWorker.updateScale newScaleLevel }
    else s
  | UpdateEvent.deliver =>
    match s.fromWorker with
    | [] => s
    | signal :: rest => (HsneScaleUpdate.onWorkerSignal { s with fromWorker := rest } signal).1

/-- A run of the scale-update state machine. -/
def HsneScaleUpdate.run (s : HsneScaleUpdate) (events : List UpdateEvent) : HsneScaleUpdate :=
  events.foldl HsneScaleUpdate.step s

/-! ## Update request (`HsneScaleAction.cpp`) -/

/-- The enum `NoUpdate`. -/
inductive NoUpdate
  | ISRUNNING
  | ROINOTGOODFORUPDATE
  | SEITINUI
  deriving DecidableEq

/-- What `HsneScaleAction::update` and `computeUpdate` do to the outside: the signals they
emit and the call of `InteractiveHsnePlugin::deselectAll`. `setRoiInSequenceView` appends to
the ROI sequence, `stoptSNE` stops the solver. -/
inductive ActionEffect
  | noUpdate (reason : NoUpdate)
  | setRoiInSequenceView
  | started
  | stoptSNE
  | deselectAll
  deriving DecidableEq

/-- The members of `HsneScaleAction` read by `update`: the scale updater, `_RoiGoodForUpdate`
and `_updateStopAction.isChecked()`. The ID map, the initial embedding and the transition
matrix are written by the worker only, which runs on a queued `startWorker()`. -/
structure HsneScaleAction where
  hsneScaleUpdate : HsneScaleUpdate
  RoiGoodForUpdate : Bool
  updateStopAction : Bool
  deriving DecidableEq

/-- Translation of `HsneScaleAction::computeUpdate`. -/
def HsneScaleAction.computeUpdate (a : HsneScaleAction) : HsneScaleAction × List ActionEffect :=
  ({ a with hsneScaleUpdate := a.hsneScaleUpdate.startComputation },
   [ActionEffect.started, ActionEffect.stoptSNE, ActionEffect.deselectAll])

/-- Translation of `HsneScaleAction::update`. -/
def HsneScaleAction.update (a : HsneScaleAction) : HsneScaleAction × List ActionEffect :=
  if a.hsneScaleUpdate.isRunning then
    (a, [ActionEffect.noUpdate NoUpdate.ISRUNNING])
  else if a.RoiGoodForUpdate = false then
    (a, [ActionEffect.noUpdate NoUpdate.ROINOTGOODFORUPDATE])
  else if a.updateStopAction then
    (a, [ActionEffect.noUpdate NoUpdate.SEITINUI])
  else
    ((a.computeUpdate).1, ActionEffect.setRoiInSequenceView :: (a.computeUpdate).2)

/-! ## Sub-graph extraction (`utils::extractSubGraph`, `utils::eraseElements`) -/

/-- A row `hdi::data::SparseVec<uint32_t, float>`, a wrapper of `Eigen::SparseVector<float>`
from HDILib: the stored `(index, value)` entries in increasing index order. Its `size()` is the
number of stored entries. The dimension set by `resize` is not part of the model: no stored
index is compared with it. -/
abbrev SparseVec := List (Nat × ℚ)

/-- The type `HsneMatrix`, a `std::vector` of rows. -/
abbrev HsneMatrix := List SparseVec

/-- The constant `NOTFOUND` of `extractSubGraph`. -/
def NOTFOUND : Nat := UINT32_MAX

/-- Assignment `row[k] = v` on a sparse row: the entry of index `k` is overwritten, or
inserted at its place in the index order. -/
def setCoeff : SparseVec → Nat → ℚ → SparseVec
  | [], k, v => [(k, v)]
  | (k', v') :: t, k, v =>
    if k < k' then (k, v) :: (k', v') :: t
    else if k = k' then (k, v) :: t
    else (k', v') :: setCoeff t k v

/-- The loop `for (id : ids) map[id] = counter++` with a `uint32_t` counter; a write past the
end of `map` gives `none`. -/
def assignIndices : List Nat → Nat → List Nat → Option (List Nat)
  | [], _, map => some map
  | id :: rest, counter, map =>
    if id < map.length then assignIndices rest ((counter + 1) % 2 ^ 32) (map.set id counter)
    else none

/-- The inner loop over the stored entries of a source row: an entry whose index is mapped
(not `NOTFOUND`) and whose value passes `keep` is written to the destination row under the
mapped index. -/
def copyEntries (index_map : List Nat) (keep : ℚ → Bool) : SparseVec → SparseVec → Option SparseVec
  | [], dst => some dst
  | (index, value) :: rest, dst =>
    match index_map[index]? with
    | none => none
    | some mapped =>
      if mapped ≠ NOTFOUND ∧ keep value = true then
        copyEntries index_map keep rest (setCoeff dst mapped value)
      else copyEntries index_map keep rest dst

/-- The outer loop over rows, used twice by `extractSubGraph`: for each `i` of the list, the
entries of `src[i]` are copied into row `dstRowOf i` of the matrix under construction. -/
def copyRows (src : HsneMatrix) (index_map : List Nat) (keep : ℚ → Bool)
    (dstRowOf : Nat → Option Nat) : List Nat → HsneMatrix → Option HsneMatrix
  | [], M => some M
  | i :: rest, M =>
    match src[i]?, dstRowOf i with
    | some srcRow, some r =>
      match M[r]? with
      | none => none
      | some dstRow =>
        match copyEntries index_map keep srcRow dstRow with
        | none => none
        | some dstRow' => copyRows src index_map keep dstRowOf rest (M.set r dstRow')
    | _, _ => none

/-- The first loop of the degree filter: rows with at least `threshConnections` stored entries
are valid, the others invalid; `row` is the index of the first row of the list. -/
def partitionVertices (threshConnections : Nat) : HsneMatrix → Nat → List Nat × List Nat
  | [], _ => ([], [])
  | r :: rest, row =>
    let p := partitionVertices threshConnections rest (row + 1)
    if threshConnections ≤ r.length then (row :: p.1, p.2) else (p.1, row :: p.2)

/-- The predicate handed to `std::remove_if` by `utils::eraseElements`, run over the container
from the front with its two counters `currPos` and `nextIndPos`. -/
def eraseElementsLoop {α : Type} (positionsToErase : List Nat) : List α → Nat → Nat → List α
  | [], _, _ => []
  | x :: rest, currPos, nextIndPos =>
    match positionsToErase[nextIndPos]? with
    | none => x :: eraseElementsLoop positionsToErase rest currPos nextIndPos
    | some position =>
      if currPos = position then
        eraseElementsLoop positionsToErase rest (currPos + 1) (nextIndPos + 1)
      else x :: eraseElementsLoop positionsToErase rest (currPos + 1) nextIndPos

/-- Translation of `utils::eraseElements`. -/
def eraseElements {α : Type} (container : List α) (positionsToErase : List Nat) : List α :=
  eraseElementsLoop positionsToErase container 0 0

/-- The block "Filter entries with fewer than threshConnections connections" of
`extractSubGraph`. Its `uint32_t` row counter never reaches a size of `2^32` or more. -/
def filterLowDegree (threshConnections : Nat) (selected_idxes : List Nat)
    (new_transition_matrix : HsneMatrix) : Option (List Nat × HsneMatrix) :=
  if new_transition_matrix.length < 2 ^ 32 then
    let vertices := partitionVertices threshConnections new_transition_matrix 0
    let valid_vertices := vertices.1
    let invalid_vertices := vertices.2
    let selected := eraseElements selected_idxes invalid_vertices
    let erased := eraseElements new_transition_matrix invalid_vertices
    match assignIndices (valid_vertices.take (valid_vertices.length % 2 ^ 32)) 0
        (List.replicate (valid_vertices.length + invalid_vertices.length) NOTFOUND) with
    | none => none
    | some valid_set =>
      match copyRows erased valid_set (fun _ => true) some (List.range valid_vertices.length)
          (List.replicate erased.length []) with
      | none => none
      | some new_map => some (selected, new_map)
  else none

/-- The part of `extractSubGraph` before the normalisation: the selection as it is left to the
caller and the matrix with the copied weights. -/
def extractSubGraphUnnormalized (orig_transition_matrix : HsneMatrix) (threshConnections : Nat)
    (selected_idxes : List Nat) (thresh : ℚ) : Option (List Nat × HsneMatrix) :=
  match selected_idxes.getLast? with
  | none => none
  | some last =>
    match assignIndices selected_idxes 0
        (List.replicate (max orig_transition_matrix.length ((last + 1) % 2 ^ 32)) NOTFOUND) with
    | none => none
    | some map_selected_idxes =>
      match copyRows orig_transition_matrix map_selected_idxes (fun value => decide (thresh < value))
          (fun id => map_selected_idxes[id]?) selected_idxes
          (List.replicate selected_idxes.length []) with
      | none => none
      | some new_transition_matrix =>
        if 0 < threshConnections then
          filterLowDegree threshConnections selected_idxes new_transition_matrix
        else some (selected_idxes, new_transition_matrix)

/-- The sum of all stored weights of a matrix. -/
def totalWeight (M : HsneMatrix) : ℚ :=
  (M.map (fun row => (row.map Prod.snd).sum)).sum

/-- The last two loops of `extractSubGraph` in exact arithmetic: every weight becomes
`size * weight / sum`.  The source adds the weights up in a `double`, computes the quotient
by the `double` sum in floating point and stores it as `float`; these roundings are not
modelled, so what is proved about the values of the returned weights holds in exact arithmetic
and of the stored floats up to rounding only.  Which indices are stored does not depend on the
values. -/
def normalizeWeights (M : HsneMatrix) : HsneMatrix :=
  M.map (fun row => row.map (fun e => (e.1, (M.length : ℚ) * e.2 / totalWeight M)))

/-- Translation of `utils::extractSubGraph`: the selection as it is left to the caller and
`new_transition_matrix`, its weights normalised in exact arithmetic (see `normalizeWeights`). -/
def extractSubGraph (orig_transition_matrix : HsneMatrix) (threshConnections : Nat)
    (selected_idxes : List Nat) (thresh : ℚ) : Option (List Nat × HsneMatrix) :=
  (extractSubGraphUnnormalized orig_transition_matrix threshConnections selected_idxes thresh).map
    (fun r => (r.1, normalizeWeights r.2))

/-! ## Embedding re-initialisation -/

/-- Provenance tag of a re-initialised embedding point (`utils::POINTINITTYPE`). -/
inductive POINTINITTYPE where
  | previousPos
  | interpolPos
  | randomPos
  deriving DecidableEq

/-- Value type of the ID map (`EmbIdAndPos`). -/
structure EmbIdAndPos where
  localIdOnScale : Nat
  posInEmbedding : Nat
  deriving DecidableEq

/-- `IDMapping = std::unordered_map<uint32_t, EmbIdAndPos>`, kept as a list of
    key/value pairs; `IDMapping.insert` keeps the keys pairwise different. -/
abbrev IDMapping := List (Nat × EmbIdAndPos)

/-- `idMap.find(key)`: the entry stored under `key`, `none` for `idMap.end()`. -/
def IDMapping.find (idMap : IDMapping) (key : Nat) : Option EmbIdAndPos :=
  List.lookup key idMap

/-- `idMap.insert({key, value})`: a key that is already present keeps its
    old value. -/
def IDMapping.insert (idMap : IDMapping) (key : Nat) (value : EmbIdAndPos) : IDMapping :=
  match IDMapping.find idMap key with
  | some _ => idMap
  | none => idMap ++ [(key, value)]

/-- `mv::Vector2f` with exact coordinates. -/
abbrev Vector2f := ℚ × ℚ

/-- `utils::interpol2D`. -/
def interpol2D (vec1 vec2 vec3 : Vector2f) : Vector2f :=
  ((vec1.1 + vec2.1 + vec3.1) / 3, (vec1.2 + vec2.2 + vec3.2) / 3)

/-- `std::vector::resize(n)`: keeps the first `n` elements and pads with
    value-initialised ones. -/
def resizeVec {α : Type} (v : List α) (n : Nat) (fill : α) : List α :=
  v.take n ++ List.replicate (n - v.length) fill

/-- The scan over `transitionNNs` in `reinitializeEmbedding`: collects the
    embedding positions of the neighbours whose data id is in `idMap` into
    `transitNeighborsEmbPos` and stops at the third; the flag is
    `interpolatePos`.  `none` when `_landmark_to_original_data_idx` is read out
    of range. -/
def scanTransitionNNs (landmark_to_original_data_idx : List Nat) (idMap : IDMapping) :
    List Nat → List Nat → Nat → Option (List Nat × Bool)
  | [], transitNeighborsEmbPos, _ => some (transitNeighborsEmbPos, false)
  | transitID :: rest, transitNeighborsEmbPos, nnCount =>
    match landmark_to_original_data_idx[transitID]? with
    | none => none
    | some dataId =>
      match IDMapping.find idMap dataId with
      | some entry =>
        let arr := transitNeighborsEmbPos.set nnCount entry.posInEmbedding
        if nnCount + 1 = 3 then some (arr, true)
        else scanTransitionNNs landmark_to_original_data_idx idMap rest arr (nnCount + 1)
      | none =>
        scanTransitionNNs landmark_to_original_data_idx idMap rest transitNeighborsEmbPos nnCount

/-- Running state of `reinitializeEmbedding`: the two output vectors and the
    three counters. -/
structure ReinitState where
  initEmbedding : List ℚ
  initTypes : List POINTINITTYPE
  numPoints_oldPos : Nat
  numPoints_interPos : Nat
  numPoints_randPos : Nat
  deriving DecidableEq

/-- Body of the loop of `reinitializeEmbedding` for the landmark `localId` at
    position `emdId`.  `randomVec k` is the value of the `k`-th call of
    `utils::randomVec` made in this run. -/
def reinitializePoint (landmark_to_original_data_idx : List Nat)
    (transitionNNsOnScale : List (List Nat)) (embPositions : List Vector2f)
    (idMap : IDMapping) (randomVec : Nat → Vector2f)
    (emdId localId : Nat) (s : ReinitState) : Option ReinitState :=
  match landmark_to_original_data_idx[localId]? with
  | none => none
  | some dataId =>
    match IDMapping.find idMap dataId with
    | some entry =>
      match embPositions[entry.posInEmbedding]? with
      | none => none
      | some previousPoint =>
        some { s with
          initEmbedding := (s.initEmbedding.set (2 * emdId) previousPoint.1).set (2 * emdId + 1) previousPoint.2
          initTypes := s.initTypes.set emdId POINTINITTYPE.previousPos
          numPoints_oldPos := s.numPoints_oldPos + 1 }
    | none =>
      match transitionNNsOnScale[localId]? with
      | none => none
      | some transitionNNs =>
        match scanTransitionNNs landmark_to_original_data_idx idMap transitionNNs [0, 0, 0] 0 with
        | none => none
        | some (transitNeighborsEmbPos, true) =>
          match embPositions[transitNeighborsEmbPos.getD 0 0]?,
                embPositions[transitNeighborsEmbPos.getD 1 0]?,
                embPositions[transitNeighborsEmbPos.getD 2 0]? with
          | some p0, some p1, some p2 =>
            let interpolPoint := interpol2D p0 p1 p2
            some { s with
              initEmbedding := (s.initEmbedding.set (2 * emdId) interpolPoint.1).set (2 * emdId + 1) interpolPoint.2
              initTypes := s.initTypes.set emdId POINTINITTYPE.interpolPos
              numPoints_interPos := s.numPoints_interPos + 1 }
          | _, _, _ => none
        | some (_, false) =>
          let randomPoint := randomVec s.numPoints_randPos
          some { s with
            initEmbedding := (s.initEmbedding.set (2 * emdId) randomPoint.1).set (2 * emdId + 1) randomPoint.2
            initTypes := s.initTypes.set emdId POINTINITTYPE.randomPos
            numPoints_randPos := s.numPoints_randPos + 1 }

/-- The loop `for (emdId = 0; emdId < localIDsOnNewScale.size(); emdId++)`. -/
def reinitializeLoop (landmark_to_original_data_idx : List Nat)
    (transitionNNsOnScale : List (List Nat)) (embPositions : List Vector2f)
    (idMap : IDMapping) (randomVec : Nat → Vector2f) :
    List Nat → Nat → ReinitState → Option ReinitState
  | [], _, s => some s
  | localId :: rest, emdId, s =>
    match reinitializePoint landmark_to_original_data_idx transitionNNsOnScale embPositions
        idMap randomVec emdId localId s with
    | none => none
    | some s1 =>
      reinitializeLoop landmark_to_original_data_idx transitionNNsOnScale embPositions
        idMap randomVec rest (emdId + 1) s1

/-- `utils::reinitializeEmbedding`.  The first two arguments are
    `getScale(newScaleLevel)._landmark_to_original_data_idx` and
    `getTransitionNNOnScale(newScaleLevel)`; `initEmbedding` and `initTypes`
    are the vectors handed in by the caller, which are resized and then
    overwritten in place.  The embedding extends only set the radius of the
    random positions, which are given by `randomVec`.  Coordinates are exact
    rationals, and the `assert`s are left out as in a release build.  `none`
    stands for a read out of range. -/
def reinitializeEmbedding (landmark_to_original_data_idx : List Nat)
    (transitionNNsOnScale : List (List Nat)) (embPositions : List Vector2f)
    (idMap : IDMapping) (randomVec : Nat → Vector2f) (localIDsOnNewScale : List Nat)
    (initEmbedding : List ℚ) (initTypes : List POINTINITTYPE) : Option ReinitState :=
  reinitializeLoop landmark_to_original_data_idx transitionNNsOnScale embPositions idMap
    randomVec localIDsOnNewScale 0
    { initEmbedding := resizeVec initEmbedding (localIDsOnNewScale.length * 2) 0
      initTypes := resizeVec initTypes localIDsOnNewScale.length POINTINITTYPE.previousPos
      numPoints_oldPos := 0
      numPoints_interPos := 0
      numPoints_randPos := 0 }

/-- The loop of `utils::recomputeIDMap`; `i` is the loop counter. -/
def recomputeIDMapLoop (landmark_to_original_data_idx : List Nat) :
    List Nat → Nat → IDMapping → Option IDMapping
  | [], _, idMap => some idMap
  | localId :: rest, i, idMap =>
    match landmark_to_original_data_idx[localId]? with
    | none => none
    | some dataId =>
      recomputeIDMapLoop landmark_to_original_data_idx rest (i + 1)
        (IDMapping.insert idMap dataId { localIdOnScale := localId, posInEmbedding := i })

/-- `utils::recomputeIDMap`: `idMap.clear()` followed by one `insert` per
    landmark.  The loop counter is a `uint32_t`, so the loop only ends when
    the list has fewer than `2^32` entries; `none` stands for a read out of
    range or a loop that does not end. -/
def recomputeIDMap (landmark_to_original_data_idx : List Nat)
    (localIDsOnNewScale : List Nat) (_idMap : IDMapping) : Option IDMapping :=
  if localIDsOnNewScale.length < 2 ^ 32 then
    recomputeIDMapLoop landmark_to_original_data_idx localIDsOnNewScale 0 []
  else none

/-! ## Influence hierarchy -/

/-- `LandmarkMap = std::vector<std::vector<uint32_t>>`. -/
abbrev LandmarkMap := List (List Nat)

/-- The vector `influence` of `InfluenceHierarchy::initialize`: per scale the
    landmarks that influence one data point, in the iteration order of the
    `std::unordered_map`. -/
abbrev Influence := List (List (Nat × ℚ))

/-- The two maps of `InfluenceHierarchy`. -/
structure InfluenceHierarchy where
  influenceMapTopDown : List LandmarkMap
  influenceMapBottomUp : List LandmarkMap
  deriving DecidableEq

/-- The scales `1, ..., numScales - 1` in loop order. -/
def scalesAboveZero (numScales : Nat) : List Nat := List.range' 1 (numScales - 1)

/-- The inner loop of the retry block: `some true` when a scale above 0 has no
    influencing landmark (the loop breaks there), `none` when `influence` is
    read out of range. -/
def findsEmptyScale (influence : Influence) : List Nat → Option Bool
  | [] => some false
  | scale :: rest =>
    match influence[scale]? with
    | none => none
    | some scaleMap => if scaleMap.length < 1 then some true else findsEmptyScale influence rest

/-- The loop `for (tries = 0; tries < tries_max; tries++)` with `triesLeft`
    iterations to go.  `redo` is the flag declared before the loop; `query`
    is `getInfluenceOnDataPoint` for the data point at hand, which receives the
    current content of `influence`.  The last component lists the thresholds
    of all queries made so far; thresholds are exact rationals. -/
def retryInfluence (query : Influence → ℚ → Influence) (numScales : Nat) :
    Nat → Bool → ℚ → Influence → List ℚ → Option (Influence × List ℚ)
  | 0, _, _, influence, queried => some (influence, queried)
  | triesLeft + 1, redo, threshTopDown, influence, queried =>
    match findsEmptyScale influence (scalesAboveZero numScales) with
    | none => none
    | some found =>
      let redo := redo || found
      if redo then
        let threshTopDown := threshTopDown * (1 / 10)
        retryInfluence query numScales triesLeft redo threshTopDown
          (query influence threshTopDown) (queried ++ [threshTopDown])
      else some (influence, queried)

/-- The influence used for one data point: the first query with threshold
    0.01 followed by the retry block (`tries_max = 3`). -/
def influenceOnDataPoint (query : Influence → ℚ → Influence) (numScales : Nat) :
    Option (Influence × List ℚ) :=
  retryInfluence query numScales 3 false (1 / 100) (query [] (1 / 100)) [1 / 100]

/-- `std::max_element` with the comparison `lhs.second < rhs.second`: the
    first element that no later element exceeds. -/
def maxElement : List (Nat × ℚ) → Option (Nat × ℚ)
  | [] => none
  | x :: rest => some (rest.foldl (fun largest e => if largest.2 < e.2 then e else largest) x)

/-- The statement `map[scale][idx].push_back(value)`. -/
def pushBackAt (map : List LandmarkMap) (scale idx value : Nat) : Option (List LandmarkMap) :=
  match map[scale]? with
  | none => none
  | some landmarkMap =>
    match landmarkMap[idx]? with
    | none => none
    | some entries => some (map.set scale (landmarkMap.set idx (entries ++ [value])))

/-- The statement `map[scale].resize(n)`. -/
def resizeAt (map : List LandmarkMap) (scale n : Nat) : Option (List LandmarkMap) :=
  match map[scale]? with
  | none => none
  | some landmarkMap => some (map.set scale (resizeVec landmarkMap n []))

/-- The loop over the scales above 0 that records, for data point `i`, the
    landmark with the largest influence in both maps. -/
def recordTopInfluences (influence : Influence) (i : Nat) :
    List Nat → InfluenceHierarchy → Option InfluenceHierarchy
  | [], maps => some maps
  | scale :: rest, maps =>
    match influence[scale]? with
    | none => none
    | some scaleMap =>
      match maxElement scaleMap with
      | none => recordTopInfluences influence i rest maps
      | some largestInfluencingLandmark =>
        match pushBackAt maps.influenceMapBottomUp scale i largestInfluencingLandmark.1 with
        | none => none
        | some bottomUp =>
          match pushBackAt maps.influenceMapTopDown scale largestInfluencingLandmark.1 i with
          | none => none
          | some topDown =>
            recordTopInfluences influence i rest
              { influenceMapTopDown := topDown, influenceMapBottomUp := bottomUp }

/-- Body of the loop over the data points. -/
def recordDataPoint (landmark_to_original_data_idx : List Nat) (numScales : Nat)
    (getInfluenceOnDataPoint : Nat → Influence → ℚ → Influence) (i : Nat)
    (maps : InfluenceHierarchy) : Option InfluenceHierarchy :=
  match influenceOnDataPoint (getInfluenceOnDataPoint i) numScales with
  | none => none
  | some (influence, _) =>
    match landmark_to_original_data_idx[i]? with
    | none => none
    | some dataId =>
      match pushBackAt maps.influenceMapTopDown 0 i dataId with
      | none => none
      | some topDown =>
        match pushBackAt maps.influenceMapBottomUp 0 i dataId with
        | none => none
        | some bottomUp =>
          recordTopInfluences influence i (scalesAboveZero numScales)
            { influenceMapTopDown := topDown, influenceMapBottomUp := bottomUp }

/-- The loop over the data points, taken in increasing order. -/
def recordDataPoints (landmark_to_original_data_idx : List Nat) (numScales : Nat)
    (getInfluenceOnDataPoint : Nat → Influence → ℚ → Influence) :
    List Nat → InfluenceHierarchy → Option InfluenceHierarchy
  | [], maps => some maps
  | i :: rest, maps =>
    match recordDataPoint landmark_to_original_data_idx numScales getInfluenceOnDataPoint i maps with
    | none => none
    | some maps1 =>
      recordDataPoints landmark_to_original_data_idx numScales getInfluenceOnDataPoint rest maps1

/-- The loop that resizes the landmark maps of the scales above 0. -/
def resizeScales (scaleSizes : List Nat) (numDataPoints : Nat) :
    List Nat → InfluenceHierarchy → Option InfluenceHierarchy
  | [], maps => some maps
  | scale :: rest, maps =>
    match scaleSizes[scale]? with
    | none => none
    | some size =>
      match resizeAt maps.influenceMapTopDown scale (size % 2 ^ 32) with
      | none => none
      | some topDown =>
        match resizeAt maps.influenceMapBottomUp scale numDataPoints with
        | none => none
        | some bottomUp =>
          resizeScales scaleSizes numDataPoints rest
            { influenceMapTopDown := topDown, influenceMapBottomUp := bottomUp }

/-- `InfluenceHierarchy::initialize`.  `scaleSizes[s]` is `getScale(s).size()`,
    `landmark_to_original_data_idx` belongs to scale 0, `numScales` is
    `hierarchy.getNumScales()`, and `maps` is the content of the object before
    the call: both maps are empty after construction, and `HsneHierarchy::loadCache`,
    which runs before the call, fills them from the cache files.  The function
    resizes the maps and appends to them; it never clears them.  The data points
    are taken in increasing order.  `none` stands for an access out of range. -/
def initializeInfluenceHierarchy (scaleSizes : List Nat)
    (landmark_to_original_data_idx : List Nat) (numScales : Nat)
    (getInfluenceOnDataPoint : Nat → Influence → ℚ → Influence)
    (maps : InfluenceHierarchy) : Option InfluenceHierarchy :=
  match scaleSizes[0]? with
  | none => none
  | some size0 =>
    let numDataPoints := size0 % 2 ^ 32
    let topDown := resizeVec maps.influenceMapTopDown numScales []
    let bottomUp := resizeVec maps.influenceMapBottomUp numScales []
    match resizeAt topDown 0 numDataPoints with
    | none => none
    | some topDown =>
      match resizeAt bottomUp 0 numDataPoints with
      | none => none
      | some bottomUp =>
        match resizeScales scaleSizes numDataPoints (scalesAboveZero numScales)
            { influenceMapTopDown := topDown, influenceMapBottomUp := bottomUp } with
        | none => none
        | some maps1 =>
          recordDataPoints landmark_to_original_data_idx numScales getInfluenceOnDataPoint
            (List.range numDataPoints) maps1

/-! ## Transition neighbours -/

/-- `std::partial_sort_copy` with the comparison `a.second > b.second`: the
    `min` of the two lengths many heaviest entries of `temp_vec` are written,
    in descending order of weight, to the front of `sortedNN`; the rest of
    `sortedNN` is left as it was.  Entries of equal weight keep their order
    here; C++ leaves their order open. -/
def partialSortCopy (temp_vec sortedNN : List (Nat × ℚ)) : List (Nat × ℚ) :=
  (List.insertionSort (fun a b => a.2 ≥ b.2) temp_vec).take (min temp_vec.length sortedNN.length)
    ++ sortedNN.drop (min temp_vec.length sortedNN.length)

/-- The loop over the rows of one transition matrix in `computeTransitionNN`;
    `sortedNN` is declared before the loop and used for every row. -/
def transitionNNRows : List SparseVec → List (Nat × ℚ) → List (List Nat)
  | [], _ => []
  | transitionValues :: rest, sortedNN =>
    let sortedNN := partialSortCopy transitionValues sortedNN
    sortedNN.map Prod.fst :: transitionNNRows rest sortedNN

/-- The loop over the scales of `computeTransitionNN`. -/
def computeTransitionNNScales (transitionMatrices : List HsneMatrix) (nn : Nat) :
    List Nat → List (List (List Nat)) → Option (List (List (List Nat)))
  | [], transitionNNOnScale => some transitionNNOnScale
  | i :: rest, transitionNNOnScale =>
    match transitionMatrices[i]?, transitionNNOnScale[i]? with
    | some fullTransitionMatrix, some nnOnScale =>
      computeTransitionNNScales transitionMatrices nn rest
        (transitionNNOnScale.set i
          (nnOnScale ++ transitionNNRows fullTransitionMatrix (List.replicate nn (0, 0))))
    | _, _ => none

/-- `HsneHierarchy::computeTransitionNN`.  `transitionMatrices[i]` is
    `getScale(i)._transition_matrix`, `nn` is `_params._num_neighbors`, and the
    last argument is `_transitionNNOnScale` before the call (empty after
    construction). -/
def computeTransitionNN (transitionMatrices : List HsneMatrix) (numScales nn : Nat)
    (transitionNNOnScale : List (List (List Nat))) : Option (List (List (List Nat))) :=
  computeTransitionNNScales transitionMatrices nn (List.range numScales)
    (resizeVec transitionNNOnScale numScales [])

/-! ## Cache parameters -/

/-- The JSON values that occur in the parameter file.  Numbers of all C++
    types compare by value. -/
inductive JsonValue where
  | null
  | boolean (b : Bool)
  | number (q : ℚ)
  | string (s : String)
  deriving DecidableEq

/-- A JSON object. -/
abbrev JsonObject := List (String × JsonValue)

/-- `parameters.contains(key)`. -/
def JsonObject.contains (parameters : JsonObject) (key : String) : Bool :=
  (List.lookup key parameters).isSome

/-- `parameters[key]`: a missing key yields `null`. -/
def JsonObject.get (parameters : JsonObject) (key : String) : JsonValue :=
  (List.lookup key parameters).getD JsonValue.null

/-- The settings of the analysis that are written to the parameter file. -/
structure CacheSettings where
  inputDataName : String
  numPoints : Nat
  numDimensions : Nat
  numScales : Nat
  aknn_algorithm : Int
  exactKnn : Bool
  aknn_metric : Int
  num_neighbors : Nat
  aknn_annoy_num_trees : Int
  aknn_hnsw_M : Int
  aknn_hnsw_eff : Int
  out_of_core_computation : Bool
  num_walks_per_landmark : Nat
  mcmcs_num_walks : Nat
  mcmcs_landmark_thresh : ℚ
  mcmcs_walk_length : Nat
  transition_matrix_prune_thresh : ℚ
  hard_cut_off : Bool
  hard_cut_off_percentage : ℚ
  seed : Int
  monte_carlo_sampling : Bool

/-- `_PARAMETERS_CACHE_VERSION_`. -/
def PARAMETERS_CACHE_VERSION : String := "1.0"

/-- The JSON object written by `HsneHierarchy::saveCacheParameters`. -/
def saveCacheParameters (c : CacheSettings) : JsonObject :=
  [("## VERSION ##", JsonValue.string PARAMETERS_CACHE_VERSION),
   ("Input data name", JsonValue.string c.inputDataName),
   ("Number of points", JsonValue.number c.numPoints),
   ("Number of dimensions", JsonValue.number c.numDimensions),
   ("Number of Scales", JsonValue.number c.numScales),
   ("Knn library", JsonValue.number c.aknn_algorithm),
   ("Knn exact", JsonValue.boolean c.exactKnn),
   ("Knn distance metric", JsonValue.number c.aknn_metric),
   ("Knn number of neighbors", JsonValue.number c.num_neighbors),
   ("Nr. Trees for AKNN (Annoy)", JsonValue.number c.aknn_annoy_num_trees),
   ("Parameter M (HNSW)", JsonValue.number c.aknn_hnsw_M),
   ("Parameter eff (HNSW)", JsonValue.number c.aknn_hnsw_eff),
   ("Memory preserving computation", JsonValue.boolean c.out_of_core_computation),
   ("Nr. RW for influence", JsonValue.number c.num_walks_per_landmark),
   ("Nr. RW for Monte Carlo", JsonValue.number c.mcmcs_num_walks),
   ("Random walks threshold", JsonValue.number c.mcmcs_landmark_thresh),
   ("Random walks length", JsonValue.number c.mcmcs_walk_length),
   ("Pruning threshold", JsonValue.number c.transition_matrix_prune_thresh),
   ("Fixed Percentile Landmark Selection", JsonValue.boolean c.hard_cut_off),
   ("Percentile Landmark Selection", JsonValue.number c.hard_cut_off_percentage),
   ("Seed for random algorithms", JsonValue.number c.seed),
   ("Select landmarks with a MCMCS", JsonValue.boolean c.monte_carlo_sampling)]

/-- The lambda `checkParam` of `checkCacheParameters`. -/
def checkParam (parameters : JsonObject) (paramName : String) (localParam : JsonValue) : Bool :=
  if JsonObject.get parameters paramName ≠ localParam then false else true

/-- `HsneHierarchy::checkCacheParameters`.  `hsne` tells whether `_hsne` is
    set, `file` is the parsed content of the parameter file (`none` when the
    file cannot be opened).  The result `none` stands for the exception that
    the conversion of a version tag that is no string raises. -/
def checkCacheParameters (hsne : Bool) (file : Option JsonObject) (c : CacheSettings) :
    Option Bool :=
  if !hsne then some false
  else match file with
  | none => some false
  | some parameters =>
    if !JsonObject.contains parameters "## VERSION ##"
        || JsonObject.get parameters "## VERSION ##" ≠ JsonValue.string PARAMETERS_CACHE_VERSION then
      match JsonObject.get parameters "## VERSION ##" with
      | JsonValue.string _ => some false
      | _ => none
    else if !checkParam parameters "Input data name" (JsonValue.string c.inputDataName) then some false
    else if !checkParam parameters "Number of points" (JsonValue.number c.numPoints) then some false
    else if !checkParam parameters "Number of dimensions" (JsonValue.number c.numDimensions) then
      some false
    else if !checkParam parameters "Number of Scales" (JsonValue.number c.numScales) then some false
    else if !checkParam parameters "Knn library" (JsonValue.number c.aknn_algorithm) then some false
    else if !checkParam parameters "Knn distance metric" (JsonValue.number c.aknn_metric) then
      some false
    else
      let _ := if JsonObject.get parameters "Knn exact" ≠ JsonValue.null then
          checkParam parameters "Knn exact" (JsonValue.boolean c.exactKnn) else true
      if !checkParam parameters "Knn number of neighbors" (JsonValue.number c.num_neighbors) then
        some false
      else if !checkParam parameters "Nr. Trees for AKNN (Annoy)"
          (JsonValue.number c.aknn_annoy_num_trees) then some false
      else if !checkParam parameters "Parameter M (HNSW)" (JsonValue.number c.aknn_hnsw_M) then
        some false
      else if !checkParam parameters "Parameter eff (HNSW)" (JsonValue.number c.aknn_hnsw_eff) then
        some false
      else if !checkParam parameters "Memory preserving computation"
          (JsonValue.boolean c.out_of_core_computation) then some false
      else if !checkParam parameters "Nr. RW for influence"
          (JsonValue.number c.num_walks_per_landmark) then some false
      else if !checkParam parameters "Nr. RW for Monte Carlo"
          (JsonValue.number c.mcmcs_num_walks) then some false
      else if !checkParam parameters "Random walks threshold"
          (JsonValue.number c.mcmcs_landmark_thresh) then some false
      else if !checkParam parameters "Random walks length"
          (JsonValue.number c.mcmcs_walk_length) then some false
      else if !checkParam parameters "Pruning threshold"
          (JsonValue.number c.transition_matrix_prune_thresh) then some false
      else if !checkParam parameters "Fixed Percentile Landmark Selection"
          (JsonValue.boolean c.hard_cut_off) then some false
      else if !checkParam parameters "Percentile Landmark Selection"
          (JsonValue.number c.hard_cut_off_percentage) then some false
      else if !checkParam parameters "Seed for random algorithms" (JsonValue.number c.seed) then
        some false
      else if !checkParam parameters "Select landmarks with a MCMCS"
          (JsonValue.boolean c.monte_carlo_sampling) then some false
      else some true

/-! ## Cache files of the landmark maps -/

/-- The `width` bytes of an unsigned integer in memory, lowest byte first. -/
def encodeLE : Nat → Nat → List Nat
  | 0, _ => []
  | width + 1, n => n % 256 :: encodeLE width (n / 256)

/-- The unsigned integer stored in a sequence of bytes, lowest byte first. -/
def decodeLE : List Nat → Nat
  | [] => 0
  | b :: rest => b + 256 * decodeLE rest

/-- `loadFile.read(buffer, n)` into a zeroed buffer: the next `n` bytes of the
    stream; when the stream ends early the rest of the buffer stays zero and
    no byte is left for later reads. -/
def readBytes (n : Nat) (stream : List Nat) : List Nat × List Nat :=
  (resizeVec stream n 0, stream.drop n)

/-- The bytes of the ids of one landmark (`kSize * sizeof(uint32_t)` bytes). -/
def saveIds : List Nat → List Nat
  | [] => []
  | id :: rest => encodeLE 4 id ++ saveIds rest

/-- The bytes written by the loop over the landmarks of one scale. -/
def saveLandmarks : LandmarkMap → List Nat
  | [] => []
  | ids :: rest => encodeLE 8 ids.length ++ saveIds ids ++ saveLandmarks rest

/-- The bytes written by the loop over the scales. -/
def saveScales : List LandmarkMap → List Nat
  | [] => []
  | landmarks :: rest => encodeLE 8 landmarks.length ++ saveLandmarks landmarks ++ saveScales rest

/-- The content of the file written by `saveCacheHsneInfluenceHierarchy`
    (`size_t` has eight bytes). -/
def saveCacheHsneInfluenceHierarchy (influenceHierarchy : List LandmarkMap) : List Nat :=
  encodeLE 8 influenceHierarchy.length ++ saveScales influenceHierarchy

/-- The content of the file written by `saveCacheHsneTransitionNNOnScale`,
    which has the same body. -/
def saveCacheHsneTransitionNNOnScale (transitionNNOnScale : List LandmarkMap) : List Nat :=
  encodeLE 8 transitionNNOnScale.length ++ saveScales transitionNNOnScale

/-- Reads `kSize` ids of four bytes each. -/
def loadIds : Nat → List Nat → List Nat × List Nat
  | 0, stream => ([], stream)
  | kSize + 1, stream =>
    let bytes := readBytes 4 stream
    let rest := loadIds kSize bytes.2
    (decodeLE bytes.1 :: rest.1, rest.2)

/-- The loop over the landmarks of one scale in the load functions. -/
def loadLandmarks : Nat → List Nat → LandmarkMap × List Nat
  | 0, stream => ([], stream)
  | jSize + 1, stream =>
    let kSize := readBytes 8 stream
    let ids := loadIds (decodeLE kSize.1) kSize.2
    let rest := loadLandmarks jSize ids.2
    (ids.1 :: rest.1, rest.2)

/-- The loop over the scales in the load functions. -/
def loadScales : Nat → List Nat → List LandmarkMap × List Nat
  | 0, stream => ([], stream)
  | iSize + 1, stream =>
    let jSize := readBytes 8 stream
    let landmarks := loadLandmarks (decodeLE jSize.1) jSize.2
    let rest := loadScales iSize landmarks.2
    (landmarks.1 :: rest.1, rest.2)

/-- `loadCacheHsneInfluenceHierarchy` into an empty structure: `none` when the
    function returns `false` (`_hsne` not set or file not opened), otherwise
    the structure after the call. -/
def loadCacheHsneInfluenceHierarchy (hsne : Bool) (file : Option (List Nat)) :
    Option (List LandmarkMap) :=
  if !hsne then none
  else match file with
  | none => none
  | some stream =>
    let iSize := readBytes 8 stream
    some (loadScales (decodeLE iSize.1) iSize.2).1

/-- `loadCacheHsneTransitionNNOnScale` into an empty `_transitionNNOnScale`; it
    has the same body. -/
def loadCacheHsneTransitionNNOnScale (hsne : Bool) (file : Option (List Nat)) :
    Option (List LandmarkMap) :=
  if !hsne then none
  else match file with
  | none => none
  | some stream =>
    let iSize := readBytes 8 stream
    some (loadScales (decodeLE iSize.1) iSize.2).1

/-! ## Parameters (`HsneParameters.h`) -/

/-- The member `_numScales` of `HsneParameters`. -/
structure HsneParameters where
  numScales : Nat
  deriving DecidableEq

/-- Translation of `HsneParameters::setNumScales`: the assignment after the
    `if` block is not guarded. -/
def HsneParameters.setNumScales (p : HsneParameters) (numScales : Nat) : HsneParameters :=
  let p1 := if numScales ≤ 0 then { p with numScales := 1 } else p
  { p1 with numScales := numScales }

/-- Translation of `HsneParameters::getNumScales`. -/
def HsneParameters.getNumScales (p : HsneParameters) : Nat := p.numScales

/-! ## Single-step navigation -/

/-- The enum `utils::TraversalDirection`. -/
inductive TraversalDirection where
  | UP
  | DOWN
  | AUTO
  deriving DecidableEq

/-- Translation of `utils::applyTraversalDirection` on a `uint32_t` level. -/
def applyTraversalDirection (direction : TraversalDirection) (scaleLevel : Nat) : Nat :=
  match direction with
  | TraversalDirection.UP => (scaleLevel + 1) % 2 ^ 32
  | TraversalDirection.DOWN => (scaleLevel + 2 ^ 32 - 1) % 2 ^ 32
  | TraversalDirection.AUTO => scaleLevel

/-- The function `std::clamp(v, lo, hi)`. -/
def stdClamp (v lo hi : Nat) : Nat :=
  if v < lo then lo else if hi < v then hi else v

/-- The loop of `utils::computeLocalIDsOnCoarserScale` with `count` passes to
    go. -/
def computeLocalIDsOnCoarserScaleLoop (hsneHierarchy : HsneHierarchy) (tresh_influence : ℚ) :
    Nat → Nat → List Nat → List Nat → List Nat
  | 0, _, _, localIDsOnCoarserScale => localIDsOnCoarserScale
  | count + 1, scale_counter, localIDsOnScale, localIDsOnCoarserScale =>
    let coarser := hsneHierarchy.getLocalIDsInCoarserScale scale_counter localIDsOnScale
      localIDsOnCoarserScale tresh_influence
    computeLocalIDsOnCoarserScaleLoop hsneHierarchy tresh_influence count (scale_counter + 1)
      coarser coarser

/-- Translation of `utils::computeLocalIDsOnCoarserScale`.  The last argument is
    the incoming content of the output vector. -/
def computeLocalIDsOnCoarserScale (newScaleLevel : Nat) (imageSelectionIDs : List Nat)
    (hsneHierarchy : HsneHierarchy) (tresh_influence : ℚ) (localIDsOnCoarserScale : List Nat) :
    List Nat :=
  computeLocalIDsOnCoarserScaleLoop hsneHierarchy tresh_influence newScaleLevel 0
    imageSelectionIDs localIDsOnCoarserScale

/-! ## Region of interest (`Utils.h`, `utils::extractIdBlock`) -/

/-- The class `utils::Vector2D`.  The coordinates are integer-valued floats, as
    the constructors of `ROI` from `uint32_t` produce them. -/
structure Vector2D where
  x : Int
  y : Int
  deriving DecidableEq

/-- The default constructor `Vector2D()`. -/
def Vector2D.uninit : Vector2D := { x := -1, y := -1 }

/-- The layer part of `utils::ROI`. -/
structure ROI where
  layerBottomLeft : Vector2D
  layerTopRight : Vector2D
  deriving DecidableEq

/-- The conversion `static_cast<uint32_t>` of a non-negative integer-valued
    float. -/
def toUInt32 (v : Int) : Nat := v.toNat % 2 ^ 32

/-- The conversion `static_cast<size_t>` of a non-negative integer-valued
    float. -/
def toSizeT (v : Int) : Nat := v.toNat % 2 ^ 64

/-- Translation of `ROI::computeNumPixelInROI`, in `size_t` arithmetic. -/
def ROI.computeNumPixelInROI (layerBottomLeft layerTopRight : Vector2D) : Nat :=
  if layerBottomLeft = Vector2D.uninit ∧ layerTopRight = Vector2D.uninit then 0
  else
    let numRows := (toSizeT layerTopRight.x + 2 ^ 64 - toSizeT layerBottomLeft.x) % 2 ^ 64
    let numCols := (toSizeT layerTopRight.y + 2 ^ 64 - toSizeT layerBottomLeft.y) % 2 ^ 64
    (numRows * numCols) % 2 ^ 64

/-- Translation of `ROI::getNumPixelInROI`. -/
def ROI.getNumPixelInROI (roi : ROI) : Nat :=
  ROI.computeNumPixelInROI roi.layerBottomLeft roi.layerTopRight

/-- Translation of `utils::pixelInRoi`. -/
def pixelInRoi (x y : Nat) (roi : ROI) : Bool :=
  decide (x = stdClamp x (toUInt32 roi.layerBottomLeft.x) (toUInt32 roi.layerTopRight.x)) &&
  decide (y = stdClamp y (toUInt32 roi.layerBottomLeft.y) (toUInt32 roi.layerTopRight.y))

/-- The type `Eigen::MatrixXui`: `rows * cols` coefficients stored column by
    column. -/
structure MatrixXui where
  rows : Nat
  cols : Nat
  data : List Nat
  deriving DecidableEq

/-- The coefficient in row `r` and column `c`. -/
def MatrixXui.coeff (m : MatrixXui) (r c : Nat) : Nat := m.data.getD (r + c * m.rows) 0

/-- The coefficients of `m.block(startRow, startCol, numRows, numCols)` in
    storage order; `none` when the block does not lie within the matrix. -/
def MatrixXui.block (m : MatrixXui) (startRow startCol : Int) (numRows numCols : Nat) :
    Option (List Nat) :=
  if 0 ≤ startRow ∧ 0 ≤ startCol ∧ startRow.toNat + numRows ≤ m.rows ∧
      startCol.toNat + numCols ≤ m.cols then
    some (((List.range numCols).map (fun c =>
      (List.range numRows).map (fun r => m.coeff (startRow.toNat + r) (startCol.toNat + c)))).flatten)
  else none

/-- The matrix `_imageIndices` built by `HsneScaleAction::initImageSize` for an
    image of the given width and height: the indices `0, 1, ...` reshaped to
    `width` rows and `height` columns. -/
def initImageIndices (width height : Nat) : MatrixXui :=
  { rows := width, cols := height, data := List.range (width * height) }

/-- Translation of `utils::extractIdBlock`; the `assert`s are left out as in a
    release build. -/
def extractIdBlock (roiBottomLeft roiTopRight : Vector2D) (imageIndices : MatrixXui) :
    Option (List Nat) :=
  let numRows := toUInt32 (roiTopRight.x - roiBottomLeft.x)
  let numCols := toUInt32 (roiTopRight.y - roiBottomLeft.y)
  imageIndices.block roiBottomLeft.x roiBottomLeft.y numRows numCols

/-! ## Level and landmarks computed by the worker (`HsneScaleUpdateWorker::updateScale`) -/

/-- The members of `HsneScaleUpdateWorker` that `updateScale` reads and writes
    when it computes the new scale level, the landmarks and their transition
    matrix.  `visualBudget` holds the target and the heuristic flag of
    `_visualBudget`. -/
structure HsneScaleUpdateWorker where
  currentScaleLevel : Nat
  newScaleLevel : Nat
  localIDsOnNewScale : List Nat
  newTransitionMatrix : HsneMatrix
  fixScale : Bool
  tresh_influence : ℚ
  visualBudget : VisualTarget
  landmarkFilterNumber : Nat
  traversalDirection : TraversalDirection

/-- The part of `HsneScaleUpdateWorker::setData` that sets the members above. -/
def HsneScaleUpdateWorker.setData (w : HsneScaleUpdateWorker) (fixScale : Bool)
    (tresh_influence : ℚ) (visualBudget : VisualTarget) (landmarkFilterNumber : Nat)
    (direction : TraversalDirection) : HsneScaleUpdateWorker :=
  { w with fixScale := fixScale, tresh_influence := tresh_influence,
           visualBudget := visualBudget, landmarkFilterNumber := landmarkFilterNumber,
           traversalDirection := direction }

/-- The first block of `updateScale`: the new scale level and the landmarks
    that represent `imageSelectionIDs` on it. -/
def HsneScaleUpdateWorker.computeLocalIDs (w : HsneScaleUpdateWorker)
    (imageSelectionIDs : List Nat) (hsneHierarchy : HsneHierarchy) :
    Option HsneScaleUpdateWorker :=
  if w.traversalDirection = TraversalDirection.AUTO then
    if w.fixScale then
      if w.tresh_influence = -1 then
        (computeLocalIDsOnCoarserScaleHeuristic w.currentScaleLevel imageSelectionIDs
          hsneHierarchy).map
          (fun ids => { w with newScaleLevel := w.currentScaleLevel, localIDsOnNewScale := ids })
      else
        some { w with
          newScaleLevel := w.currentScaleLevel
          localIDsOnNewScale := computeLocalIDsOnCoarserScale w.currentScaleLevel
            imageSelectionIDs hsneHierarchy w.tresh_influence w.localIDsOnNewScale }
    else
      (localIDsOnCoarserScale w.visualBudget imageSelectionIDs hsneHierarchy w.tresh_influence
        w.localIDsOnNewScale).map
        (fun r => { w with newScaleLevel := r.1, localIDsOnNewScale := r.2 })
  else
    let newScaleLevel := applyTraversalDirection w.traversalDirection w.currentScaleLevel
    (computeLocalIDsOnCoarserScaleHeuristic newScaleLevel imageSelectionIDs hsneHierarchy).map
      (fun ids => { w with newScaleLevel := newScaleLevel, localIDsOnNewScale := ids })

/-- What `HsneScaleUpdateWorker::updateScale` does to the members above.  `roi`
    and `imageIndices` are the objects `_roi` and `_imageIndices` point to,
    `transitionMatrices[s]` is the transition matrix of scale `s`.  The
    statements between the sub-graph extraction and the last assignment (ROI
    representation, rescaling, `reinitializeEmbedding`, `recomputeIDMap`,
    `computeSelectionMapsAtScale`) write other members only and are left out.
    `none` stands for an access out of range. -/
def HsneScaleUpdateWorker.runUpdateScale (w : HsneScaleUpdateWorker) (roi : ROI)
    (imageIndices : MatrixXui) (hsneHierarchy : HsneHierarchy)
    (transitionMatrices : List HsneMatrix) : Option HsneScaleUpdateWorker :=
  match extractIdBlock roi.layerBottomLeft roi.layerTopRight imageIndices with
  | none => none
  | some imageSelectionIDs =>
    match w.computeLocalIDs imageSelectionIDs hsneHierarchy with
    | none => none
    | some w1 =>
      match transitionMatrices[w1.newScaleLevel]? with
      | none => none
      | some fullTransitionMatrix =>
        match extractSubGraph fullTransitionMatrix w1.landmarkFilterNumber
            w1.localIDsOnNewScale 0 with
        | none => none
        | some (landmarkIdxs, transitionMatrix) =>
          some { w1 with
            localIDsOnNewScale := landmarkIdxs
            newTransitionMatrix := transitionMatrix
            currentScaleLevel := w1.newScaleLevel }

/-! ## Embedding extends (`Utils.cpp`) -/

/-- The class `utils::EmbeddingExtends` with exact coordinates. -/
structure EmbeddingExtends where
  x_min : ℚ
  x_max : ℚ
  y_min : ℚ
  y_max : ℚ
  extend_x : ℚ
  extend_y : ℚ
  deriving DecidableEq

/-- The constructor `EmbeddingExtends(x_min, x_max, y_min, y_max)`. -/
def EmbeddingExtends.create (x_min x_max y_min y_max : ℚ) : EmbeddingExtends :=
  { x_min := x_min, x_max := x_max, y_min := y_min, y_max := y_max,
    extend_x := x_max - x_min, extend_y := y_max - y_min }

/-- The loop of `computeExtends` over the pairs `data[2 i]`, `data[2 i + 1]`,
    `i < emb.size() / 2`; the state is `(x_min, x_max, y_min, y_max)`. -/
def computeExtendsLoop : List ℚ → ℚ × ℚ × ℚ × ℚ → ℚ × ℚ × ℚ × ℚ
  | x :: y :: rest, (x_min, x_max, y_min, y_max) =>
    computeExtendsLoop rest
      (if x_min > x then x else x_min, if x_max < x then x else x_max,
       if y_min > y then y else y_min, if y_max < y then y else y_max)
  | _, s => s

/-- Translation of `utils::computeExtends(const std::vector<float>&)`. -/
def computeExtends (emb : List ℚ) : EmbeddingExtends :=
  let s := computeExtendsLoop emb (0, 0, 0, 0)
  EmbeddingExtends.create s.1 s.2.1 s.2.2.1 s.2.2.2

/-! ## Selection maps (`HsneHierarchy::computeSelectionMapsAtScale`) -/

/-- The loop `for (auto const& bottomID : mappingLocalToBottom[posInEmbedding])`. -/
def writeBottomToLocal (posInEmbedding : Nat) : List Nat → List Nat → Option (List Nat)
  | [], mappingBottomToLocal => some mappingBottomToLocal
  | bottomID :: rest, mappingBottomToLocal =>
    if bottomID < mappingBottomToLocal.length then
      writeBottomToLocal posInEmbedding rest (mappingBottomToLocal.set bottomID posInEmbedding)
    else none

/-- The loop over the positions of `computeSelectionMapsAtScale`; the state is
    `(mappingBottomToLocal, mappingLocalToBottom)`. -/
def selectionMapsLoop (landmarkMapTopDown : LandmarkMap) (localIDsOnNewScale : List Nat) :
    List Nat → List Nat × LandmarkMap → Option (List Nat × LandmarkMap)
  | [], maps => some maps
  | posInEmbedding :: rest, (mappingBottomToLocal, mappingLocalToBottom) =>
    match localIDsOnNewScale[posInEmbedding]? with
    | none => none
    | some localId =>
      match landmarkMapTopDown[localId]? with
      | none => none
      | some bottomIDs =>
        if posInEmbedding < mappingLocalToBottom.length then
          match writeBottomToLocal posInEmbedding bottomIDs mappingBottomToLocal with
          | none => none
          | some bottomToLocal =>
            selectionMapsLoop landmarkMapTopDown localIDsOnNewScale rest
              (bottomToLocal, mappingLocalToBottom.set posInEmbedding bottomIDs)
        else none

/-- Translation of `HsneHierarchy::computeSelectionMapsAtScale`: both maps are
    cleared and resized first.  `influenceMapTopDown` is
    `getInfluenceHierarchy().getMapTopDown()` and `numPoints` the member
    `_numPoints`; the positions are taken in increasing order.  The result is
    `(mappingBottomToLocal, mappingLocalToBottom)`; `none` stands for an access
    out of range. -/
def computeSelectionMapsAtScale (influenceMapTopDown : List LandmarkMap) (numPoints : Nat)
    (scale : Nat) (localIDsOnNewScale : List Nat) : Option (List Nat × LandmarkMap) :=
  match influenceMapTopDown[scale]? with
  | none => none
  | some landmarkMapTopDown =>
    selectionMapsLoop landmarkMapTopDown localIDsOnNewScale
      (List.range (localIDsOnNewScale.length % 2 ^ 32))
      (List.replicate numPoints UINT32_MAX, List.replicate localIDsOnNewScale.length [])

/-! ## Concrete hierarchies used as test inputs -/

/-- Three scales over four data points: two landmarks on scale 1, one on scale 2. -/
def fourPointHierarchy : HsneHierarchy :=
  { numScales := 3
    numPoints := 4
    influenceMapBottomUp := [[[0], [1], [2], [3]], [[0], [0], [1], [1]], [[0], [0], [0], [0]]]
    influencingLandmarksInNextScale := fun _ _ => [] }

/-- Two scales over four data points: two landmarks on scale 1. -/
def twoScaleHierarchy : HsneHierarchy :=
  { numScales := 2
    numPoints := 4
    influenceMapBottomUp := [[[0], [1], [2], [3]], [[0], [0], [1], [1]]]
    influencingLandmarksInNextScale := fun _ _ => [] }

/-- Three scales over 1000 data points: data point `i` is sent to landmark `i / 10` of the
100 landmarks on scale 1 and to landmark `i / 100` of the 10 landmarks on scale 2. -/
def thousandPointHierarchy : HsneHierarchy :=
  { numScales := 3
    numPoints := 1000
    influenceMapBottomUp :=
      [(List.range 1000).map (fun i => [i]),
       (List.range 1000).map (fun i => [i / 10]),
       (List.range 1000).map (fun i => [i / 100])]
    influencingLandmarksInNextScale := fun _ _ => [] }

/-! ## Properties stated in the words of the specification -/

/-- The selection rule as the specification words it: of the last two evaluated candidates,
the one of the previously evaluated level is returned exactly when its size is strictly closer
to the target, the distance being `|size - target|`; otherwise the candidate of the level where
the traversal stopped is returned. -/
def KeepsCloserOfLastTwo (target : Nat) (r : ScaleSelection) : Prop :=
  ∀ stop prev rest, r.evaluated = stop :: prev :: rest →
    r.localIDsOnCoarserScale =
      if |(prev.2.length : Int) - (target : Int)| < |(stop.2.length : Int) - (target : Int)|
      then prev.2 else stop.2

/-- The record of evaluated levels agrees with the loop variables: the newest candidate is
the current landmark list, the one before it is the cache. -/
def TraceInv (s : Traversal) : Prop :=
  (∀ stop rest, s.evaluated = stop :: rest → s.localIDsOnCoarserScale = stop.2) ∧
  (∀ stop prev rest, s.evaluated = stop :: prev :: rest →
    s.cache_localIDsOnCoarserScale = prev.2)

/-! ## Notions used to state and prove the sub-graph properties -/

/-- The matrix `M` stores the weight `w` in row `i` under the column index `j`. -/
def HasEdge (M : HsneMatrix) (i j : Nat) (w : ℚ) : Prop :=
  ∃ row, M[i]? = some row ∧ (j, w) ∈ row

/-- The edge part of the induced sub-graph property: for positions `i`, `j` of the selection,
`M` has an edge from row `i` to column `j` exactly when `orig` has an edge from `sel[i]` to
`sel[j]` whose weight exceeds the threshold. -/
def InducedEdges (orig : HsneMatrix) (sel : List Nat) (thresh : ℚ) (M : HsneMatrix) : Prop :=
  ∀ i j a b : Nat, sel[i]? = some a → sel[j]? = some b →
    ((∃ w', HasEdge M i j w') ↔ ∃ w, HasEdge orig a b w ∧ thresh < w)

/-- The induced sub-graph property as the specification words it: the edges of `M` are the
edges of `orig` between selected landmarks whose weight exceeds the threshold, re-indexed by
position in the selection, and every weight of `M` is the original weight multiplied by one
common positive factor.  The factor is exact: of a matrix of rounded weights the property can
fail where it holds of the exact ones. -/
def ScaledInducedSubgraph (orig : HsneMatrix) (sel : List Nat) (thresh : ℚ) (M : HsneMatrix) :
    Prop :=
  ∃ c : ℚ, 0 < c ∧ ∀ i j a b : Nat, ∀ w' : ℚ, sel[i]? = some a → sel[j]? = some b →
    (HasEdge M i j w' ↔ ∃ w, HasEdge orig a b w ∧ thresh < w ∧ w' = c * w)

/-- Column indices of a matrix are below `n`. -/
def ColumnsBelow (n : Nat) (M : HsneMatrix) : Prop :=
  ∀ row ∈ M, ∀ e ∈ row, e.1 < n

/-- Every entry of an index map is `NOTFOUND` or below `n`. -/
def MapBelow (n : Nat) (index_map : List Nat) : Prop :=
  ∀ x ∈ index_map, x = NOTFOUND ∨ x < n

/-- The entries written by `copyEntries`: the kept entries of a source row under their mapped
indices. -/
def mappedEntries (index_map : List Nat) (keep : ℚ → Bool) (src : SparseVec) : SparseVec :=
  src.filterMap (fun e =>
    match index_map[e.1]? with
    | some mapped => if mapped ≠ NOTFOUND ∧ keep e.2 = true then some (mapped, e.2) else none
    | none => none)

/-- An index map that sends the entries of `ids` to their positions and every other index to
`NOTFOUND`. -/
def IsPositionMap (ids : List Nat) (m : List Nat) : Prop :=
  (∀ k id : Nat, ids[k]? = some id → m[id]? = some k) ∧
  (∀ x v : Nat, m[x]? = some v → v ≠ NOTFOUND → ids[v]? = some x)

/-- The entries of a list at the positions where the mask is `true`. -/
def selectByMask {α : Type} : List α → List Bool → List α
  | x :: xs, b :: bs => if b = true then x :: selectByMask xs bs else selectByMask xs bs
  | _, _ => []

/-- The positions, counted from `c`, at which a mask has the value `b`. -/
def positionsWhere (b : Bool) : List Bool → Nat → List Nat
  | [], _ => []
  | x :: xs, c => if x = b then c :: positionsWhere b xs (c + 1) else positionsWhere b xs (c + 1)

/-- The mask of the degree filter: rows with at least `t` stored entries. -/
def degreeMask (t : Nat) (M : HsneMatrix) : List Bool :=
  M.map (fun r => decide (t ≤ r.length))

/-- The out-degree of landmark `id` in the induced, thresholded sub-graph of `sel`: the number
of entries of its row whose target is selected and whose weight exceeds the threshold. -/
def inducedOutDegree (orig : HsneMatrix) (sel : List Nat) (thresh : ℚ) (id : Nat) : Nat :=
  ((orig.getD id []).filter (fun e => decide (e.1 ∈ sel) && decide (thresh < e.2))).length

/-- A transition matrix over two landmarks with integer weights. -/
def exampleMatrix : HsneMatrix := [[(0, 1), (1, 3)], [(0, 2)]]

/-! ## Notions used to state the re-initialisation properties -/

/-- Old embedding positions of the entries of a neighbour list whose data id
    is a key of the ID map, in list order. -/
def transitNeighboursInMap (landmark_to_original_data_idx : List Nat) (idMap : IDMapping)
    (transitionNNs : List Nat) : List Nat :=
  transitionNNs.filterMap (fun transitID =>
    (landmark_to_original_data_idx[transitID]?).bind (fun dataId =>
      (IDMapping.find idMap dataId).map (fun entry => entry.posInEmbedding)))

/-- The coordinate slots `2 * emdId`, `2 * emdId + 1` hold the point `p` and
    the landmark at position `emdId` carries the tag `tag`. -/
def SlotHolds (s : ReinitState) (emdId : Nat) (p : Vector2f) (tag : POINTINITTYPE) : Prop :=
  s.initEmbedding[2 * emdId]? = some p.1 ∧ s.initEmbedding[2 * emdId + 1]? = some p.2 ∧
    s.initTypes[emdId]? = some tag

/-- All indices that `reinitializeEmbedding` reads are in range. -/
def ValidReinitInput (landmark_to_original_data_idx : List Nat)
    (transitionNNsOnScale : List (List Nat)) (embPositions : List Vector2f)
    (idMap : IDMapping) (localIDsOnNewScale : List Nat) : Prop :=
  (∀ id ∈ localIDsOnNewScale,
      id < landmark_to_original_data_idx.length ∧ id < transitionNNsOnScale.length) ∧
  (∀ nns ∈ transitionNNsOnScale, ∀ t ∈ nns, t < landmark_to_original_data_idx.length) ∧
  (∀ kv ∈ idMap, kv.2.posInEmbedding < embPositions.length)

/-- A scale with five landmarks (data ids 10 to 14) and their neighbour lists. -/
def exampleLandmarkToData : List Nat := [10, 11, 12, 13, 14]

/-- Neighbour lists of the five landmarks of the example scale. -/
def exampleTransitionNNs : List (List Nat) := [[1, 2, 3], [0, 2, 3], [0, 1, 3], [0, 1, 2], [0, 1]]

/-- An old ID map holding the data ids 10, 11 and 12 at embedding positions 0, 1, 2. -/
def exampleIdMap : IDMapping :=
  [(10, { localIdOnScale := 0, posInEmbedding := 0 }),
   (11, { localIdOnScale := 1, posInEmbedding := 1 }),
   (12, { localIdOnScale := 2, posInEmbedding := 2 })]

/-- Old embedding positions of the three landmarks of `exampleIdMap`. -/
def exampleEmbPositions : List Vector2f := [(0, 0), (3, 0), (0, 3)]

/-- What the three cases of `reinitializeEmbedding` prescribe for the landmark
    `localId`: the point `p` and the tag `tag` it is initialised with. -/
def PointRule (landmark_to_original_data_idx : List Nat)
    (transitionNNsOnScale : List (List Nat)) (embPositions : List Vector2f)
    (idMap : IDMapping) (localId : Nat) (p : Vector2f) (tag : POINTINITTYPE) : Prop :=
  ∃ dataId, landmark_to_original_data_idx[localId]? = some dataId ∧
    (∀ entry, IDMapping.find idMap dataId = some entry →
      embPositions[entry.posInEmbedding]? = some p ∧ tag = POINTINITTYPE.previousPos) ∧
    (IDMapping.find idMap dataId = none →
      ∃ nns, transitionNNsOnScale[localId]? = some nns ∧
        (3 ≤ (transitNeighboursInMap landmark_to_original_data_idx idMap nns).length →
          ∃ p0 p1 p2,
            embPositions[(transitNeighboursInMap landmark_to_original_data_idx idMap nns).getD 0 0]?
              = some p0 ∧
            embPositions[(transitNeighboursInMap landmark_to_original_data_idx idMap nns).getD 1 0]?
              = some p1 ∧
            embPositions[(transitNeighboursInMap landmark_to_original_data_idx idMap nns).getD 2 0]?
              = some p2 ∧
            p = interpol2D p0 p1 p2 ∧ tag = POINTINITTYPE.interpolPos) ∧
        ((transitNeighboursInMap landmark_to_original_data_idx idMap nns).length < 3 →
          tag = POINTINITTYPE.randomPos))

/-- The state `s1` is `s` with the point `p` and the tag `tag` written at
    position `emdId` and the counter of `tag` increased. -/
def WritesPoint (s s1 : ReinitState) (emdId : Nat) (p : Vector2f) (tag : POINTINITTYPE) : Prop :=
  s1.initEmbedding = (s.initEmbedding.set (2 * emdId) p.1).set (2 * emdId + 1) p.2 ∧
  s1.initTypes = s.initTypes.set emdId tag ∧
  s1.numPoints_oldPos = s.numPoints_oldPos + (if tag = POINTINITTYPE.previousPos then 1 else 0) ∧
  s1.numPoints_interPos = s.numPoints_interPos + (if tag = POINTINITTYPE.interpolPos then 1 else 0) ∧
  s1.numPoints_randPos = s.numPoints_randPos + (if tag = POINTINITTYPE.randomPos then 1 else 0)

/-! ## Notions used to state the influence-map properties -/

/-- No list stored in the map holds an entry. -/
def NoEntries (map : List LandmarkMap) : Prop :=
  ∀ landmarkMap ∈ map, ∀ entries ∈ landmarkMap, entries = []

/-- Relation between the two landmark maps of one scale above 0 after the data
    points below `k` have been processed. -/
def ScaleInv (td bu : LandmarkMap) (k : Nat) : Prop :=
  (∀ (i : Nat) (b : List Nat), k ≤ i → bu[i]? = some b → b = []) ∧
  (∀ (i : Nat) (b : List Nat), bu[i]? = some b → b.length ≤ 1) ∧
  (∀ (l : Nat) (t : List Nat) (x : Nat), td[l]? = some t → x ∈ t → x < k) ∧
  (∀ (l : Nat) (t : List Nat) (i : Nat), td[l]? = some t →
    t.count i = if bu[i]? = some [l] then 1 else 0)

/-- `ScaleInv` on every scale above 0. -/
def MapsInv (maps : InfluenceHierarchy) (k : Nat) : Prop :=
  ∀ (L : Nat) (td bu : LandmarkMap), 0 < L → maps.influenceMapTopDown[L]? = some td →
    maps.influenceMapBottomUp[L]? = some bu → ScaleInv td bu k

/-- Influence query on a hierarchy with three data points and two landmarks on
    scale 1: point 0 is influenced by both landmarks, point 1 by landmark 1,
    point 2 by none, whatever the threshold. -/
def exampleQuery : Nat → Influence → ℚ → Influence := fun i _ _ =>
  if i = 0 then [[(0, 1)], [(0, 3), (1, 7)]]
  else if i = 1 then [[(1, 1)], [(1, 1)]]
  else [[(2, 1)], []]

/-- Influence query of one data point that finds no landmark on scale 1 with
    the threshold 0.01 and one landmark with every lower threshold. -/
def exampleRetryQuery : Influence → ℚ → Influence := fun _ thresh =>
  if thresh < 1 / 100 then [[(0, 1)], [(0, 1)]] else [[(0, 1)], []]

/-- The structure can be held by the C++ types: every id is a 32-bit value and
    every size a 64-bit value. -/
def FitsCacheFormat (maps : List LandmarkMap) : Prop :=
  maps.length < 2 ^ 64 ∧
  ∀ landmarks ∈ maps, landmarks.length < 2 ^ 64 ∧
    ∀ ids ∈ landmarks, ids.length < 2 ^ 64 ∧ ∀ id ∈ ids, id < 2 ^ 32

/-! ## Notions used to state the properties of extends, selection maps and the ROI -/

/-- The x coordinates of the complete pairs of an interleaved coordinate list. -/
def xCoords : List ℚ → List ℚ
  | x :: _ :: rest => x :: xCoords rest
  | _ => []

/-- The y coordinates of the complete pairs of an interleaved coordinate list. -/
def yCoords : List ℚ → List ℚ
  | _ :: y :: rest => y :: yCoords rest
  | _ => []

/-- State of the two selection maps after the positions below `k` of the landmark list `ids`
    have been processed. -/
def SelectionMapsInv (td : LandmarkMap) (ids : List Nat) (numPoints k : Nat)
    (mappingBottomToLocal : List Nat) (mappingLocalToBottom : LandmarkMap) : Prop :=
  mappingBottomToLocal.length = numPoints ∧ mappingLocalToBottom.length = ids.length ∧
  (∀ pos id : Nat, pos < k → ids[pos]? = some id →
    mappingLocalToBottom[pos]? = some (td.getD id [])) ∧
  (∀ b v : Nat, mappingBottomToLocal[b]? = some v →
    (v = UINT32_MAX ∧ ∀ pos id : Nat, pos < k → ids[pos]? = some id → b ∉ td.getD id []) ∨
    (v < k ∧ ∃ id : Nat, ids[v]? = some id ∧ b ∈ td.getD id []))

/-- Two scales over three data points: two landmarks on scale 1. -/
def threePointHierarchy : HsneHierarchy :=
  { numScales := 2
    numPoints := 3
    influenceMapBottomUp := [[[0], [1], [2]], [[0], [1], [1]]]
    influencingLandmarksInNextScale := fun _ _ => [] }

/-- Transition matrices of the two scales of `threePointHierarchy`; on scale 0 the landmark 2
    has a single transition. -/
def threePointMatrices : List HsneMatrix :=
  [[[(1, 1), (2, 1)], [(0, 1), (2, 1)], [(0, 1)]], [[(0, 1), (1, 1)], [(0, 1), (1, 1)]]]

/-- A worker at scale level 0 that has not computed anything yet. -/
def idleWorker : HsneScaleUpdateWorker :=
  { currentScaleLevel := 0
    newScaleLevel := 0
    localIDsOnNewScale := []
    newTransitionMatrix := []
    fixScale := false
    tresh_influence := -1
    visualBudget := { target := 1, heuristic := false }
    landmarkFilterNumber := 0
    traversalDirection := TraversalDirection.AUTO }

/-- The ROI that shows the whole image of 3 x 1 pixels. -/
def threePixelRoi : ROI := { layerBottomLeft := { x := 0, y := 0 }, layerTopRight := { x := 3, y := 1 } }

/-- The worker `idleWorker` after an update with direction UP and filter number 2 on
    `threePointHierarchy`. -/
def workerAfterUp : HsneScaleUpdateWorker :=
  { currentScaleLevel := 1
    newScaleLevel := 1
    localIDsOnNewScale := [0, 1]
    newTransitionMatrix := normalizeWeights [[(0, 1), (1, 1)], [(0, 1), (1, 1)]]
    fixScale := false
    tresh_influence := -1
    visualBudget := { target := 1, heuristic := false }
    landmarkFilterNumber := 2
    traversalDirection := TraversalDirection.UP }

/-- The worker `workerAfterUp` after an update with direction DOWN and filter number 2. -/
def workerAfterDown : HsneScaleUpdateWorker :=
  { currentScaleLevel := 0
    newScaleLevel := 0
    localIDsOnNewScale := [0, 1]
    newTransitionMatrix := normalizeWeights [[(1, 1)], [(0, 1)]]
    fixScale := false
    tresh_influence := -1
    visualBudget := { target := 1, heuristic := false }
    landmarkFilterNumber := 2
    traversalDirection := TraversalDirection.DOWN }

/-! ## Lemmas: sorting and collapsing -/

theorem mem_stdUnique (x : Nat) : ∀ l : List Nat, x ∈ stdUnique l ↔ x ∈ l
  | [] => by simp [stdUnique]
  | [a] => by simp [stdUnique]
  | a :: b :: t => by
    have ih := mem_stdUnique x (b :: t)
    by_cases hab : a = b
    · subst hab
      simp only [stdUnique, if_true, ih]
      simp
    · simp only [stdUnique, if_neg hab, List.mem_cons, ih]

theorem stdUnique_sorted : ∀ l : List Nat, l.Sorted (· ≤ ·) → (stdUnique l).Sorted (· < ·)
  | [] => by simp [stdUnique]
  | [a] => by simp [stdUnique]
  | a :: b :: t => by
    intro h
    have hs : (b :: t).Sorted (· ≤ ·) := h.of_cons
    have ih := stdUnique_sorted (b :: t) hs
    by_cases hab : a = b
    · simp only [stdUnique, if_pos hab]; exact ih
    · simp only [stdUnique, if_neg hab]
      refine List.sorted_cons.mpr ⟨fun x hx => ?_, ih⟩
      have hx' : x ∈ b :: t := (mem_stdUnique x (b :: t)).1 hx
      have hab' : a ≤ b := (List.sorted_cons.1 h).1 b (List.mem_cons_self b t)
      have hbx : b ≤ x := by
        rcases List.mem_cons.1 hx' with rfl | hxt
        · exact le_rfl
        · exact (List.sorted_cons.1 hs).1 x hxt
      omega

/-- Sorting and collapsing yields the strictly increasing list of the members. -/
theorem stdUnique_sort_eq (l r : List Nat) (hr : r.Sorted (· < ·)) (hmem : ∀ x, x ∈ l ↔ x ∈ r) :
    stdUnique (l.insertionSort (fun a b => a ≤ b)) = r := by
  have h1 : (stdUnique (l.insertionSort (fun a b => a ≤ b))).Sorted (· < ·) :=
    stdUnique_sorted _ (List.sorted_insertionSort (fun a b : Nat => a ≤ b) l)
  refine List.eq_of_perm_of_sorted ?_ h1 hr
  refine (List.perm_ext_iff_of_nodup h1.nodup hr.nodup).2 (fun x => ?_)
  rw [mem_stdUnique, ← hmem x]
  exact (List.perm_insertionSort (fun a b : Nat => a ≤ b) l).mem_iff

theorem gatherInfluencingLandmarks_single (m : List (List Nat)) (f : Nat → Nat) :
    ∀ sel : List Nat, (∀ id ∈ sel, m[id]? = some [f id]) →
      gatherInfluencingLandmarks m sel = some (sel.map f)
  | [], _ => rfl
  | id :: rest, h => by
    have h1 := h id (List.mem_cons_self id rest)
    have h2 := gatherInfluencingLandmarks_single m f rest
      (fun x hx => h x (List.mem_cons_of_mem id hx))
    simp [gatherInfluencingLandmarks, h1, h2]


/-! ## Lemmas: the traversal loop -/

theorem abs_diff_eq (a b : Nat) (ha : a < 2 ^ 31) (hb : b < 2 ^ 31) :
    abs_diff a b = |(a : Int) - (b : Int)| := by
  unfold abs_diff toInt32
  have h1 : (((a : Int) + 2 ^ 31) % 2 ^ 32 - 2 ^ 31) = a := by omega
  have h2 : (((b : Int) + 2 ^ 31) % 2 ^ 32 - 2 ^ 31) = b := by omega
  rw [h1, h2]
  have h3 : (((a : Int) - b + 2 ^ 31) % 2 ^ 32 - 2 ^ 31) = (a : Int) - b := by omega
  rw [h3]
  rcases abs_cases ((a : Int) - b) with ⟨h, _⟩ | ⟨h, _⟩ <;> rw [h] <;> omega

theorem getTopScale_eq (h : HsneHierarchy) (hpos : 0 < h.numScales) (hlt : h.numScales < 2 ^ 32) :
    h.getTopScale = h.numScales - 1 := by
  unfold HsneHierarchy.getTopScale
  omega

theorem traverseHierarchy_inv (target : Nat) (sel : List Nat) (h : HsneHierarchy) (tresh : ℚ)
    (up : Bool) (htop : h.getTopScale < 2 ^ 32 - 1) :
    ∀ (fuel : Nat) (s s' : Traversal),
      traverseHierarchy target sel h tresh up fuel s = some s' →
      TraceInv s → (up = true → s.evaluated ≠ [] → 0 < s.levelCounter) →
      TraceInv s' ∧ (up = true → 2 ≤ s'.evaluated.length → 0 < s'.levelCounter) := by
  intro fuel
  induction fuel with
  | zero => intro s s' hrun; simp [traverseHierarchy] at hrun
  | succ fuel ih =>
    intro s s' hrun hinv hhead
    unfold traverseHierarchy at hrun
    by_cases hc : cComp up s.levelCounter h.getTopScale = true
    · rw [if_pos hc] at hrun
      cases hev : evaluateLevel sel h tresh s.levelCounter s.localIDsOnCoarserScale with
      | none => rw [hev] at hrun; simp at hrun
      | some ids =>
        rw [hev] at hrun
        simp only at hrun
        have hnew : TraceInv
            { levelCounter := cUpdate up s.levelCounter
              cache_localIDsOnCoarserScale := s.localIDsOnCoarserScale
              localIDsOnCoarserScale := ids
              evaluated := (s.levelCounter, ids) :: s.evaluated } := by
          constructor
          · intro stop rest he
            simp only [List.cons.injEq] at he
            rw [← he.1]
          · intro stop prev rest he
            simp only [List.cons.injEq] at he
            exact hinv.1 prev rest he.2
        split at hrun
        · -- the loop stops at this level
          simp only [Option.some.injEq] at hrun
          subst hrun
          refine ⟨⟨hnew.1, hnew.2⟩, ?_⟩
          intro hup hlen
          apply hhead hup
          intro hnil
          simp [hnil] at hlen
        · refine ih _ s' hrun hnew ?_
          intro hup _
          subst hup
          simp only [cComp, if_true, decide_eq_true_eq] at hc
          simp only [cUpdate, if_true]
          omega
    · rw [if_neg hc] at hrun
      simp only [Option.some.injEq] at hrun
      subst hrun
      refine ⟨hinv, ?_⟩
      intro hup hlen
      apply hhead hup
      intro hnil
      simp [hnil] at hlen

theorem traverseHierarchy_up_total (target : Nat) (sel : List Nat) (h : HsneHierarchy)
    (tresh : ℚ) (htop : h.getTopScale < 2 ^ 32 - 1)
    (htot : ∀ lvl ids, lvl ≤ h.getTopScale → (evaluateLevel sel h tresh lvl ids).isSome = true) :
    ∀ (fuel : Nat) (s : Traversal), s.levelCounter ≤ h.getTopScale + 1 →
      h.getTopScale + 2 ≤ fuel + s.levelCounter →
      ∃ s', traverseHierarchy target sel h tresh true fuel s = some s' := by
  intro fuel
  induction fuel with
  | zero => intro s h1 h2; omega
  | succ fuel ih =>
    intro s h1 h2
    unfold traverseHierarchy
    by_cases hc : cComp true s.levelCounter h.getTopScale = true
    · rw [if_pos hc]
      simp only [cComp, if_true, decide_eq_true_eq] at hc
      obtain ⟨ids, hev⟩ := Option.isSome_iff_exists.1 (htot s.levelCounter s.localIDsOnCoarserScale hc)
      rw [hev]
      simp only
      split
      · exact ⟨_, rfl⟩
      · apply ih
        · simp only [cUpdate, if_true]; omega
        · simp only [cUpdate, if_true]; omega
    · rw [if_neg hc]
      exact ⟨_, rfl⟩

theorem traverseHierarchy_down_total (target : Nat) (sel : List Nat) (h : HsneHierarchy)
    (tresh : ℚ)
    (htot : ∀ lvl ids, lvl ≤ h.getTopScale → (evaluateLevel sel h tresh lvl ids).isSome = true) :
    ∀ (fuel : Nat) (s : Traversal),
      (s.levelCounter ≤ h.getTopScale ∧ s.levelCounter + 2 ≤ fuel) ∨
        (10000 ≤ s.levelCounter ∧ 1 ≤ fuel) →
      ∃ s', traverseHierarchy target sel h tresh false fuel s = some s' := by
  intro fuel
  induction fuel with
  | zero => intro s h1; omega
  | succ fuel ih =>
    intro s h1
    unfold traverseHierarchy
    by_cases hc : cComp false s.levelCounter h.getTopScale = true
    · rw [if_pos hc]
      simp only [cComp, Bool.false_eq_true, if_false, decide_eq_true_eq] at hc
      have h2 : s.levelCounter ≤ h.getTopScale ∧ s.levelCounter + 2 ≤ fuel + 1 := by omega
      obtain ⟨ids, hev⟩ :=
        Option.isSome_iff_exists.1 (htot s.levelCounter s.localIDsOnCoarserScale h2.1)
      rw [hev]
      simp only
      split
      · exact ⟨_, rfl⟩
      · apply ih
        simp only [cUpdate, Bool.false_eq_true, if_false]
        omega
    · rw [if_neg hc]
      exact ⟨_, rfl⟩



theorem initialTraversal_level_le (vt : VisualTarget) (sel : List Nat) (h : HsneHierarchy)
    (ids₀ : List Nat) (hpos : 0 < h.numScales) (hlt : h.numScales < 2 ^ 32) :
    (initialTraversal vt sel h ids₀).levelCounter ≤ h.getTopScale := by
  have htop := getTopScale_eq h hpos hlt
  simp only [initialTraversal, HsneHierarchy.getNumScales]
  split
  · exact le_rfl
  · split
    · exact le_rfl
    · split
      · rename_i hskip
        simp only [Bool.and_eq_true, decide_eq_true_eq] at hskip
        omega
      · omega

theorem selectClosest_evaluated (target : Nat) (up : Bool) (s : Traversal) :
    (selectClosest target up s).evaluated = s.evaluated := by
  simp only [selectClosest]
  split_ifs <;> rfl

theorem selectClosest_localIDs (target : Nat) (up : Bool) (s : Traversal)
    (hlevel : up = true → 0 < s.levelCounter) :
    (selectClosest target up s).localIDsOnCoarserScale =
      if abs_diff s.cache_localIDsOnCoarserScale.length target
          < abs_diff s.localIDsOnCoarserScale.length target
      then s.cache_localIDsOnCoarserScale else s.localIDsOnCoarserScale := by
  cases up with
  | false => simp only [selectClosest, Bool.false_and, Bool.false_eq_true, if_false]; split_ifs <;> rfl
  | true =>
    have h0 : s.levelCounter ≠ 0 := Nat.pos_iff_ne_zero.1 (hlevel rfl)
    simp only [selectClosest, Bool.not_true, Bool.false_and, Bool.false_eq_true, if_false,
      Bool.true_and, decide_eq_true_eq, h0]
    split_ifs <;> rfl

/-- Full view with a heuristic target: the traversal stops at the top scale. -/
theorem fullView_stops_at_top (h : HsneHierarchy) (sel cand localIDs₀ : List Nat)
    (hs : h.numScales = 3) (hp : h.numPoints = 1000) (hsel : sel.length = 1000)
    (hc : computeLocalIDsOnCoarserScaleHeuristic 2 sel h = some cand)
    (hlen : cand.length ≤ 1000) :
    localIDsOnCoarserScale ⟨50, true⟩ sel h (-1) localIDs₀ = some (2, cand) := by
  have htop : h.getTopScale = 2 := by simp [HsneHierarchy.getTopScale, hs]
  have hup : traversesUp ⟨50, true⟩ sel h = false := by
    simp [traversesUp, HsneHierarchy.getNumPoints, hp, hsel]
  have hnot : ¬ (abs_diff 1000 50 < abs_diff cand.length 50) := by
    have hc31 : cand.length < 2 ^ 31 := lt_of_le_of_lt hlen (by norm_num)
    rw [abs_diff_eq 1000 50 (by norm_num) (by norm_num), abs_diff_eq _ 50 hc31 (by norm_num)]
    rcases abs_cases ((cand.length : Int) - ((50 : Nat) : Int)) with ⟨h, _⟩ | ⟨h, _⟩ <;> rw [h] <;>
      norm_num <;> omega
  simp [localIDsOnCoarserScale, localIDsOnCoarserScaleTraced, hup, htop, initialTraversal,
    traverseHierarchy, cComp, evaluateLevel, hc, HsneHierarchy.getNumPoints, hp, hsel,
    selectClosest, UINT32_MAX, hnot]


theorem thousandPoint_top_lookup :
    computeLocalIDsOnCoarserScaleHeuristic 2 (List.range 1000) thousandPointHierarchy
      = some (List.range 10) := by
  have hmap : thousandPointHierarchy.influenceMapBottomUp[2]?
      = some ((List.range 1000).map (fun i => [i / 100])) := by
    simp only [thousandPointHierarchy, List.getElem?_cons_succ, List.getElem?_cons_zero]
  have hg : gatherInfluencingLandmarks ((List.range 1000).map (fun i => [i / 100]))
      (List.range 1000) = some ((List.range 1000).map (fun i => i / 100)) := by
    apply gatherInfluencingLandmarks_single
    intro id hid
    have hid' : id < 1000 := List.mem_range.1 hid
    simp [List.getElem?_map, List.getElem?_range, hid']
  have hu : stdUnique (((List.range 1000).map (fun i => i / 100)).insertionSort
      (fun a b => a ≤ b)) = List.range 10 := by
    apply stdUnique_sort_eq _ _ (List.sorted_lt_range 10)
    intro x
    simp only [List.mem_map, List.mem_range]
    constructor
    · rintro ⟨i, hi, rfl⟩
      omega
    · intro hx
      exact ⟨100 * x, by omega, by omega⟩
  simp only [computeLocalIDsOnCoarserScaleHeuristic, hmap, hg, hu]

/-! ## Lemmas: the scale-update state machine -/

/-- No step sets `isRunning` or queues a `started` signal. -/
theorem HsneScaleUpdate.step_keeps_idle (s : HsneScaleUpdate) (e : UpdateEvent)
    (hrun : s.isRunning = false) (hq : WorkerSignal.started ∉ s.fromWorker) :
    (s.step e).isRunning = false ∧ WorkerSignal.started ∉ (s.step e).fromWorker := by
  cases e with
  | startComputation => exact ⟨hrun, hq⟩
  | workerRuns level =>
    simp only [HsneScaleUpdate.step]
    split
    · refine ⟨hrun, ?_⟩
      simp [HsneScaleUpdateWorker.updateScale, hq]
    · exact ⟨hrun, hq⟩
  | deliver =>
    simp only [HsneScaleUpdate.step]
    cases hf : s.fromWorker with
    | nil => simp only; exact ⟨hrun, by rw [hf]; simp⟩
    | cons signal rest =>
      rw [hf] at hq
      have hne : signal ≠ WorkerSignal.started := fun h => hq (by rw [h]; exact List.mem_cons_self _ _)
      have hrest : WorkerSignal.started ∉ rest := fun h => hq (List.mem_cons_of_mem _ h)
      cases signal with
      | started => exact absurd rfl hne
      | finished success => exact ⟨rfl, hrest⟩
      | scaleLevelComputed level => exact ⟨hrun, hrest⟩

/-- The idle invariant holds along every run. -/
theorem HsneScaleUpdate.run_keeps_idle (events : List UpdateEvent) :
    ∀ s : HsneScaleUpdate, s.isRunning = false → WorkerSignal.started ∉ s.fromWorker →
      (s.run events).isRunning = false := by
  induction events with
  | nil => intro s hrun _; exact hrun
  | cons e rest ih =>
    intro s hrun hq
    have h := HsneScaleUpdate.step_keeps_idle s e hrun hq
    exact ih (s.step e) h.1 h.2

/-! ## Claims C1 to C6 -/

/-- Claim C1, refuted on the code: for the full selection of `fourPointHierarchy` with target 3
(not heuristic, influence threshold -1) the function reports scale 1 together with the raw
selection `[0, 1, 2, 3]`, whereas the bottom-up lookup of the selection on scale 1 is
`[0, 1]`: the reported landmarks do not belong to the reported scale. -/
theorem localIDsOnCoarserScale_landmarks_off_scale :
    localIDsOnCoarserScale ⟨3, false⟩ [0, 1, 2, 3] fourPointHierarchy (-1) []
        = some (1, [0, 1, 2, 3]) ∧
      computeLocalIDsOnCoarserScaleHeuristic 1 [0, 1, 2, 3] fourPointHierarchy
        = some [0, 1] := by
  decide

/-- Claim C2, refuted on the code: on `twoScaleHierarchy`, whose top scale is 1, the selection
`[0, 1, 2]` with target 1 makes the upward traversal run past the top scale, and the function
reports scale 2. -/
theorem localIDsOnCoarserScale_level_above_top :
    localIDsOnCoarserScale ⟨1, false⟩ [0, 1, 2] twoScaleHierarchy (-1) [] = some (2, [0, 1]) ∧
      twoScaleHierarchy.getTopScale = 1 := by
  decide

/-- Claim C3 as stated fails: with target `2^32 - 1` the downward traversal over
`twoScaleHierarchy` evaluates scale 1 (one landmark) and scale 0 (two landmarks) and returns the
candidate of scale 1, although the candidate of scale 0, where it stopped, is closer to the
target. -/
theorem keepsCloserOfLastTwo_fails_for_large_target :
    ∃ r, localIDsOnCoarserScaleTraced ⟨2 ^ 32 - 1, true⟩ [0, 1] twoScaleHierarchy (-1) []
        = some r ∧ ¬ KeepsCloserOfLastTwo (2 ^ 32 - 1) r := by
  refine ⟨⟨1, [0], [(0, [0, 1]), (1, [0])]⟩, by decide, ?_⟩
  intro hk
  have h := hk (0, [0, 1]) (1, [0]) [] rfl
  revert h
  decide

/-- Claim C3, amended: for a hierarchy with at least one scale whose level lookups are in
range, and a target below `2^31`, the function returns, and whenever it has evaluated at least
two levels whose candidates have fewer than `2^31` entries, the returned landmark list is the
candidate of the level where the traversal stopped unless the candidate of the previously
evaluated level is strictly closer to the target (`|size - target|` strictly smaller), in which
case it is that previous candidate; on equal distances the stop-level candidate is kept. -/
theorem localIDsOnCoarserScale_keeps_closer (vt : VisualTarget) (sel : List Nat)
    (h : HsneHierarchy) (tresh : ℚ) (ids₀ : List Nat)
    (hpos : 0 < h.numScales) (hlt : h.numScales < 2 ^ 32)
    (htot : ∀ lvl ids, lvl ≤ h.getTopScale → (evaluateLevel sel h tresh lvl ids).isSome = true)
    (ht : vt.target < 2 ^ 31) :
    ∃ r, localIDsOnCoarserScaleTraced vt sel h tresh ids₀ = some r ∧
      ∀ stop prev rest, r.evaluated = stop :: prev :: rest →
        stop.2.length < 2 ^ 31 → prev.2.length < 2 ^ 31 →
        r.localIDsOnCoarserScale =
          if |(prev.2.length : Int) - (vt.target : Int)|
              < |(stop.2.length : Int) - (vt.target : Int)|
          then prev.2 else stop.2 := by
  have htop := getTopScale_eq h hpos hlt
  have htop' : h.getTopScale < 2 ^ 32 - 1 := by omega
  have hinit := initialTraversal_level_le vt sel h ids₀ hpos hlt
  have hrun : ∃ s', traverseHierarchy vt.target sel h tresh (traversesUp vt sel h)
      (h.getTopScale + 2) (initialTraversal vt sel h ids₀) = some s' := by
    cases hup : traversesUp vt sel h with
    | true =>
      apply traverseHierarchy_up_total vt.target sel h tresh htop' htot
      · omega
      · omega
    | false =>
      apply traverseHierarchy_down_total vt.target sel h tresh htot
      left
      exact ⟨hinit, by
        have : (initialTraversal vt sel h ids₀).levelCounter = h.getTopScale := by
          simp [initialTraversal, hup]
        omega⟩
  obtain ⟨s', hs'⟩ := hrun
  have hinv0 : TraceInv (initialTraversal vt sel h ids₀) := by
    constructor <;> intro _ _ <;> simp [initialTraversal]
  have hpost := traverseHierarchy_inv vt.target sel h tresh (traversesUp vt sel h) htop'
    (h.getTopScale + 2) _ s' hs' hinv0 (by intro _ hne; simp [initialTraversal] at hne)
  refine ⟨selectClosest vt.target (traversesUp vt sel h) s', ?_, ?_⟩
  · simp only [localIDsOnCoarserScaleTraced, hs']
  · intro stop prev rest hev hstop hprev
    obtain ⟨⟨hloc, hcache⟩, hlevel⟩ := hpost
    rw [selectClosest_evaluated] at hev
    have hl := hloc stop (prev :: rest) hev
    have hc := hcache stop prev rest hev
    have hlen2 : 2 ≤ s'.evaluated.length := by simp [hev]
    rw [selectClosest_localIDs vt.target _ s' (fun hup => hlevel hup hlen2), hl, hc,
      abs_diff_eq _ _ hprev ht, abs_diff_eq _ _ hstop ht]

/-- Claim C3, amended, at a concrete input: `twoScaleHierarchy`, selection `[0, 1, 2]`,
target 1, influence threshold -1. -/
theorem localIDsOnCoarserScale_keeps_closer_witness :
    ∃ r, localIDsOnCoarserScaleTraced ⟨1, false⟩ [0, 1, 2] twoScaleHierarchy (-1) [] = some r ∧
      ∀ stop prev rest, r.evaluated = stop :: prev :: rest →
        stop.2.length < 2 ^ 31 → prev.2.length < 2 ^ 31 →
        r.localIDsOnCoarserScale =
          if |(prev.2.length : Int) - ((1 : Nat) : Int)|
              < |(stop.2.length : Int) - ((1 : Nat) : Int)|
          then prev.2 else stop.2 :=
  localIDsOnCoarserScale_keeps_closer ⟨1, false⟩ [0, 1, 2] twoScaleHierarchy (-1) []
    (by decide) (by decide)
    (by
      intro lvl ids hl
      have hl' : lvl ≤ 1 := hl
      interval_cases lvl <;> rfl)
    (by decide)

/-- Claim C4 as stated fails: in the scenario of 1000 data points, 100 landmarks on scale 1
and 10 landmarks on scale 2, with target 50, a heuristic target, influence threshold -1 and
all 1000 points selected, the function does not report scale 1; it reports the top scale 2
with its 10 landmarks. -/
theorem thousandPoint_scenario_not_scale_one :
    localIDsOnCoarserScale ⟨50, true⟩ (List.range 1000) thousandPointHierarchy (-1) []
        = some (2, List.range 10) ∧
      ¬ ∃ ids, localIDsOnCoarserScale ⟨50, true⟩ (List.range 1000) thousandPointHierarchy (-1) []
        = some (1, ids) ∧ ids ≠ [] := by
  have h := fullView_stops_at_top thousandPointHierarchy (List.range 1000) (List.range 10) []
    rfl rfl (List.length_range 1000) thousandPoint_top_lookup (by simp)
  refine ⟨h, ?_⟩
  rintro ⟨ids, hids, _⟩
  rw [h] at hids
  simp at hids

/-- Claim C4, amended: for a hierarchy with 3 scales and 1000 data points whose bottom-up
lookup on scale 2 sends the selection onto 10 landmarks, `localIDsOnCoarserScale` with
`VisualTarget(target = 50, heuristic = true)`, influence threshold -1 and a selection of 1000
point ids returns `newScaleLevel = 2`, the top scale, and the non-empty list of these 10
landmarks; a selection covering the whole data set is sent to the top scale. -/
theorem localIDsOnCoarserScale_full_view_top (h : HsneHierarchy) (sel cand ids₀ : List Nat)
    (hs : h.numScales = 3) (hp : h.numPoints = 1000) (hsel : sel.length = 1000)
    (hc : computeLocalIDsOnCoarserScaleHeuristic 2 sel h = some cand)
    (hlen : cand.length = 10) :
    localIDsOnCoarserScale ⟨50, true⟩ sel h (-1) ids₀ = some (2, cand) ∧ cand ≠ [] := by
  refine ⟨fullView_stops_at_top h sel cand ids₀ hs hp hsel hc (by omega), ?_⟩
  intro hnil
  rw [hnil] at hlen
  simp at hlen

/-- Claim C4, amended, at the scenario of the specification. -/
theorem localIDsOnCoarserScale_full_view_top_witness :
    localIDsOnCoarserScale ⟨50, true⟩ (List.range 1000) thousandPointHierarchy (-1) []
        = some (2, List.range 10) ∧ List.range 10 ≠ [] :=
  localIDsOnCoarserScale_full_view_top thousandPointHierarchy (List.range 1000) (List.range 10)
    [] rfl rfl (List.length_range 1000) thousandPoint_top_lookup (List.length_range 10)

/-- Claim C5, refuted on the code: the worker never emits `started`, the only signal that
sets `_isRunning`, so along every run of the state machine from the constructed state, also
right after `startComputation`, `isRunning()` is false. -/
theorem HsneScaleUpdate.isRunning_never_true (events : List UpdateEvent) :
    (HsneScaleUpdate.create.run events).isRunning = false :=
  HsneScaleUpdate.run_keeps_idle events HsneScaleUpdate.create rfl (by simp [HsneScaleUpdate.create])

/-- Claim C6: `update()` called while `isRunning()` is true emits `noUpdate(ISRUNNING)` and
nothing else and leaves the action and its scale updater as they were: no `startWorker()` is
queued and neither `setRoiInSequenceView` nor `stoptSNE` is emitted, whatever the values of
`_RoiGoodForUpdate` and of the stop toggle. -/
theorem HsneScaleAction.update_while_running (a : HsneScaleAction)
    (hbusy : a.hsneScaleUpdate.isRunning = true) :
    a.update = (a, [ActionEffect.noUpdate NoUpdate.ISRUNNING]) := by
  simp [HsneScaleAction.update, hbusy]

/-- Claim C6 at a busy action whose ROI is not good for an update and whose stop toggle is
checked: the busy check comes first. -/
theorem HsneScaleAction.update_while_running_witness :
    HsneScaleAction.update ⟨⟨true, 0, []⟩, false, true⟩
      = (⟨⟨true, 0, []⟩, false, true⟩, [ActionEffect.noUpdate NoUpdate.ISRUNNING]) :=
  HsneScaleAction.update_while_running ⟨⟨true, 0, []⟩, false, true⟩ rfl

/-! ## Lemmas: sub-graph extraction -/

theorem sum_scaled_row (c : ℚ) (g : ℚ → ℚ) (hg : ∀ w, g w = c * w) (row : SparseVec) :
    ((row.map (fun e => (e.1, g e.2))).map Prod.snd).sum = c * (row.map Prod.snd).sum := by
  induction row with
  | nil => simp
  | cons e rest ih =>
    simp only [List.map_cons, List.sum_cons] at ih ⊢
    rw [ih, hg, mul_add]

theorem totalWeight_scaled (c : ℚ) (g : ℚ → ℚ) (hg : ∀ w, g w = c * w) (M : HsneMatrix) :
    totalWeight (M.map (fun row => row.map (fun e => (e.1, g e.2)))) = c * totalWeight M := by
  induction M with
  | nil => simp [totalWeight]
  | cons row rest ih =>
    simp only [totalWeight, List.map_cons, List.sum_cons] at ih ⊢
    rw [ih, sum_scaled_row c g hg, mul_add]

theorem length_normalizeWeights (M : HsneMatrix) : (normalizeWeights M).length = M.length := by
  simp [normalizeWeights]

theorem totalWeight_normalizeWeights (M : HsneMatrix) (h : totalWeight M ≠ 0) :
    totalWeight (normalizeWeights M) = (M.length : ℚ) := by
  unfold normalizeWeights
  rw [totalWeight_scaled ((M.length : ℚ) / totalWeight M)
    (fun w => (M.length : ℚ) * w / totalWeight M) (fun w => by ring)]
  field_simp

theorem extractSubGraph_eq (orig : HsneMatrix) (t : Nat) (sel : List Nat) (thresh : ℚ)
    (sel' : List Nat) (M : HsneMatrix) :
    extractSubGraph orig t sel thresh = some (sel', M) ↔
      ∃ M0, extractSubGraphUnnormalized orig t sel thresh = some (sel', M0) ∧
        M = normalizeWeights M0 := by
  unfold extractSubGraph
  constructor
  · intro h
    rcases Option.map_eq_some'.1 h with ⟨⟨s0, M0⟩, h0, heq⟩
    simp only [Prod.mk.injEq] at heq
    refine ⟨M0, ?_, heq.2.symm⟩
    rw [h0, heq.1]
  · rintro ⟨M0, h0, rfl⟩
    rw [h0]
    rfl

theorem mem_setCoeff_imp (e : Nat × ℚ) (k : Nat) (v : ℚ) :
    ∀ row : SparseVec, e ∈ setCoeff row k v → e = (k, v) ∨ e ∈ row
  | [], h => by
    simp only [setCoeff, List.mem_singleton] at h
    exact Or.inl h
  | (k', v') :: t, h => by
    unfold setCoeff at h
    split_ifs at h with h1 h2
    · rcases List.mem_cons.1 h with h | h
      · exact Or.inl h
      · exact Or.inr h
    · rcases List.mem_cons.1 h with h | h
      · exact Or.inl h
      · exact Or.inr (List.mem_cons_of_mem _ h)
    · rcases List.mem_cons.1 h with h | h
      · exact Or.inr (by rw [h]; exact List.mem_cons_self _ _)
      · rcases mem_setCoeff_imp e k v t h with h | h
        · exact Or.inl h
        · exact Or.inr (List.mem_cons_of_mem _ h)

theorem assignIndices_length : ∀ (ids : List Nat) (c : Nat) (m m' : List Nat),
    assignIndices ids c m = some m' → m'.length = m.length
  | [], c, m, m', h => by
    simp only [assignIndices, Option.some.injEq] at h
    rw [← h]
  | id :: rest, c, m, m', h => by
    unfold assignIndices at h
    split_ifs at h with hlt
    have := assignIndices_length rest _ _ m' h
    rw [this, List.length_set]

theorem assignIndices_below : ∀ (ids : List Nat) (c b : Nat) (m m' : List Nat),
    assignIndices ids c m = some m' → c ≤ b → MapBelow (b + ids.length) m →
      MapBelow (b + ids.length) m'
  | [], c, b, m, m', h, _, hm => by
    simp only [assignIndices, Option.some.injEq] at h
    rw [← h]; exact hm
  | id :: rest, c, b, m, m', h, hc, hm => by
    unfold assignIndices at h
    split_ifs at h with hlt
    have hlen : b + (id :: rest).length = (b + 1) + rest.length := by
      simp only [List.length_cons]; omega
    rw [hlen] at hm ⊢
    refine assignIndices_below rest _ (b + 1) _ m' h ?_ ?_
    · have := Nat.mod_le (c + 1) (2 ^ 32)
      omega
    · intro x hx
      rcases List.mem_or_eq_of_mem_set hx with hx | hx
      · exact hm x hx
      · right; omega

theorem copyEntries_below (n : Nat) (index_map : List Nat) (keep : ℚ → Bool)
    (hmap : MapBelow n index_map) :
    ∀ (src dst dst' : SparseVec), copyEntries index_map keep src dst = some dst' →
      (∀ e ∈ dst, e.1 < n) → ∀ e ∈ dst', e.1 < n
  | [], dst, dst', h, hd => by
    simp only [copyEntries, Option.some.injEq] at h
    rw [← h]; exact hd
  | (index, value) :: rest, dst, dst', h, hd => by
    unfold copyEntries at h
    cases hm : index_map[index]? with
    | none => rw [hm] at h; simp at h
    | some mapped =>
      rw [hm] at h
      simp only at h
      split_ifs at h with hk
      · refine copyEntries_below n index_map keep hmap rest _ dst' h ?_
        intro e he
        rcases mem_setCoeff_imp e mapped value dst he with he | he
        · rw [he]
          rcases hmap mapped (List.getElem?_mem hm) with hnf | hlt
          · exact absurd hnf hk.1
          · exact hlt
        · exact hd e he
      · exact copyEntries_below n index_map keep hmap rest dst dst' h hd

theorem copyRows_below (n : Nat) (src : HsneMatrix) (index_map : List Nat) (keep : ℚ → Bool)
    (dstRowOf : Nat → Option Nat) (hmap : MapBelow n index_map) :
    ∀ (is : List Nat) (M M' : HsneMatrix), copyRows src index_map keep dstRowOf is M = some M' →
      ColumnsBelow n M → M'.length = M.length ∧ ColumnsBelow n M'
  | [], M, M', h, hM => by
    simp only [copyRows, Option.some.injEq] at h
    rw [← h]; exact ⟨rfl, hM⟩
  | i :: rest, M, M', h, hM => by
    unfold copyRows at h
    cases hs : src[i]? with
    | none => rw [hs] at h; simp at h
    | some srcRow =>
      cases hr : dstRowOf i with
      | none => rw [hs, hr] at h; simp at h
      | some r =>
        rw [hs, hr] at h
        simp only at h
        cases hd : M[r]? with
        | none => rw [hd] at h; simp at h
        | some dstRow =>
          rw [hd] at h
          simp only at h
          cases hc : copyEntries index_map keep srcRow dstRow with
          | none => rw [hc] at h; simp at h
          | some dstRow' =>
            rw [hc] at h
            simp only at h
            have hrow := copyEntries_below n index_map keep hmap srcRow dstRow dstRow' hc
              (hM dstRow (List.getElem?_mem hd))
            have hM1 : ColumnsBelow n (M.set r dstRow') := by
              intro row hrow'
              rcases List.mem_or_eq_of_mem_set hrow' with h1 | h1
              · exact hM row h1
              · rw [h1]; exact hrow
            have := copyRows_below n src index_map keep dstRowOf hmap rest _ M' h hM1
            exact ⟨by rw [this.1, List.length_set], this.2⟩

theorem copyRows_src_lt (src : HsneMatrix) (index_map : List Nat) (keep : ℚ → Bool)
    (dstRowOf : Nat → Option Nat) :
    ∀ (is : List Nat) (M M' : HsneMatrix), copyRows src index_map keep dstRowOf is M = some M' →
      ∀ i ∈ is, i < src.length
  | [], _, _, _ => by simp
  | i :: rest, M, M', h => by
    unfold copyRows at h
    cases hs : src[i]? with
    | none => rw [hs] at h; simp at h
    | some srcRow =>
      cases hr : dstRowOf i with
      | none => rw [hs, hr] at h; simp at h
      | some r =>
        rw [hs, hr] at h
        simp only at h
        cases hd : M[r]? with
        | none => rw [hd] at h; simp at h
        | some dstRow =>
          rw [hd] at h
          simp only at h
          cases hc : copyEntries index_map keep srcRow dstRow with
          | none => rw [hc] at h; simp at h
          | some dstRow' =>
            rw [hc] at h
            simp only at h
            intro j hj
            rcases List.mem_cons.1 hj with hj | hj
            · rw [hj]
              exact (List.getElem?_eq_some_iff.1 hs).1
            · exact copyRows_src_lt src index_map keep dstRowOf rest _ M' h j hj

theorem eraseElementsLoop_length {α β : Type} (pos : List Nat) :
    ∀ (l₁ : List α) (l₂ : List β) (c n : Nat), l₁.length = l₂.length →
      (eraseElementsLoop pos l₁ c n).length = (eraseElementsLoop pos l₂ c n).length
  | [], [], _, _, _ => rfl
  | [], _ :: _, _, _, h => by simp at h
  | _ :: _, [], _, _, h => by simp at h
  | x :: xs, y :: ys, c, n, h => by
    have hl : xs.length = ys.length := by simpa using h
    unfold eraseElementsLoop
    cases hp : pos[n]? with
    | none =>
      simp only [List.length_cons]
      rw [eraseElementsLoop_length pos xs ys c n hl]
    | some p =>
      simp only
      split_ifs
      · exact eraseElementsLoop_length pos xs ys _ _ hl
      · simp only [List.length_cons]
        rw [eraseElementsLoop_length pos xs ys _ _ hl]

theorem mapBelow_mono {n n' : Nat} {m : List Nat} (h : MapBelow n m) (hn : n ≤ n') :
    MapBelow n' m := fun x hx => (h x hx).imp id (fun hlt => lt_of_lt_of_le hlt hn)

theorem columnsBelow_mono {n n' : Nat} {M : HsneMatrix} (h : ColumnsBelow n M) (hn : n ≤ n') :
    ColumnsBelow n' M := fun row hrow e he => lt_of_lt_of_le (h row hrow e he) hn

theorem mapBelow_replicate (n k : Nat) : MapBelow n (List.replicate k NOTFOUND) :=
  fun _ hx => Or.inl (List.eq_of_mem_replicate hx)

theorem columnsBelow_replicate (n k : Nat) : ColumnsBelow n (List.replicate k ([] : SparseVec)) := by
  intro row hrow e he
  rw [List.eq_of_mem_replicate hrow] at he
  simp at he

theorem columnsBelow_normalizeWeights (n : Nat) (M : HsneMatrix) (h : ColumnsBelow n M) :
    ColumnsBelow n (normalizeWeights M) := by
  intro row hrow e he
  simp only [normalizeWeights, List.mem_map] at hrow
  obtain ⟨row0, hrow0, rfl⟩ := hrow
  simp only [List.mem_map] at he
  obtain ⟨e0, he0, rfl⟩ := he
  exact h row0 hrow0 e0 he0

theorem filterLowDegree_shape (t : Nat) (sel : List Nat) (M : HsneMatrix) (sel' : List Nat)
    (M' : HsneMatrix) (hlen : M.length = sel.length)
    (h : filterLowDegree t sel M = some (sel', M')) :
    M'.length = sel'.length ∧ ColumnsBelow M'.length M' := by
  unfold filterLowDegree at h
  split_ifs at h with hsize
  simp only at h
  cases hv : assignIndices
      ((partitionVertices t M 0).1.take ((partitionVertices t M 0).1.length % 2 ^ 32)) 0
      (List.replicate ((partitionVertices t M 0).1.length + (partitionVertices t M 0).2.length)
        NOTFOUND) with
  | none => rw [hv] at h; simp at h
  | some valid_set =>
    rw [hv] at h
    simp only at h
    cases hc : copyRows (eraseElements M (partitionVertices t M 0).2) valid_set (fun _ => true)
        some (List.range (partitionVertices t M 0).1.length)
        (List.replicate (eraseElements M (partitionVertices t M 0).2).length []) with
    | none => rw [hc] at h; simp at h
    | some new_map =>
      rw [hc] at h
      simp only [Option.some.injEq, Prod.mk.injEq] at h
      obtain ⟨hsel, hM⟩ := h
      subst hsel hM
      have hmb := assignIndices_below _ 0 0 _ valid_set hv le_rfl
        (mapBelow_replicate _ _)
      have hcr := copyRows_below _ _ valid_set _ _ hmb _ _ new_map hc
        (columnsBelow_replicate _ _)
      have hsrc := copyRows_src_lt _ valid_set _ _ _ _ new_map hc
      have hnew : new_map.length = (eraseElements M (partitionVertices t M 0).2).length := by
        rw [hcr.1, List.length_replicate]
      have hvalid : (partitionVertices t M 0).1.length
          ≤ (eraseElements M (partitionVertices t M 0).2).length := by
        by_cases h0 : (partitionVertices t M 0).1.length = 0
        · omega
        · have := hsrc ((partitionVertices t M 0).1.length - 1)
            (List.mem_range.2 (by omega))
          omega
      refine ⟨?_, ?_⟩
      · rw [hnew]
        exact eraseElementsLoop_length _ M sel 0 0 hlen
      · refine columnsBelow_mono hcr.2 ?_
        rw [hnew]
        have := List.length_take_le ((partitionVertices t M 0).1.length % 2 ^ 32)
          (partitionVertices t M 0).1
        omega

theorem extractSubGraphUnnormalized_shape (orig : HsneMatrix) (t : Nat) (sel : List Nat)
    (thresh : ℚ) (sel' : List Nat) (M : HsneMatrix)
    (h : extractSubGraphUnnormalized orig t sel thresh = some (sel', M)) :
    M.length = sel'.length ∧ ColumnsBelow M.length M := by
  unfold extractSubGraphUnnormalized at h
  cases hl : sel.getLast? with
  | none => rw [hl] at h; simp at h
  | some last =>
    rw [hl] at h
    simp only at h
    cases ha : assignIndices sel 0
        (List.replicate (max orig.length ((last + 1) % 2 ^ 32)) NOTFOUND) with
    | none => rw [ha] at h; simp at h
    | some map =>
      rw [ha] at h
      simp only at h
      cases hc : copyRows orig map (fun value => decide (thresh < value))
          (fun id => map[id]?) sel (List.replicate sel.length []) with
      | none => rw [hc] at h; simp at h
      | some M1 =>
        rw [hc] at h
        simp only at h
        have hmb := assignIndices_below sel 0 0 _ map ha le_rfl (mapBelow_replicate _ _)
        rw [Nat.zero_add] at hmb
        have hcr := copyRows_below sel.length orig map _ _ hmb sel _ M1 hc
          (columnsBelow_replicate _ _)
        rw [List.length_replicate] at hcr
        split_ifs at h with ht
        · exact filterLowDegree_shape t sel M1 sel' M hcr.1 h
        · simp only [Option.some.injEq, Prod.mk.injEq] at h
          obtain ⟨hs, hM⟩ := h
          subst hs hM
          exact ⟨hcr.1, by rw [hcr.1]; exact hcr.2⟩

theorem setCoeff_perm (k : Nat) (v : ℚ) :
    ∀ row : SparseVec, k ∉ row.map Prod.fst → (setCoeff row k v).Perm ((k, v) :: row)
  | [], _ => by simp [setCoeff]
  | (k', v') :: t, h => by
    have hne : k ≠ k' := fun hk => h (by simp [hk])
    have ht : k ∉ t.map Prod.fst := fun hk => h (by simp only [List.map_cons, List.mem_cons]; exact Or.inr hk)
    unfold setCoeff
    split_ifs with h1
    · exact List.Perm.refl _
    · exact ((setCoeff_perm k v t ht).cons (k', v')).trans (List.Perm.swap _ _ _)

theorem mem_mappedEntries (index_map : List Nat) (keep : ℚ → Bool) (src : SparseVec)
    (j : Nat) (w : ℚ) :
    (j, w) ∈ mappedEntries index_map keep src ↔
      ∃ idx, (idx, w) ∈ src ∧ index_map[idx]? = some j ∧ j ≠ NOTFOUND ∧ keep w = true := by
  unfold mappedEntries
  rw [List.mem_filterMap]
  constructor
  · rintro ⟨⟨idx, w0⟩, hmem, hsome⟩
    cases hm : index_map[idx]? with
    | none => simp [hm] at hsome
    | some mapped =>
      simp only [hm] at hsome
      split_ifs at hsome with hk
      simp only [Option.some.injEq, Prod.mk.injEq] at hsome
      obtain ⟨rfl, rfl⟩ := hsome
      exact ⟨idx, hmem, hm, hk.1, hk.2⟩
  · rintro ⟨idx, hmem, hm, hnf, hk⟩
    refine ⟨(idx, w), hmem, ?_⟩
    simp [hm, hnf, hk]

theorem mappedEntries_cons (index_map : List Nat) (keep : ℚ → Bool) (index : Nat) (value : ℚ)
    (rest : SparseVec) (mapped : Nat) (hm : index_map[index]? = some mapped) :
    mappedEntries index_map keep ((index, value) :: rest) =
      if mapped ≠ NOTFOUND ∧ keep value = true
      then (mapped, value) :: mappedEntries index_map keep rest
      else mappedEntries index_map keep rest := by
  unfold mappedEntries
  rw [List.filterMap_cons]
  simp only [hm]
  split_ifs <;> rfl

theorem copyEntries_perm (index_map : List Nat) (keep : ℚ → Bool) :
    ∀ (src dst dst' : SparseVec), copyEntries index_map keep src dst = some dst' →
      ((dst ++ mappedEntries index_map keep src).map Prod.fst).Nodup →
      dst'.Perm (dst ++ mappedEntries index_map keep src)
  | [], dst, dst', h, _ => by
    simp only [copyEntries, Option.some.injEq] at h
    rw [← h]; simp [mappedEntries]
  | (index, value) :: rest, dst, dst', h, hnd => by
    unfold copyEntries at h
    cases hm : index_map[index]? with
    | none => rw [hm] at h; simp at h
    | some mapped =>
      rw [hm] at h
      simp only at h
      rw [mappedEntries_cons index_map keep index value rest mapped hm] at hnd ⊢
      split_ifs at h hnd ⊢ with hk
      · have hmid : (dst ++ (mapped, value) :: mappedEntries index_map keep rest).Perm
            ((mapped, value) :: (dst ++ mappedEntries index_map keep rest)) :=
          List.perm_middle
        have hnd' := (hmid.map Prod.fst).nodup_iff.1 hnd
        rw [List.map_cons, List.nodup_cons] at hnd'
        have hnotin : mapped ∉ dst.map Prod.fst := by
          intro hin
          apply hnd'.1
          rw [List.map_append]
          exact List.mem_append_left _ hin
        have hset := setCoeff_perm mapped value dst hnotin
        have hnd1 : ((setCoeff dst mapped value ++ mappedEntries index_map keep rest).map
            Prod.fst).Nodup := by
          have hp : (setCoeff dst mapped value ++ mappedEntries index_map keep rest).Perm
              ((mapped, value) :: (dst ++ mappedEntries index_map keep rest)) :=
            hset.append_right _
          rw [(hp.map Prod.fst).nodup_iff, List.map_cons, List.nodup_cons]
          exact hnd'
        have ih := copyEntries_perm index_map keep rest _ dst' h hnd1
        exact (ih.trans (hset.append_right _)).trans hmid.symm
      · exact copyEntries_perm index_map keep rest dst dst' h hnd

theorem copyEntries_total (index_map : List Nat) (keep : ℚ → Bool) :
    ∀ (src dst : SparseVec), (∀ e ∈ src, e.1 < index_map.length) →
      ∃ dst', copyEntries index_map keep src dst = some dst'
  | [], dst, _ => ⟨dst, rfl⟩
  | (index, value) :: rest, dst, h => by
    have hlt : index < index_map.length := h (index, value) (List.mem_cons_self _ _)
    have hrest : ∀ e ∈ rest, e.1 < index_map.length := fun e he => h e (List.mem_cons_of_mem _ he)
    unfold copyEntries
    rw [List.getElem?_eq_getElem hlt]
    simp only
    split_ifs
    · exact copyEntries_total index_map keep rest _ hrest
    · exact copyEntries_total index_map keep rest _ hrest

theorem assignIndices_total : ∀ (ids : List Nat) (c : Nat) (m : List Nat),
    (∀ id ∈ ids, id < m.length) → ∃ m', assignIndices ids c m = some m'
  | [], _, m, _ => ⟨m, rfl⟩
  | id :: rest, c, m, h => by
    have hlt : id < m.length := h id (List.mem_cons_self _ _)
    unfold assignIndices
    rw [if_pos hlt]
    apply assignIndices_total
    intro x hx
    rw [List.length_set]
    exact h x (List.mem_cons_of_mem _ hx)

theorem assignIndices_exact : ∀ (ids : List Nat) (c : Nat) (m m' : List Nat),
    assignIndices ids c m = some m' → ids.Nodup → c + ids.length ≤ 2 ^ 32 →
      (∀ k id, ids[k]? = some id → m'[id]? = some (c + k)) ∧
      (∀ x, x ∉ ids → m'[x]? = m[x]?)
  | [], c, m, m', h, _, _ => by
    simp only [assignIndices, Option.some.injEq] at h
    subst h
    exact ⟨by simp, fun _ _ => rfl⟩
  | id :: rest, c, m, m', h, hnd, hc => by
    unfold assignIndices at h
    split_ifs at h with hlt
    rw [List.nodup_cons] at hnd
    simp only [List.length_cons] at hc
    have hrec : ∀ c', assignIndices rest c' (m.set id c) = some m' → c' + rest.length ≤ 2 ^ 32 →
        (∀ k id', rest[k]? = some id' → m'[id']? = some (c' + k)) ∧
        (∀ x, x ∉ rest → m'[x]? = (m.set id c)[x]?) :=
      fun c' h' hc' => assignIndices_exact rest c' _ m' h' hnd.2 hc'
    by_cases hrest : rest = []
    · subst hrest
      simp only [assignIndices, Option.some.injEq] at h
      subst h
      constructor
      · intro k id' hk
        cases k with
        | zero =>
          simp only [List.getElem?_cons_zero, Option.some.injEq] at hk
          subst hk
          simp [List.getElem?_set_self hlt]
        | succ k => simp at hk
      · intro x hx
        have hne : id ≠ x := fun hxe => hx (by simp [hxe])
        exact List.getElem?_set_ne hne
    · have hpos : 0 < rest.length := List.length_pos.2 hrest
      have hmod : (c + 1) % 2 ^ 32 = c + 1 := Nat.mod_eq_of_lt (by omega)
      rw [hmod] at h
      obtain ⟨h1, h2⟩ := hrec (c + 1) h (by omega)
      constructor
      · intro k id' hk
        cases k with
        | zero =>
          simp only [List.getElem?_cons_zero, Option.some.injEq] at hk
          subst hk
          rw [h2 id hnd.1]
          simp [List.getElem?_set_self hlt]
        | succ k =>
          simp only [List.getElem?_cons_succ] at hk
          rw [h1 k id' hk]
          congr 1
          omega
      · intro x hx
        have hne : id ≠ x := fun hxe => hx (by simp [hxe])
        have hxr : x ∉ rest := fun hxe => hx (List.mem_cons_of_mem _ hxe)
        rw [h2 x hxr]
        exact List.getElem?_set_ne hne

theorem assignIndices_isPositionMap (ids : List Nat) (n : Nat) (m : List Nat)
    (h : assignIndices ids 0 (List.replicate n NOTFOUND) = some m) (hnd : ids.Nodup)
    (hlen : ids.length ≤ 2 ^ 32) : IsPositionMap ids m := by
  obtain ⟨h1, h2⟩ := assignIndices_exact ids 0 _ m h hnd (by omega)
  constructor
  · intro k id hk
    rw [h1 k id hk, Nat.zero_add]
  · intro x v hx hv
    by_cases hmem : x ∈ ids
    · obtain ⟨k, hk⟩ := List.mem_iff_getElem?.1 hmem
      have := h1 k x hk
      rw [hx, Nat.zero_add] at this
      simp only [Option.some.injEq] at this
      rw [this]; exact hk
    · rw [h2 x hmem] at hx
      have := List.getElem?_mem hx
      exact absurd (List.eq_of_mem_replicate this) hv

theorem nodup_keys_mappedEntries (ids m : List Nat) (keep : ℚ → Bool) (hm : IsPositionMap ids m) :
    ∀ src : SparseVec, (src.map Prod.fst).Nodup →
      ((mappedEntries m keep src).map Prod.fst).Nodup
  | [], _ => by simp [mappedEntries]
  | (index, value) :: rest, h => by
    rw [List.map_cons, List.nodup_cons] at h
    have ih := nodup_keys_mappedEntries ids m keep hm rest h.2
    cases hmi : m[index]? with
    | none =>
      have : mappedEntries m keep ((index, value) :: rest) = mappedEntries m keep rest := by
        unfold mappedEntries
        rw [List.filterMap_cons]
        simp [hmi]
      rw [this]; exact ih
    | some mapped =>
      rw [mappedEntries_cons m keep index value rest mapped hmi]
      split_ifs with hk
      · rw [List.map_cons, List.nodup_cons]
        refine ⟨?_, ih⟩
        intro hin
        obtain ⟨⟨j, w⟩, hjw, hj⟩ := List.mem_map.1 hin
        simp only at hj
        subst hj
        obtain ⟨idx, hidx, hmidx, _, _⟩ := (mem_mappedEntries m keep rest j w).1 hjw
        have e1 := hm.2 idx j hmidx hk.1
        have e2 := hm.2 index j hmi hk.1
        rw [e1] at e2
        simp only [Option.some.injEq] at e2
        apply h.1
        rw [← e2]
        exact List.mem_map.2 ⟨(idx, w), hidx, rfl⟩
      · exact ih

theorem copyRows_exact (src : HsneMatrix) (m : List Nat) (keep : ℚ → Bool)
    (dstRowOf : Nat → Option Nat) :
    ∀ (is : List Nat) (M M' : HsneMatrix), copyRows src m keep dstRowOf is M = some M' →
      is.Nodup →
      (∀ i ∈ is, ∀ j ∈ is, ∀ r, dstRowOf i = some r → dstRowOf j = some r → i = j) →
      (∀ i ∈ is, ∀ r, dstRowOf i = some r → M[r]? = some []) →
      (∀ i ∈ is, ∀ row, src[i]? = some row → ((mappedEntries m keep row).map Prod.fst).Nodup) →
      M'.length = M.length ∧
      (∀ i ∈ is, ∀ r, dstRowOf i = some r → ∃ srcRow row', src[i]? = some srcRow ∧
        M'[r]? = some row' ∧ row'.Perm (mappedEntries m keep srcRow)) ∧
      (∀ r, (∀ i ∈ is, dstRowOf i ≠ some r) → M'[r]? = M[r]?)
  | [], M, M', h, _, _, _, _ => by
    simp only [copyRows, Option.some.injEq] at h
    subst h
    exact ⟨rfl, by simp, fun _ _ => rfl⟩
  | i :: rest, M, M', h, hnd, hinj, hempty, hkeys => by
    unfold copyRows at h
    cases hs : src[i]? with
    | none => rw [hs] at h; simp at h
    | some srcRow =>
      cases hr : dstRowOf i with
      | none => rw [hs, hr] at h; simp at h
      | some r =>
        rw [hs, hr] at h
        simp only at h
        have hMr := hempty i (List.mem_cons_self _ _) r hr
        rw [hMr] at h
        simp only at h
        cases hc : copyEntries m keep srcRow [] with
        | none => rw [hc] at h; simp at h
        | some dstRow' =>
          rw [hc] at h
          simp only at h
          rw [List.nodup_cons] at hnd
          have hrlt : r < M.length := (List.getElem?_eq_some_iff.1 hMr).1
          have hdiff : ∀ j ∈ rest, dstRowOf j ≠ some r := by
            intro j hj hjr
            have := hinj i (List.mem_cons_self _ _) j (List.mem_cons_of_mem _ hj) r hr hjr
            exact hnd.1 (this ▸ hj)
          have ih := copyRows_exact src m keep dstRowOf rest (M.set r dstRow') M' h hnd.2
            (fun a ha b hb => hinj a (List.mem_cons_of_mem _ ha) b (List.mem_cons_of_mem _ hb))
            (by
              intro j hj r' hr'
              have hne : r ≠ r' := fun he => hdiff j hj (he ▸ hr')
              rw [List.getElem?_set_ne hne]
              exact hempty j (List.mem_cons_of_mem _ hj) r' hr')
            (fun a ha => hkeys a (List.mem_cons_of_mem _ ha))
          obtain ⟨ih1, ih2, ih3⟩ := ih
          have hperm := copyEntries_perm m keep srcRow [] dstRow' hc
            (by simpa using hkeys i (List.mem_cons_self _ _) srcRow hs)
          refine ⟨by rw [ih1, List.length_set], ?_, ?_⟩
          · intro j hj r' hr'
            rcases List.mem_cons.1 hj with hj | hj
            · subst hj
              rw [hr] at hr'
              simp only [Option.some.injEq] at hr'
              subst hr'
              refine ⟨srcRow, dstRow', hs, ?_, by simpa using hperm⟩
              rw [ih3 r hdiff, List.getElem?_set_self hrlt]
            · exact ih2 j hj r' hr'
          · intro r0 hr0
            have hne : r ≠ r0 := fun he => hr0 i (List.mem_cons_self _ _) (he ▸ hr)
            rw [ih3 r0 (fun j hj => hr0 j (List.mem_cons_of_mem _ hj)),
              List.getElem?_set_ne hne]

theorem copyRows_total (src : HsneMatrix) (m : List Nat) (keep : ℚ → Bool)
    (dstRowOf : Nat → Option Nat) :
    ∀ (is : List Nat) (M : HsneMatrix),
      (∀ i ∈ is, ∃ srcRow r, src[i]? = some srcRow ∧ dstRowOf i = some r ∧ r < M.length ∧
        ∀ e ∈ srcRow, e.1 < m.length) →
      ∃ M', copyRows src m keep dstRowOf is M = some M'
  | [], M, _ => ⟨M, rfl⟩
  | i :: rest, M, h => by
    obtain ⟨srcRow, r, hs, hr, hrlt, hsrc⟩ := h i (List.mem_cons_self _ _)
    unfold copyRows
    rw [hs, hr]
    simp only
    rw [List.getElem?_eq_getElem hrlt]
    simp only
    obtain ⟨dstRow', hc⟩ := copyEntries_total m keep srcRow M[r] hsrc
    rw [hc]
    simp only
    apply copyRows_total
    intro j hj
    obtain ⟨srcRow', r', hs', hr', hrlt', hsrc'⟩ := h j (List.mem_cons_of_mem _ hj)
    exact ⟨srcRow', r', hs', hr', by rw [List.length_set]; exact hrlt', hsrc'⟩

/-- The first pass of `extractSubGraph` on a duplicate-free selection: row `k` of the new
matrix holds the kept entries of the row of `sel[k]`, and an entry `(j, w)` is there exactly
when the original row has the entry `(sel[j], w)` and `keep w`. -/
theorem firstPass_edges (orig : HsneMatrix) (sel : List Nat) (keep : ℚ → Bool) (n : Nat)
    (map : List Nat) (M1 : HsneMatrix) (hnd : sel.Nodup) (hsize : sel.length < 2 ^ 32)
    (hrows : ∀ row ∈ orig, (row.map Prod.fst).Nodup)
    (ha : assignIndices sel 0 (List.replicate n NOTFOUND) = some map)
    (hc : copyRows orig map keep (fun id => map[id]?) sel (List.replicate sel.length [])
      = some M1) :
    M1.length = sel.length ∧
    (∀ k a : Nat, sel[k]? = some a → ∃ srcRow row, orig[a]? = some srcRow ∧
      M1[k]? = some row ∧ row.Perm (mappedEntries map keep srcRow)) ∧
    (∀ i j a b : Nat, ∀ w : ℚ, sel[i]? = some a → sel[j]? = some b →
      (HasEdge M1 i j w ↔ HasEdge orig a b w ∧ keep w = true)) := by
  have hpm := assignIndices_isPositionMap sel n map ha hnd (by omega)
  have hnf : ∀ k : Nat, k < sel.length → k ≠ NOTFOUND := by
    intro k hk
    simp only [NOTFOUND, UINT32_MAX]
    omega
  have hex := copyRows_exact orig map keep (fun id => map[id]?) sel _ M1 hc hnd
    (by
      intro i hi j hj r hir hjr
      simp only at hir hjr
      obtain ⟨k, hk⟩ := List.mem_iff_getElem?.1 hi
      have hik := hpm.1 k i hk
      rw [hir] at hik
      simp only [Option.some.injEq] at hik
      have hklt : k < sel.length := (List.getElem?_eq_some_iff.1 hk).1
      have hrnf : r ≠ NOTFOUND := hik ▸ hnf k hklt
      have e1 := hpm.2 i r hir hrnf
      have e2 := hpm.2 j r hjr hrnf
      rw [e1] at e2
      exact Option.some.inj e2)
    (by
      intro i hi r hir
      simp only at hir
      obtain ⟨k, hk⟩ := List.mem_iff_getElem?.1 hi
      have hik := hpm.1 k i hk
      rw [hir] at hik
      simp only [Option.some.injEq] at hik
      have hklt : k < sel.length := (List.getElem?_eq_some_iff.1 hk).1
      rw [List.getElem?_replicate]
      simp [hik, hklt])
    (by
      intro i _ row hrow
      exact nodup_keys_mappedEntries sel map keep hpm row (hrows row (List.getElem?_mem hrow)))
  obtain ⟨hlen, hrowsM, _⟩ := hex
  rw [List.length_replicate] at hlen
  have hrow : ∀ k a : Nat, sel[k]? = some a → ∃ srcRow row, orig[a]? = some srcRow ∧
      M1[k]? = some row ∧ row.Perm (mappedEntries map keep srcRow) := by
    intro k a hk
    exact hrowsM a (List.getElem?_mem hk) k (hpm.1 k a hk)
  refine ⟨hlen, hrow, ?_⟩
  intro i j a b w hi hj
  obtain ⟨srcRow, row, hsrc, hM, hperm⟩ := hrow i a hi
  constructor
  · rintro ⟨row', hrow', hmem⟩
    rw [hM] at hrow'
    simp only [Option.some.injEq] at hrow'
    subst hrow'
    obtain ⟨idx, hidx, hmidx, hjnf, hkeep⟩ :=
      (mem_mappedEntries map keep srcRow j w).1 (hperm.mem_iff.1 hmem)
    have := hpm.2 idx j hmidx hjnf
    rw [hj] at this
    simp only [Option.some.injEq] at this
    subst this
    exact ⟨⟨srcRow, hsrc, hidx⟩, hkeep⟩
  · rintro ⟨⟨srcRow', hsrc', hmem⟩, hkeep⟩
    rw [hsrc] at hsrc'
    simp only [Option.some.injEq] at hsrc'
    subst hsrc'
    have hjlt : j < sel.length := (List.getElem?_eq_some_iff.1 hj).1
    refine ⟨row, hM, hperm.mem_iff.2 ?_⟩
    exact (mem_mappedEntries map keep srcRow j w).2 ⟨b, hmem, hpm.1 j b hj, hnf j hjlt, hkeep⟩

theorem hasEdge_normalizeWeights (M : HsneMatrix) (i j : Nat) (w' : ℚ) :
    HasEdge (normalizeWeights M) i j w' ↔
      ∃ w, HasEdge M i j w ∧ w' = (M.length : ℚ) * w / totalWeight M := by
  unfold HasEdge normalizeWeights
  constructor
  · rintro ⟨row, hrow, hmem⟩
    rw [List.getElem?_map] at hrow
    cases hM : M[i]? with
    | none => rw [hM] at hrow; simp at hrow
    | some row0 =>
      rw [hM] at hrow
      simp only [Option.map_some', Option.some.injEq] at hrow
      subst hrow
      obtain ⟨⟨j0, w0⟩, he, heq⟩ := List.mem_map.1 hmem
      simp only [Prod.mk.injEq] at heq
      obtain ⟨rfl, rfl⟩ := heq
      exact ⟨w0, ⟨row0, rfl, he⟩, rfl⟩
  · rintro ⟨w, ⟨row0, hrow0, he⟩, rfl⟩
    refine ⟨_, by rw [List.getElem?_map, hrow0]; rfl, ?_⟩
    exact List.mem_map.2 ⟨(j, w), he, rfl⟩

theorem le_totalWeight (M : HsneMatrix) (hpos : ∀ row ∈ M, ∀ e ∈ row, 0 < e.2) :
    ∀ row ∈ M, ∀ e ∈ row, e.2 ≤ totalWeight M := by
  have hrowsum : ∀ row : SparseVec, (∀ e ∈ row, 0 < e.2) →
      0 ≤ (row.map Prod.snd).sum ∧ ∀ e ∈ row, e.2 ≤ (row.map Prod.snd).sum := by
    intro row
    induction row with
    | nil => intro _; simp
    | cons x xs ih =>
      intro h
      have hx := h x (List.mem_cons_self _ _)
      obtain ⟨ih0, ih1⟩ := ih (fun e he => h e (List.mem_cons_of_mem _ he))
      simp only [List.map_cons, List.sum_cons]
      refine ⟨by linarith, ?_⟩
      intro e he
      rcases List.mem_cons.1 he with he | he
      · rw [he]; linarith
      · have := ih1 e he; linarith
  induction M with
  | nil => intro row hrow; simp at hrow
  | cons r rs ih =>
    have hr := hrowsum r (hpos r (List.mem_cons_self _ _))
    have hrs := ih (fun row hrow => hpos row (List.mem_cons_of_mem _ hrow))
    have hrs0 : 0 ≤ totalWeight rs := by
      unfold totalWeight
      apply List.sum_nonneg
      intro x hx
      obtain ⟨row, hrow, rfl⟩ := List.mem_map.1 hx
      exact (hrowsum row (hpos row (List.mem_cons_of_mem _ hrow))).1
    intro row hrow e he
    have htw : totalWeight (r :: rs) = (r.map Prod.snd).sum + totalWeight rs := by
      simp [totalWeight]
    rw [htw]
    rcases List.mem_cons.1 hrow with hrow | hrow
    · subst hrow
      have := hr.2 e he
      linarith
    · have := hrs row hrow e he
      linarith [hr.1]

theorem extractSubGraphUnnormalized_inv (orig : HsneMatrix) (t : Nat) (sel : List Nat)
    (thresh : ℚ) (r : List Nat × HsneMatrix)
    (h : extractSubGraphUnnormalized orig t sel thresh = some r) :
    ∃ last map M1, sel.getLast? = some last ∧
      assignIndices sel 0 (List.replicate (max orig.length ((last + 1) % 2 ^ 32)) NOTFOUND)
        = some map ∧
      copyRows orig map (fun value => decide (thresh < value)) (fun id => map[id]?) sel
        (List.replicate sel.length []) = some M1 ∧
      ((0 < t ∧ filterLowDegree t sel M1 = some r) ∨ (t = 0 ∧ r = (sel, M1))) := by
  unfold extractSubGraphUnnormalized at h
  cases hl : sel.getLast? with
  | none => rw [hl] at h; simp at h
  | some last =>
    rw [hl] at h
    simp only at h
    cases ha : assignIndices sel 0
        (List.replicate (max orig.length ((last + 1) % 2 ^ 32)) NOTFOUND) with
    | none => rw [ha] at h; simp at h
    | some map =>
      rw [ha] at h
      simp only at h
      cases hc : copyRows orig map (fun value => decide (thresh < value))
          (fun id => map[id]?) sel (List.replicate sel.length []) with
      | none => rw [hc] at h; simp at h
      | some M1 =>
        rw [hc] at h
        simp only at h
        refine ⟨last, map, M1, rfl, ha, hc, ?_⟩
        split_ifs at h with ht
        · exact Or.inl ⟨ht, h⟩
        · right
          simp only [Option.some.injEq] at h
          exact ⟨by omega, h.symm⟩

theorem firstPass_total (orig : HsneMatrix) (sel : List Nat) (keep : ℚ → Bool) (n : Nat)
    (hnd : sel.Nodup) (hsize : sel.length < 2 ^ 32) (hn : orig.length ≤ n)
    (hvalid : ∀ id ∈ sel, id < orig.length)
    (hsq : ∀ row ∈ orig, ∀ e ∈ row, e.1 < orig.length) :
    ∃ map M1, assignIndices sel 0 (List.replicate n NOTFOUND) = some map ∧
      copyRows orig map keep (fun id => map[id]?) sel (List.replicate sel.length [])
        = some M1 := by
  obtain ⟨map, ha⟩ := assignIndices_total sel 0 (List.replicate n NOTFOUND)
    (by intro id hid; rw [List.length_replicate]; exact lt_of_lt_of_le (hvalid id hid) hn)
  have hpm := assignIndices_isPositionMap sel n map ha hnd (by omega)
  have hmlen : map.length = n := by
    rw [assignIndices_length sel 0 _ map ha, List.length_replicate]
  obtain ⟨M1, hc⟩ := copyRows_total orig map keep (fun id => map[id]?) sel
    (List.replicate sel.length [])
    (by
      intro i hi
      obtain ⟨k, hk⟩ := List.mem_iff_getElem?.1 hi
      have hilt := hvalid i hi
      refine ⟨orig[i], k, List.getElem?_eq_getElem hilt, hpm.1 k i hk, ?_, ?_⟩
      · rw [List.length_replicate]
        exact (List.getElem?_eq_some_iff.1 hk).1
      · intro e he
        rw [hmlen]
        exact lt_of_lt_of_le (hsq _ (List.getElem_mem hilt) e he) hn)
  exact ⟨map, M1, ha, hc⟩

theorem partitionVertices_eq (t : Nat) : ∀ (M : HsneMatrix) (c : Nat),
    partitionVertices t M c
      = (positionsWhere true (degreeMask t M) c, positionsWhere false (degreeMask t M) c)
  | [], _ => rfl
  | r :: rest, c => by
    unfold partitionVertices
    simp only [partitionVertices_eq t rest (c + 1), degreeMask, List.map_cons, positionsWhere]
    by_cases h : t ≤ r.length <;> simp [h]

theorem positionsWhere_ge (b : Bool) : ∀ (mask : List Bool) (c p : Nat),
    p ∈ positionsWhere b mask c → c ≤ p
  | [], _, _, h => by simp [positionsWhere] at h
  | x :: xs, c, p, h => by
    unfold positionsWhere at h
    split_ifs at h
    · rcases List.mem_cons.1 h with h | h
      · omega
      · have := positionsWhere_ge b xs (c + 1) p h; omega
    · have := positionsWhere_ge b xs (c + 1) p h; omega

theorem positionsWhere_lt (b : Bool) : ∀ (mask : List Bool) (c p : Nat),
    p ∈ positionsWhere b mask c → p < c + mask.length
  | [], _, _, h => by simp [positionsWhere] at h
  | x :: xs, c, p, h => by
    unfold positionsWhere at h
    simp only [List.length_cons]
    split_ifs at h
    · rcases List.mem_cons.1 h with h | h
      · omega
      · have := positionsWhere_lt b xs (c + 1) p h; omega
    · have := positionsWhere_lt b xs (c + 1) p h; omega

theorem positionsWhere_nodup (b : Bool) : ∀ (mask : List Bool) (c : Nat),
    (positionsWhere b mask c).Nodup
  | [], _ => by simp [positionsWhere]
  | x :: xs, c => by
    unfold positionsWhere
    split_ifs
    · rw [List.nodup_cons]
      refine ⟨fun h => ?_, positionsWhere_nodup b xs (c + 1)⟩
      have := positionsWhere_ge b xs (c + 1) c h
      omega
    · exact positionsWhere_nodup b xs (c + 1)

theorem positionsWhere_length_add : ∀ (mask : List Bool) (c : Nat),
    (positionsWhere true mask c).length + (positionsWhere false mask c).length = mask.length
  | [], _ => rfl
  | x :: xs, c => by
    have ih := positionsWhere_length_add xs (c + 1)
    cases x <;> simp [positionsWhere] <;> omega

theorem length_selectByMask {α : Type} : ∀ (l : List α) (mask : List Bool) (c : Nat),
    l.length = mask.length → (selectByMask l mask).length = (positionsWhere true mask c).length
  | [], [], _, _ => rfl
  | [], _ :: _, _, h => by simp at h
  | _ :: _, [], _, h => by simp at h
  | x :: xs, b :: bs, c, h => by
    have hl : xs.length = bs.length := by simpa using h
    have ih := length_selectByMask xs bs (c + 1) hl
    cases b <;> simp [selectByMask, positionsWhere, ih]

theorem selectByMask_all_true {α : Type} : ∀ (l : List α) (mask : List Bool) (c : Nat),
    l.length = mask.length → positionsWhere false mask c = [] → selectByMask l mask = l
  | [], [], _, _, _ => rfl
  | [], _ :: _, _, h, _ => by simp at h
  | _ :: _, [], _, h, _ => by simp at h
  | x :: xs, b :: bs, c, h, hp => by
    have hl : xs.length = bs.length := by simpa using h
    cases b with
    | false => simp [positionsWhere] at hp
    | true =>
      simp only [positionsWhere, Bool.true_eq_false, if_false] at hp
      simp only [selectByMask, if_true]
      rw [selectByMask_all_true xs bs (c + 1) hl hp]

theorem eraseElementsLoop_none {α : Type} (pos : List Nat) (n : Nat) (hn : pos[n]? = none) :
    ∀ (l : List α) (c : Nat), eraseElementsLoop pos l c n = l
  | [], _ => rfl
  | x :: xs, c => by
    unfold eraseElementsLoop
    rw [hn]
    simp only
    rw [eraseElementsLoop_none pos n hn xs c]

theorem eraseElementsLoop_eq {α : Type} (pos : List Nat) :
    ∀ (l : List α) (mask : List Bool) (cur nxt : Nat), l.length = mask.length →
      pos.drop nxt = positionsWhere false mask cur →
      eraseElementsLoop pos l cur nxt = selectByMask l mask
  | [], [], _, _, _, _ => rfl
  | [], _ :: _, _, _, h, _ => by simp at h
  | _ :: _, [], _, _, h, _ => by simp at h
  | x :: xs, b :: bs, cur, nxt, h, hp => by
    have hl : xs.length = bs.length := by simpa using h
    have hhead : pos[nxt]? = (positionsWhere false (b :: bs) cur).head? := by
      rw [← hp, List.head?_drop]
    have htail : pos.drop (nxt + 1) = (positionsWhere false (b :: bs) cur).tail := by
      rw [← hp, List.tail_drop]
    cases b with
    | false =>
      simp only [positionsWhere, if_true, List.head?_cons, List.tail_cons] at hhead htail
      unfold eraseElementsLoop
      rw [hhead]
      simp only [if_true, selectByMask, Bool.false_eq_true, if_false]
      exact eraseElementsLoop_eq pos xs bs (cur + 1) (nxt + 1) hl htail
    | true =>
      simp only [positionsWhere, Bool.true_eq_false, if_false] at hhead hp
      simp only [selectByMask, if_true]
      cases hq : pos[nxt]? with
      | none =>
        rw [eraseElementsLoop_none pos nxt hq]
        have hnil : positionsWhere false bs (cur + 1) = [] := by
          rw [hq] at hhead
          exact List.head?_eq_none_iff.1 hhead.symm
        rw [selectByMask_all_true xs bs (cur + 1) hl hnil]
      | some p =>
        have hmem : p ∈ positionsWhere false bs (cur + 1) := by
          rw [hq] at hhead
          exact List.mem_of_mem_head? hhead.symm
        have hge := positionsWhere_ge false bs (cur + 1) p hmem
        have hne : cur ≠ p := by omega
        unfold eraseElementsLoop
        rw [hq]
        simp only [if_neg hne]
        rw [eraseElementsLoop_eq pos xs bs (cur + 1) nxt hl hp]

theorem eraseElements_eq {α : Type} (l : List α) (mask : List Bool)
    (h : l.length = mask.length) :
    eraseElements l (positionsWhere false mask 0) = selectByMask l mask :=
  eraseElementsLoop_eq _ l mask 0 0 h (by simp)

theorem selectByMask_getElem {α : Type} : ∀ (l : List α) (mask : List Bool) (c i : Nat),
    l.length = mask.length →
    (selectByMask l mask)[i]? = ((positionsWhere true mask c)[i]?).bind (fun p => l[p - c]?)
  | [], [], _, _, _ => by simp [selectByMask, positionsWhere]
  | [], _ :: _, _, _, h => by simp at h
  | _ :: _, [], _, _, h => by simp at h
  | x :: xs, b :: bs, c, i, h => by
    have hl : xs.length = bs.length := by simpa using h
    have hshift : ∀ k : Nat, ((positionsWhere true bs (c + 1))[k]?).bind (fun p => (x :: xs)[p - c]?)
        = ((positionsWhere true bs (c + 1))[k]?).bind (fun p => xs[p - (c + 1)]?) := by
      intro k
      cases hk : (positionsWhere true bs (c + 1))[k]? with
      | none => rfl
      | some p =>
        have hge := positionsWhere_ge true bs (c + 1) p (List.getElem?_mem hk)
        simp only [Option.some_bind]
        have : p - c = (p - (c + 1)) + 1 := by omega
        rw [this, List.getElem?_cons_succ]
    cases b with
    | false =>
      simp only [selectByMask, Bool.false_eq_true, if_false, positionsWhere]
      rw [hshift i]
      exact selectByMask_getElem xs bs (c + 1) i hl
    | true =>
      simp only [selectByMask, if_true, positionsWhere]
      cases i with
      | zero => simp
      | succ i =>
        simp only [List.getElem?_cons_succ]
        rw [hshift i]
        exact selectByMask_getElem xs bs (c + 1) i hl

theorem selectByMask_map_filter {α : Type} (p : α → Bool) : ∀ l : List α,
    selectByMask l (l.map p) = l.filter p
  | [] => rfl
  | x :: xs => by
    simp only [List.map_cons, selectByMask, List.filter_cons]
    rw [selectByMask_map_filter p xs]

theorem mem_selectByMask {α : Type} : ∀ (l : List α) (mask : List Bool) (a : α),
    a ∈ selectByMask l mask → a ∈ l
  | [], _, _, h => by simp [selectByMask] at h
  | _ :: _, [], _, h => by simp [selectByMask] at h
  | x :: xs, b :: bs, a, h => by
    unfold selectByMask at h
    split_ifs at h
    · rcases List.mem_cons.1 h with h | h
      · rw [h]; exact List.mem_cons_self _ _
      · exact List.mem_cons_of_mem _ (mem_selectByMask xs bs a h)
    · exact List.mem_cons_of_mem _ (mem_selectByMask xs bs a h)

theorem length_mappedEntries (ids m : List Nat) (keep : ℚ → Bool) (hm : IsPositionMap ids m)
    (hsize : ids.length < 2 ^ 32) :
    ∀ src : SparseVec, (mappedEntries m keep src).length
      = (src.filter (fun e => decide (e.1 ∈ ids) && keep e.2)).length
  | [] => by simp [mappedEntries]
  | (index, value) :: rest => by
    have ih := length_mappedEntries ids m keep hm hsize rest
    have hnf : ∀ k : Nat, k < ids.length → k ≠ NOTFOUND := by
      intro k hk
      simp only [NOTFOUND, UINT32_MAX]
      omega
    rw [List.filter_cons]
    cases hmi : m[index]? with
    | none =>
      have hnot : index ∉ ids := by
        intro hin
        obtain ⟨k, hk⟩ := List.mem_iff_getElem?.1 hin
        rw [hm.1 k index hk] at hmi
        simp at hmi
      have : mappedEntries m keep ((index, value) :: rest) = mappedEntries m keep rest := by
        unfold mappedEntries
        rw [List.filterMap_cons]
        simp [hmi]
      rw [this, ih]
      simp [hnot]
    | some mapped =>
      rw [mappedEntries_cons m keep index value rest mapped hmi]
      by_cases hk : mapped ≠ NOTFOUND ∧ keep value = true
      · have hin : index ∈ ids := List.getElem?_mem (hm.2 index mapped hmi hk.1)
        rw [if_pos hk]
        simp [hin, hk.2, ih]
      · rw [if_neg hk]
        have hcond : (decide (index ∈ ids) && keep value) = false := by
          by_cases hkeep : keep value = true
          · have hmapped : mapped = NOTFOUND := by
              by_contra hne
              exact hk ⟨hne, hkeep⟩
            have hnot : index ∉ ids := by
              intro hin
              obtain ⟨k, hkk⟩ := List.mem_iff_getElem?.1 hin
              have := hm.1 k index hkk
              rw [hmi] at this
              simp only [Option.some.injEq] at this
              exact hnf k (List.getElem?_eq_some_iff.1 hkk).1 (this ▸ hmapped)
            simp [hnot]
          · simp [hkeep]
        simp [hcond, ih]

theorem filterLowDegree_edges (t : Nat) (sel : List Nat) (M1 : HsneMatrix) (sel' : List Nat)
    (M' : HsneMatrix) (hlen : M1.length = sel.length)
    (hkeys : ∀ row ∈ M1, (row.map Prod.fst).Nodup)
    (h : filterLowDegree t sel M1 = some (sel', M')) :
    M1.length < 2 ^ 32 ∧ sel' = selectByMask sel (degreeMask t M1) ∧
    ∀ i' j' p q : Nat, ∀ w : ℚ,
      (positionsWhere true (degreeMask t M1) 0)[i']? = some p →
      (positionsWhere true (degreeMask t M1) 0)[j']? = some q →
      (HasEdge M' i' j' w ↔ HasEdge M1 p q w) := by
  unfold filterLowDegree at h
  split_ifs at h with hsize
  simp only [partitionVertices_eq] at h
  have hmask : (degreeMask t M1).length = M1.length := by simp [degreeMask]
  have hadd := positionsWhere_length_add (degreeMask t M1) 0
  have hvlen : (positionsWhere true (degreeMask t M1) 0).length < 2 ^ 32 := by omega
  rw [Nat.mod_eq_of_lt hvlen, List.take_length,
    eraseElements_eq sel _ (by rw [hmask, hlen]), eraseElements_eq M1 _ hmask.symm] at h
  cases hv : assignIndices (positionsWhere true (degreeMask t M1) 0) 0
      (List.replicate ((positionsWhere true (degreeMask t M1) 0).length
        + (positionsWhere false (degreeMask t M1) 0).length) NOTFOUND) with
  | none => rw [hv] at h; simp at h
  | some valid_set =>
    rw [hv] at h
    simp only at h
    cases hc : copyRows (selectByMask M1 (degreeMask t M1)) valid_set (fun _ => true) some
        (List.range (positionsWhere true (degreeMask t M1) 0).length)
        (List.replicate (selectByMask M1 (degreeMask t M1)).length []) with
    | none => rw [hc] at h; simp at h
    | some new_map =>
      rw [hc] at h
      simp only [Option.some.injEq, Prod.mk.injEq] at h
      obtain ⟨hsel, hM⟩ := h
      subst hM
      refine ⟨hsize, hsel.symm, ?_⟩
      have hpm := assignIndices_isPositionMap _ _ valid_set hv
        (positionsWhere_nodup true _ 0) (by omega)
      have helen := length_selectByMask M1 (degreeMask t M1) 0 hmask.symm
      have hex := copyRows_exact _ valid_set (fun _ => true) some _ _ new_map hc
        (List.nodup_range _)
        (by
          intro i _ j _ r hi hj
          rw [← hj] at hi
          exact Option.some.inj hi)
        (by
          intro i hi r hir
          simp only [Option.some.injEq] at hir
          subst hir
          rw [List.getElem?_replicate, helen]
          simp [List.mem_range.1 hi])
        (by
          intro i _ row hrow
          exact nodup_keys_mappedEntries _ valid_set _ hpm row
            (hkeys row (mem_selectByMask M1 _ row (List.getElem?_mem hrow))))
      obtain ⟨_, hrows, _⟩ := hex
      intro i' j' p q w hi hj
      have hilt : i' < (positionsWhere true (degreeMask t M1) 0).length :=
        (List.getElem?_eq_some_iff.1 hi).1
      have hjlt : j' < (positionsWhere true (degreeMask t M1) 0).length :=
        (List.getElem?_eq_some_iff.1 hj).1
      obtain ⟨srcRow, row', hsrc, hnew, hperm⟩ := hrows i' (List.mem_range.2 hilt) i' rfl
      rw [selectByMask_getElem M1 (degreeMask t M1) 0 i' hmask.symm, hi] at hsrc
      simp only [Option.some_bind, Nat.sub_zero] at hsrc
      have hjnf : j' ≠ NOTFOUND := by
        simp only [NOTFOUND, UINT32_MAX]
        omega
      constructor
      · rintro ⟨row, hrow, hmem⟩
        rw [hnew] at hrow
        simp only [Option.some.injEq] at hrow
        subst hrow
        obtain ⟨idx, hidx, hmidx, _, _⟩ :=
          (mem_mappedEntries valid_set _ srcRow j' w).1 (hperm.mem_iff.1 hmem)
        have := hpm.2 idx j' hmidx hjnf
        rw [hj] at this
        simp only [Option.some.injEq] at this
        subst this
        exact ⟨srcRow, hsrc, hidx⟩
      · rintro ⟨row, hrow, hmem⟩
        rw [hsrc] at hrow
        simp only [Option.some.injEq] at hrow
        subst hrow
        refine ⟨row', hnew, hperm.mem_iff.2 ?_⟩
        exact (mem_mappedEntries valid_set _ srcRow j' w).2
          ⟨q, hmem, hpm.1 j' q hj, hjnf, rfl⟩

theorem filterLowDegree_total (t : Nat) (sel : List Nat) (M1 : HsneMatrix)
    (hsize : M1.length < 2 ^ 32) (hcols : ColumnsBelow M1.length M1) :
    ∃ r, filterLowDegree t sel M1 = some r := by
  unfold filterLowDegree
  rw [if_pos hsize]
  simp only [partitionVertices_eq]
  have hmask : (degreeMask t M1).length = M1.length := by simp [degreeMask]
  have hadd := positionsWhere_length_add (degreeMask t M1) 0
  have hvlen : (positionsWhere true (degreeMask t M1) 0).length < 2 ^ 32 := by omega
  rw [Nat.mod_eq_of_lt hvlen, List.take_length, eraseElements_eq M1 _ hmask.symm]
  obtain ⟨valid_set, hv⟩ := assignIndices_total (positionsWhere true (degreeMask t M1) 0) 0
    (List.replicate ((positionsWhere true (degreeMask t M1) 0).length
        + (positionsWhere false (degreeMask t M1) 0).length) NOTFOUND)
    (by
      intro id hid
      have := positionsWhere_lt true _ 0 id hid
      rw [List.length_replicate]
      omega)
  rw [hv]
  simp only
  have hvs : valid_set.length = M1.length := by
    rw [assignIndices_length _ 0 _ valid_set hv, List.length_replicate]
    omega
  have helen := length_selectByMask M1 (degreeMask t M1) 0 hmask.symm
  obtain ⟨new_map, hc⟩ := copyRows_total (selectByMask M1 (degreeMask t M1)) valid_set
    (fun _ => true) some (List.range (positionsWhere true (degreeMask t M1) 0).length)
    (List.replicate (selectByMask M1 (degreeMask t M1)).length [])
    (by
      intro i hi
      have hilt : i < (selectByMask M1 (degreeMask t M1)).length := by
        rw [helen]; exact List.mem_range.1 hi
      refine ⟨(selectByMask M1 (degreeMask t M1))[i], i, List.getElem?_eq_getElem hilt, rfl,
        by rw [List.length_replicate]; exact hilt, ?_⟩
      intro e he
      rw [hvs]
      exact hcols _ (mem_selectByMask M1 _ _ (List.getElem_mem hilt)) e he)
  rw [hc]
  exact ⟨_, rfl⟩

theorem filterLowDegree_size (t : Nat) (sel : List Nat) (M1 : HsneMatrix)
    (r : List Nat × HsneMatrix) (h : filterLowDegree t sel M1 = some r) :
    M1.length < 2 ^ 32 := by
  unfold filterLowDegree at h
  split_ifs at h with hsize
  exact hsize

theorem firstPass_length (orig : HsneMatrix) (sel : List Nat) (keep : ℚ → Bool) (n : Nat)
    (map : List Nat) (M1 : HsneMatrix)
    (ha : assignIndices sel 0 (List.replicate n NOTFOUND) = some map)
    (hc : copyRows orig map keep (fun id => map[id]?) sel (List.replicate sel.length [])
      = some M1) :
    M1.length = sel.length ∧ ColumnsBelow M1.length M1 := by
  have hmb := assignIndices_below sel 0 0 _ map ha le_rfl (mapBelow_replicate _ _)
  rw [Nat.zero_add] at hmb
  have hcr := copyRows_below sel.length orig map _ _ hmb sel _ M1 hc
    (columnsBelow_replicate _ _)
  rw [List.length_replicate] at hcr
  exact ⟨hcr.1, by rw [hcr.1]; exact hcr.2⟩

/-- The un-normalised result of `extractSubGraph` on `exampleMatrix` with both landmarks
selected, minimum degree 0 and threshold 0. -/
theorem exampleMatrix_unnormalized :
    extractSubGraphUnnormalized exampleMatrix 0 [0, 1] 0 = some ([0, 1], exampleMatrix) := by
  decide

/-! ## Claims C7 to C10 -/

/-- Claim C7 as stated fails: selecting landmark 0 alone from a two-landmark matrix whose only
edges join the two landmarks returns one vertex and no edge, so the sum of the weights divided
by the number of vertices is 0, not 1. -/
theorem extractSubGraph_no_edge_sum_zero :
    extractSubGraph [[(1, 1)], [(0, 1)]] 0 [0] 0 = some ([0], [[]]) ∧
      0 < ([[]] : HsneMatrix).length ∧
      ¬ (totalWeight [[]] / (([[]] : HsneMatrix).length : ℚ) = 1) := by
  refine ⟨by decide, by decide, ?_⟩
  norm_num [totalWeight]

/-- Claim C7, amended: whenever `extractSubGraph` returns a matrix with at least one vertex
and the weights it copied have a non-zero sum before the normalisation, the sum of all edge
weights of the returned matrix divided by its number of vertices equals 1 in exact arithmetic;
the normalisation is one global factor for the whole matrix. -/
theorem extractSubGraph_average_weight_one (orig : HsneMatrix) (t : Nat) (sel : List Nat) (thresh : ℚ)
    (sel' : List Nat) (M : HsneMatrix)
    (h : extractSubGraph orig t sel thresh = some (sel', M))
    (hn : 0 < M.length)
    (hsum : ∀ M0, extractSubGraphUnnormalized orig t sel thresh = some (sel', M0) →
      totalWeight M0 ≠ 0) :
    totalWeight M / (M.length : ℚ) = 1 := by
  obtain ⟨M0, h0, rfl⟩ := (extractSubGraph_eq orig t sel thresh sel' M).1 h
  rw [length_normalizeWeights] at hn ⊢
  rw [totalWeight_normalizeWeights M0 (hsum M0 h0)]
  have : (M0.length : ℚ) ≠ 0 := by exact_mod_cast Nat.pos_iff_ne_zero.1 hn
  exact div_self this

/-- Claim C7, amended, at `exampleMatrix` with both landmarks selected. -/
theorem extractSubGraph_average_weight_one_witness :
    totalWeight (normalizeWeights exampleMatrix)
      / ((normalizeWeights exampleMatrix).length : ℚ) = 1 :=
  extractSubGraph_average_weight_one exampleMatrix 0 [0, 1] 0 [0, 1] (normalizeWeights exampleMatrix)
    ((extractSubGraph_eq _ _ _ _ _ _).2 ⟨exampleMatrix, exampleMatrix_unnormalized, rfl⟩)
    (by simp [normalizeWeights, exampleMatrix])
    (by
      intro M0 h0
      rw [exampleMatrix_unnormalized] at h0
      simp only [Option.some.injEq, Prod.mk.injEq, true_and] at h0
      subst h0
      norm_num [totalWeight, exampleMatrix])

/-- Claim C8: whenever `extractSubGraph` returns, with or without degree pruning, the returned
matrix has exactly as many rows as the selection left to the caller has entries, and every
stored entry of it has a column index below that row count. -/
theorem extractSubGraph_rows_and_targets (orig : HsneMatrix) (t : Nat) (sel : List Nat) (thresh : ℚ)
    (sel' : List Nat) (M : HsneMatrix)
    (h : extractSubGraph orig t sel thresh = some (sel', M)) :
    M.length = sel'.length ∧ ∀ row ∈ M, ∀ e ∈ row, e.1 < M.length := by
  obtain ⟨M0, h0, rfl⟩ := (extractSubGraph_eq orig t sel thresh sel' M).1 h
  obtain ⟨h1, h2⟩ := extractSubGraphUnnormalized_shape orig t sel thresh sel' M0 h0
  rw [length_normalizeWeights]
  exact ⟨h1, columnsBelow_normalizeWeights _ M0 h2⟩

/-- Claim C8 at `exampleMatrix` with minimum degree 2: landmark 1 is pruned. -/
theorem extractSubGraph_rows_and_targets_witness :
    (normalizeWeights [[(0, 1)]]).length = [0].length ∧
      ∀ row ∈ normalizeWeights [[(0, 1)]], ∀ e ∈ row,
        e.1 < (normalizeWeights [[(0, 1)]]).length :=
  extractSubGraph_rows_and_targets exampleMatrix 2 [0, 1] 0 [0] (normalizeWeights [[(0, 1)]])
    ((extractSubGraph_eq _ _ _ _ _ _).2 ⟨[[(0, 1)]], by decide, rfl⟩)

/-- Claim C9 as stated fails: with threshold -2 the single edge of weight -1 is kept and
normalised to weight 1, which is the original weight times -1; no positive common factor
exists.  All values of this run are small integers, so the floating-point computation of the
source gives the same weights. -/
theorem extractSubGraph_negative_factor :
    ∃ M, extractSubGraph [[(0, -1)]] 0 [0] (-2) = some ([0], M) ∧
      ¬ ScaledInducedSubgraph [[(0, -1)]] [0] (-2) M := by
  refine ⟨normalizeWeights [[(0, -1)]],
    (extractSubGraph_eq _ _ _ _ _ _).2 ⟨[[(0, -1)]], by decide, rfl⟩, ?_⟩
  rintro ⟨c, hc, hiff⟩
  have hedge : HasEdge (normalizeWeights [[(0, -1)]]) 0 0 1 := by
    rw [hasEdge_normalizeWeights]
    refine ⟨-1, ⟨[(0, -1)], rfl, List.mem_singleton.2 rfl⟩, ?_⟩
    norm_num [totalWeight]
  obtain ⟨w, ⟨row, hrow, hmem⟩, _, hw⟩ := (hiff 0 0 0 0 1 rfl rfl).1 hedge
  simp only [List.getElem?_cons_zero, Option.some.injEq] at hrow
  subst hrow
  simp only [List.mem_singleton, Prod.mk.injEq, true_and] at hmem
  subst hmem
  linarith

/-- Claim C9, amended: with minimum degree 0 and a duplicate-free selection `sel` of fewer
than `2^32` landmarks over a matrix whose rows store each index once, `extractSubGraph`
returns whenever the selection is non-empty and all ids and targets are valid; whatever it
returns leaves the selection unchanged, has one row per selected landmark and has an edge from
row `i` to column `j` if and only if the original matrix has an edge from `sel[i]` to `sel[j]`
whose weight exceeds the threshold; and, when the threshold is non-negative, every returned
weight is, in exact arithmetic, the original weight multiplied by one common positive factor
(the weights the source stores are the floating-point roundings of these products). -/
theorem extractSubGraph_induced_subgraph (orig : HsneMatrix) (sel : List Nat) (thresh : ℚ)
    (hnd : sel.Nodup) (hsize : sel.length < 2 ^ 32)
    (hrows : ∀ row ∈ orig, (row.map Prod.fst).Nodup) :
    (sel ≠ [] → (∀ id ∈ sel, id < orig.length) →
      (∀ row ∈ orig, ∀ e ∈ row, e.1 < orig.length) →
      ∃ M, extractSubGraph orig 0 sel thresh = some (sel, M)) ∧
    ∀ sel' M, extractSubGraph orig 0 sel thresh = some (sel', M) →
      sel' = sel ∧ M.length = sel.length ∧ InducedEdges orig sel thresh M ∧
      (0 ≤ thresh → ScaledInducedSubgraph orig sel thresh M) := by
  constructor
  · intro hne hvalid hsq
    obtain ⟨last, hlast⟩ : ∃ last, sel.getLast? = some last := by
      cases hl : sel.getLast? with
      | none => exact absurd (List.getLast?_eq_none_iff.1 hl) hne
      | some last => exact ⟨last, rfl⟩
    obtain ⟨map, M1, ha, hc⟩ := firstPass_total orig sel (fun value => decide (thresh < value))
      (max orig.length ((last + 1) % 2 ^ 32)) hnd hsize (le_max_left _ _) hvalid hsq
    refine ⟨normalizeWeights M1, ?_⟩
    rw [extractSubGraph_eq]
    refine ⟨M1, ?_, rfl⟩
    simp only [extractSubGraphUnnormalized, hlast, ha, hc, Nat.lt_irrefl, if_false]
  · intro sel' M h
    obtain ⟨M0, h0, rfl⟩ := (extractSubGraph_eq orig 0 sel thresh sel' M).1 h
    obtain ⟨last, map, M1, _, ha, hc, hcase⟩ := extractSubGraphUnnormalized_inv orig 0 sel thresh _ h0
    rcases hcase with ⟨hpos, _⟩ | ⟨_, heq⟩
    · omega
    simp only [Prod.mk.injEq] at heq
    obtain ⟨rfl, rfl⟩ := heq
    obtain ⟨hlen, hrow, hedge⟩ := firstPass_edges orig sel' _ _ map M0 hnd hsize hrows ha hc
    refine ⟨rfl, by rw [length_normalizeWeights, hlen], ?_, ?_⟩
    · intro i j a b hi hj
      constructor
      · rintro ⟨w', hw'⟩
        obtain ⟨w, hw, _⟩ := (hasEdge_normalizeWeights M0 i j w').1 hw'
        have := (hedge i j a b w hi hj).1 hw
        exact ⟨w, this.1, by simpa using this.2⟩
      · rintro ⟨w, hw, hlt⟩
        exact ⟨_, (hasEdge_normalizeWeights M0 i j _).2
          ⟨w, (hedge i j a b w hi hj).2 ⟨hw, by simpa using hlt⟩, rfl⟩⟩
    · intro hthresh
      have hpos : ∀ row ∈ M0, ∀ e ∈ row, 0 < e.2 := by
        intro row hrowmem e he
        obtain ⟨k, hk⟩ := List.mem_iff_getElem?.1 hrowmem
        have hklt : k < sel'.length := hlen ▸ (List.getElem?_eq_some_iff.1 hk).1
        obtain ⟨srcRow, row', _, hM, hperm⟩ := hrow k sel'[k] (List.getElem?_eq_getElem hklt)
        rw [hk] at hM
        simp only [Option.some.injEq] at hM
        subst hM
        obtain ⟨_, _, _, _, hkeep⟩ :=
          (mem_mappedEntries map _ srcRow e.1 e.2).1 (hperm.mem_iff.1 he)
        simp only [decide_eq_true_eq] at hkeep
        linarith
      by_cases htot : 0 < totalWeight M0
      · have hn : 0 < sel'.length := by
          rcases Nat.eq_zero_or_pos sel'.length with h0' | h0'
          · have : M0 = [] := List.length_eq_zero.1 (hlen.trans h0')
            rw [this] at htot
            simp [totalWeight] at htot
          · exact h0'
        refine ⟨(M0.length : ℚ) / totalWeight M0, ?_, ?_⟩
        · apply div_pos _ htot
          rw [hlen]
          exact_mod_cast hn
        · intro i j a b w' hi hj
          rw [hasEdge_normalizeWeights]
          constructor
          · rintro ⟨w, hw, rfl⟩
            have := (hedge i j a b w hi hj).1 hw
            exact ⟨w, this.1, by simpa using this.2, by ring⟩
          · rintro ⟨w, hw, hlt, rfl⟩
            exact ⟨w, (hedge i j a b w hi hj).2 ⟨hw, by simpa using hlt⟩, by ring⟩
      · have hnone : ∀ row ∈ M0, ∀ e ∈ row, False := by
          intro row hrowmem e he
          have h1 := le_totalWeight M0 hpos row hrowmem e he
          have h2 := hpos row hrowmem e he
          exact htot (lt_of_lt_of_le h2 h1)
        refine ⟨1, one_pos, ?_⟩
        intro i j a b w' hi hj
        rw [hasEdge_normalizeWeights]
        constructor
        · rintro ⟨w, ⟨row, hrowi, hmem⟩, _⟩
          exact (hnone row (List.getElem?_mem hrowi) _ hmem).elim
        · rintro ⟨w, hw, hlt, _⟩
          obtain ⟨row, hrowi, hmem⟩ := (hedge i j a b w hi hj).2 ⟨hw, by simpa using hlt⟩
          exact (hnone row (List.getElem?_mem hrowi) _ hmem).elim

/-- Claim C9, amended, at `exampleMatrix` with the selection `[1, 0]`; the common factor of
the exact weights is `2 / 6`. -/
theorem extractSubGraph_induced_subgraph_witness :
    (([1, 0] : List Nat) ≠ [] → (∀ id ∈ ([1, 0] : List Nat), id < exampleMatrix.length) →
      (∀ row ∈ exampleMatrix, ∀ e ∈ row, e.1 < exampleMatrix.length) →
      ∃ M, extractSubGraph exampleMatrix 0 [1, 0] 0 = some ([1, 0], M)) ∧
    ∀ sel' M, extractSubGraph exampleMatrix 0 [1, 0] 0 = some (sel', M) →
      sel' = [1, 0] ∧ M.length = ([1, 0] : List Nat).length ∧
      InducedEdges exampleMatrix [1, 0] 0 M ∧
      ((0 : ℚ) ≤ 0 → ScaledInducedSubgraph exampleMatrix [1, 0] 0 M) :=
  extractSubGraph_induced_subgraph exampleMatrix [1, 0] 0 (by decide) (by decide) (by decide)

/-- Claim C10 as stated fails on a selection with a duplicate: for the selection `[0, 0]` and
minimum degree 1, landmark 0 has out-degree 1 in the induced sub-graph, so the sub-sequence of
the landmarks of sufficient degree is `[0, 0]`, but the caller is left with `[0]`. -/
theorem extractSubGraph_duplicate_dropped :
    ∃ M, extractSubGraph [[(0, 1)]] 1 [0, 0] 0 = some ([0], M) ∧
      ([0] : List Nat) ≠ ([0, 0] : List Nat).filter
        (fun id => decide (1 ≤ inducedOutDegree [[(0, 1)]] [0, 0] 0 id)) := by
  refine ⟨normalizeWeights [[(0, 1)]],
    (extractSubGraph_eq _ _ _ _ _ _).2 ⟨[[(0, 1)]], by decide, rfl⟩, by decide⟩

/-- Claim C10, amended: with minimum degree `t > 0` and a duplicate-free selection over a
matrix whose rows store each index once, `extractSubGraph` returns whenever the selection is
non-empty, shorter than `2^32` and all ids and targets are valid; whatever it returns leaves
to the caller exactly the order-preserving sub-sequence of the landmarks whose out-degree in
the induced, thresholded sub-graph is at least `t`, has one row per retained landmark, and row
`k` has an edge to column `j` if and only if the original matrix has an edge from the `k`-th to
the `j`-th retained landmark whose weight exceeds the threshold. -/
theorem extractSubGraph_degree_filter (orig : HsneMatrix) (t : Nat) (sel : List Nat) (thresh : ℚ) (ht : 0 < t)
    (hnd : sel.Nodup) (hrows : ∀ row ∈ orig, (row.map Prod.fst).Nodup) :
    (sel ≠ [] → sel.length < 2 ^ 32 → (∀ id ∈ sel, id < orig.length) →
      (∀ row ∈ orig, ∀ e ∈ row, e.1 < orig.length) →
      ∃ r, extractSubGraph orig t sel thresh = some r) ∧
    ∀ sel' M, extractSubGraph orig t sel thresh = some (sel', M) →
      sel' = sel.filter (fun id => decide (t ≤ inducedOutDegree orig sel thresh id)) ∧
      M.length = sel'.length ∧ InducedEdges orig sel' thresh M := by
  constructor
  · intro hne hsize hvalid hsq
    obtain ⟨last, hlast⟩ : ∃ last, sel.getLast? = some last := by
      cases hl : sel.getLast? with
      | none => exact absurd (List.getLast?_eq_none_iff.1 hl) hne
      | some last => exact ⟨last, rfl⟩
    obtain ⟨map, M1, ha, hc⟩ := firstPass_total orig sel (fun value => decide (thresh < value))
      (max orig.length ((last + 1) % 2 ^ 32)) hnd hsize (le_max_left _ _) hvalid hsq
    obtain ⟨hlen, hcols⟩ := firstPass_length orig sel _ _ map M1 ha hc
    obtain ⟨r, hr⟩ := filterLowDegree_total t sel M1 (by omega) hcols
    refine ⟨(r.1, normalizeWeights r.2), ?_⟩
    rw [extractSubGraph_eq]
    refine ⟨r.2, ?_, rfl⟩
    simp only [extractSubGraphUnnormalized, hlast, ha, hc, ht, if_true, hr]
  · intro sel' M h
    obtain ⟨M0, h0, rfl⟩ := (extractSubGraph_eq orig t sel thresh sel' M).1 h
    have hshape := extractSubGraphUnnormalized_shape orig t sel thresh sel' M0 h0
    obtain ⟨last, map, M1, _, ha, hc, hcase⟩ :=
      extractSubGraphUnnormalized_inv orig t sel thresh _ h0
    rcases hcase with ⟨_, hf⟩ | ⟨ht0, _⟩
    swap
    · omega
    obtain ⟨hlen, _⟩ := firstPass_length orig sel _ _ map M1 ha hc
    have hsize : sel.length < 2 ^ 32 := hlen ▸ filterLowDegree_size t sel M1 _ hf
    have hpm := assignIndices_isPositionMap sel _ map ha hnd (by omega)
    obtain ⟨_, hrow, hedge⟩ := firstPass_edges orig sel _ _ map M1 hnd hsize hrows ha hc
    have hkeys : ∀ row ∈ M1, (row.map Prod.fst).Nodup := by
      intro row hrowmem
      obtain ⟨k, hk⟩ := List.mem_iff_getElem?.1 hrowmem
      have hklt : k < sel.length := hlen ▸ (List.getElem?_eq_some_iff.1 hk).1
      obtain ⟨srcRow, row', hsrc, hM, hperm⟩ := hrow k sel[k] (List.getElem?_eq_getElem hklt)
      rw [hk] at hM
      simp only [Option.some.injEq] at hM
      subst hM
      rw [(hperm.map Prod.fst).nodup_iff]
      exact nodup_keys_mappedEntries sel map _ hpm srcRow
        (hrows srcRow (List.getElem?_mem hsrc))
    obtain ⟨_, hsel, hedge2⟩ := filterLowDegree_edges t sel M1 sel' M0 hlen hkeys hf
    have hmask : degreeMask t M1
        = sel.map (fun id => decide (t ≤ inducedOutDegree orig sel thresh id)) := by
      apply List.ext_getElem?
      intro k
      simp only [degreeMask, List.getElem?_map]
      by_cases hklt : k < sel.length
      · obtain ⟨srcRow, row, hsrc, hM, hperm⟩ := hrow k sel[k] (List.getElem?_eq_getElem hklt)
        rw [hM, List.getElem?_eq_getElem hklt]
        simp only [Option.map_some', Option.some.injEq]
        have hdeg : row.length = inducedOutDegree orig sel thresh sel[k] := by
          rw [hperm.length_eq, length_mappedEntries sel map _ hpm hsize srcRow]
          unfold inducedOutDegree
          rw [List.getD_eq_getElem?_getD, hsrc]
          rfl
        rw [hdeg]
      · have h1 : M1[k]? = none := List.getElem?_eq_none (by omega)
        have h2 : sel[k]? = none := List.getElem?_eq_none (by omega)
        rw [h1, h2]
        rfl
    refine ⟨?_, by rw [length_normalizeWeights]; exact hshape.1, ?_⟩
    · rw [hsel, hmask, selectByMask_map_filter]
    · intro i j a b hi hj
      have hmlen : sel.length = (degreeMask t M1).length := by simp [degreeMask, hlen]
      rw [hsel, selectByMask_getElem sel _ 0 i hmlen] at hi
      rw [hsel, selectByMask_getElem sel _ 0 j hmlen] at hj
      obtain ⟨p, hp, hpa⟩ := Option.bind_eq_some.1 hi
      obtain ⟨q, hq, hqb⟩ := Option.bind_eq_some.1 hj
      simp only [Nat.sub_zero] at hpa hqb
      constructor
      · rintro ⟨w', hw'⟩
        obtain ⟨w, hw, _⟩ := (hasEdge_normalizeWeights M0 i j w').1 hw'
        have h1 := (hedge2 i j p q w hp hq).1 hw
        have h2 := (hedge p q a b w hpa hqb).1 h1
        exact ⟨w, h2.1, by simpa using h2.2⟩
      · rintro ⟨w, hw, hlt⟩
        have h1 := (hedge p q a b w hpa hqb).2 ⟨hw, by simpa using hlt⟩
        have h2 := (hedge2 i j p q w hp hq).2 h1
        exact ⟨_, (hasEdge_normalizeWeights M0 i j _).2 ⟨w, h2, rfl⟩⟩

/-- Claim C10, amended, at `exampleMatrix` with minimum degree 2. -/
theorem extractSubGraph_degree_filter_witness :
    (([0, 1] : List Nat) ≠ [] → ([0, 1] : List Nat).length < 2 ^ 32 →
      (∀ id ∈ ([0, 1] : List Nat), id < exampleMatrix.length) →
      (∀ row ∈ exampleMatrix, ∀ e ∈ row, e.1 < exampleMatrix.length) →
      ∃ r, extractSubGraph exampleMatrix 2 [0, 1] 0 = some r) ∧
    ∀ sel' M, extractSubGraph exampleMatrix 2 [0, 1] 0 = some (sel', M) →
      sel' = ([0, 1] : List Nat).filter
        (fun id => decide (2 ≤ inducedOutDegree exampleMatrix [0, 1] 0 id)) ∧
      M.length = sel'.length ∧ InducedEdges exampleMatrix sel' 0 M :=
  extractSubGraph_degree_filter exampleMatrix 2 [0, 1] 0 (by decide) (by decide) (by decide)

/-! ## Lemmas: embedding re-initialisation -/

theorem IDMapping.find_mem : ∀ (m : IDMapping) (key : Nat) (e : EmbIdAndPos),
    IDMapping.find m key = some e → (key, e) ∈ m
  | [], key, e, h => by simp [IDMapping.find] at h
  | (k, v) :: m, key, e, h => by
    simp only [IDMapping.find, List.lookup] at h
    by_cases hk : key = k
    · subst hk
      simp only [beq_self_eq_true, Option.some.injEq] at h
      subst h
      exact List.mem_cons_self _ _
    · have : (key == k) = false := by simpa using hk
      simp only [this] at h
      exact List.mem_cons_of_mem _ (IDMapping.find_mem m key e h)

theorem take_succ_set {α : Type} : ∀ (l : List α) (c : Nat) (x : α), c < l.length →
    (l.set c x).take (c + 1) = l.take c ++ [x]
  | [], c, x, h => by simp at h
  | a :: l, 0, x, _ => by simp
  | a :: l, c + 1, x, h => by
    simp only [List.set_cons_succ, List.take_succ_cons, List.cons_append, List.cons.injEq, true_and]
    exact take_succ_set l c x (by simpa using h)

theorem scanTransitionNNs_spec (l2o : List Nat) (idMap : IDMapping) :
    ∀ (nns arr : List Nat) (c : Nat) (arr' : List Nat) (b : Bool),
      arr.length = 3 → c ≤ 2 →
      scanTransitionNNs l2o idMap nns arr c = some (arr', b) →
      (b = true ↔ 3 ≤ c + (transitNeighboursInMap l2o idMap nns).length) ∧
      (b = true → arr' = arr.take c ++ (transitNeighboursInMap l2o idMap nns).take (3 - c)) := by
  intro nns
  induction nns with
  | nil =>
    intro arr c arr' b _ hc h
    simp only [scanTransitionNNs, Option.some.injEq, Prod.mk.injEq] at h
    obtain ⟨_, rfl⟩ := h
    simp [transitNeighboursInMap]; omega
  | cons t rest ih =>
    intro arr c arr' b hlen hc h
    simp only [scanTransitionNNs] at h
    cases hd : l2o[t]? with
    | none => simp [hd] at h
    | some d =>
      simp only [hd] at h
      cases hf : IDMapping.find idMap d with
      | none =>
        simp only [hf] at h
        have hfm : transitNeighboursInMap l2o idMap (t :: rest)
            = transitNeighboursInMap l2o idMap rest := by
          simp [transitNeighboursInMap, List.filterMap_cons, hd, hf]
        rw [hfm]
        exact ih arr c arr' b hlen hc h
      | some e =>
        simp only [hf] at h
        have hfm : transitNeighboursInMap l2o idMap (t :: rest)
            = e.posInEmbedding :: transitNeighboursInMap l2o idMap rest := by
          simp [transitNeighboursInMap, List.filterMap_cons, hd, hf]
        rw [hfm]
        by_cases h3 : c + 1 = 3
        · simp only [h3, if_true, Option.some.injEq, Prod.mk.injEq] at h
          obtain ⟨rfl, rfl⟩ := h
          have hc2 : c = 2 := by omega
          subst hc2
          refine ⟨by simp only [List.length_cons, true_iff]; omega, fun _ => ?_⟩
          have := take_succ_set arr 2 e.posInEmbedding (by omega)
          rw [List.take_of_length_le (by simp [hlen])] at this
          simpa using this
        · simp only [h3, if_false] at h
          have := ih (arr.set c e.posInEmbedding) (c + 1) arr' b (by simpa using hlen)
            (by omega) h
          refine ⟨by rw [this.1]; simp only [List.length_cons]; omega, fun hb => ?_⟩
          rw [this.2 hb, take_succ_set arr c _ (by omega)]
          have : 3 - c = (3 - (c + 1)) + 1 := by omega
          rw [this, List.take_succ_cons]
          simp

theorem scanTransitionNNs_total (l2o : List Nat) (idMap : IDMapping) :
    ∀ (nns arr : List Nat) (c : Nat), (∀ t ∈ nns, t < l2o.length) →
      ∃ r, scanTransitionNNs l2o idMap nns arr c = some r := by
  intro nns
  induction nns with
  | nil => intro arr c _; exact ⟨_, rfl⟩
  | cons t rest ih =>
    intro arr c h
    have ht : t < l2o.length := h t (List.mem_cons_self _ _)
    have hr : ∀ t ∈ rest, t < l2o.length := fun x hx => h x (List.mem_cons_of_mem _ hx)
    simp only [scanTransitionNNs, List.getElem?_eq_getElem ht]
    cases hf : IDMapping.find idMap l2o[t] with
    | none => exact ih arr c hr
    | some e =>
      simp only
      split_ifs
      · exact ⟨_, rfl⟩
      · exact ih _ _ hr

theorem mem_transitNeighboursInMap (l2o : List Nat) (idMap : IDMapping) (nns : List Nat)
    (p : Nat) (h : p ∈ transitNeighboursInMap l2o idMap nns) :
    ∃ key entry, IDMapping.find idMap key = some entry ∧ entry.posInEmbedding = p := by
  simp only [transitNeighboursInMap, List.mem_filterMap, Option.bind_eq_some,
    Option.map_eq_some'] at h
  obtain ⟨t, _, d, _, e, he, hp⟩ := h
  exact ⟨d, e, he, hp⟩

theorem reinitializePoint_spec (l2o : List Nat) (nn : List (List Nat)) (emb : List Vector2f)
    (idMap : IDMapping) (randomVec : Nat → Vector2f) (emdId localId : Nat) (s s1 : ReinitState)
    (h : reinitializePoint l2o nn emb idMap randomVec emdId localId s = some s1) :
    ∃ p tag, WritesPoint s s1 emdId p tag ∧ PointRule l2o nn emb idMap localId p tag := by
  simp only [reinitializePoint] at h
  cases hd : l2o[localId]? with
  | none => simp [hd] at h
  | some d =>
    simp only [hd] at h
    cases hf : IDMapping.find idMap d with
    | some e =>
      simp only [hf] at h
      cases hp : emb[e.posInEmbedding]? with
      | none => simp [hp] at h
      | some p =>
        simp only [hp, Option.some.injEq] at h
        subst h
        refine ⟨p, POINTINITTYPE.previousPos, ⟨rfl, rfl, by simp, by simp, by simp⟩, d, hd, ?_, ?_⟩
        · intro e' he'
          rw [hf, Option.some.injEq] at he'
          subst he'
          exact ⟨hp, rfl⟩
        · intro hc; rw [hf] at hc; simp at hc
    | none =>
      simp only [hf] at h
      cases hn : nn[localId]? with
      | none => simp [hn] at h
      | some nns =>
        simp only [hn] at h
        cases hs : scanTransitionNNs l2o idMap nns [0, 0, 0] 0 with
        | none => simp [hs] at h
        | some r =>
          obtain ⟨arr, b⟩ := r
          have hspec := scanTransitionNNs_spec l2o idMap nns [0, 0, 0] 0 arr b rfl (by omega) hs
          simp only [Nat.zero_add, List.take_zero, List.nil_append, Nat.sub_zero] at hspec
          cases b with
          | true =>
            simp only [hs] at h
            have h3 := hspec.1.mp rfl
            have harr := hspec.2 rfl
            have hg : ∀ k, k < 3 → arr.getD k 0
                = (transitNeighboursInMap l2o idMap nns).getD k 0 := by
              intro k hk
              rw [harr]
              simp only [List.getD_eq_getElem?_getD]
              rw [List.getElem?_take_of_lt hk]
            rw [hg 0 (by omega), hg 1 (by omega), hg 2 (by omega)] at h
            cases h0 : emb[(transitNeighboursInMap l2o idMap nns).getD 0 0]? with
            | none => rw [h0] at h; simp at h
            | some p0 =>
              cases h1 : emb[(transitNeighboursInMap l2o idMap nns).getD 1 0]? with
              | none => rw [h0, h1] at h; simp at h
              | some p1 =>
                cases h2 : emb[(transitNeighboursInMap l2o idMap nns).getD 2 0]? with
                | none => rw [h0, h1, h2] at h; simp at h
                | some p2 =>
                  rw [h0, h1, h2] at h
                  simp only [Option.some.injEq] at h
                  subst h
                  refine ⟨interpol2D p0 p1 p2, POINTINITTYPE.interpolPos,
                    ⟨rfl, rfl, by simp, by simp, by simp⟩, d, hd, ?_, ?_⟩
                  · intro e' he'; rw [hf] at he'; simp at he'
                  · intro _
                    exact ⟨nns, hn, fun _ => ⟨p0, p1, p2, h0, h1, h2, rfl, rfl⟩,
                      fun hlt => absurd h3 (by omega)⟩
          | false =>
            simp only [hs, Option.some.injEq] at h
            subst h
            have h3 : ¬ 3 ≤ (transitNeighboursInMap l2o idMap nns).length := by
              intro hc
              have := hspec.1.mpr hc
              simp at this
            refine ⟨randomVec s.numPoints_randPos, POINTINITTYPE.randomPos,
              ⟨rfl, rfl, by simp, by simp, by simp⟩, d, hd, ?_, ?_⟩
            · intro e' he'; rw [hf] at he'; simp at he'
            · intro _
              exact ⟨nns, hn, fun hge => absurd hge h3, fun _ => rfl⟩

theorem reinitializePoint_total (l2o : List Nat) (nn : List (List Nat)) (emb : List Vector2f)
    (idMap : IDMapping) (randomVec : Nat → Vector2f) (emdId localId : Nat) (s : ReinitState)
    (hid : localId < l2o.length ∧ localId < nn.length)
    (hnn : ∀ nns ∈ nn, ∀ t ∈ nns, t < l2o.length)
    (hmap : ∀ (key : Nat) (entry : EmbIdAndPos), IDMapping.find idMap key = some entry →
      entry.posInEmbedding < emb.length) :
    ∃ s1, reinitializePoint l2o nn emb idMap randomVec emdId localId s = some s1 := by
  simp only [reinitializePoint, List.getElem?_eq_getElem hid.1, List.getElem?_eq_getElem hid.2]
  cases hf : IDMapping.find idMap l2o[localId] with
  | some e =>
    simp only [List.getElem?_eq_getElem (hmap _ _ hf)]
    exact ⟨_, rfl⟩
  | none =>
    simp only
    obtain ⟨r, hr⟩ := scanTransitionNNs_total l2o idMap nn[localId] [0, 0, 0] 0
      (hnn _ (List.getElem_mem _))
    obtain ⟨arr, b⟩ := r
    have hspec := scanTransitionNNs_spec l2o idMap _ [0, 0, 0] 0 arr b rfl (by omega) hr
    simp only [Nat.zero_add, List.take_zero, List.nil_append, Nat.sub_zero] at hspec
    cases b with
    | false => simp only [hr]; exact ⟨_, rfl⟩
    | true =>
      simp only [hr]
      have h3 := hspec.1.mp rfl
      have harr := hspec.2 rfl
      have hlt : ∀ k, k < 3 → arr.getD k 0 < emb.length := by
        intro k hk
        have hk' : k < (List.take 3 (transitNeighboursInMap l2o idMap nn[localId])).length := by
          simp only [List.length_take]; omega
        have hmem : arr.getD k 0 ∈ transitNeighboursInMap l2o idMap nn[localId] := by
          rw [harr, List.getD_eq_getElem?_getD, List.getElem?_eq_getElem hk']
          exact List.mem_of_mem_take (List.getElem_mem _)
        obtain ⟨key, e, he, hp⟩ := mem_transitNeighboursInMap _ _ _ _ hmem
        rw [← hp]
        exact hmap _ _ he
      simp only [List.getElem?_eq_getElem (hlt 0 (by omega)),
        List.getElem?_eq_getElem (hlt 1 (by omega)), List.getElem?_eq_getElem (hlt 2 (by omega))]
      exact ⟨_, rfl⟩

theorem writesPoint_frame (s s1 : ReinitState) (k : Nat) (p : Vector2f) (tag : POINTINITTYPE)
    (h : WritesPoint s s1 k p tag) (h1 : 2 * k + 1 < s.initEmbedding.length)
    (h2 : k < s.initTypes.length) :
    s1.initEmbedding.length = s.initEmbedding.length ∧
    s1.initTypes.length = s.initTypes.length ∧
    (∀ j, j < 2 * k → s1.initEmbedding[j]? = s.initEmbedding[j]?) ∧
    (∀ j, j < k → s1.initTypes[j]? = s.initTypes[j]?) ∧
    SlotHolds s1 k p tag := by
  obtain ⟨he, ht, _⟩ := h
  refine ⟨by rw [he]; simp, by rw [ht]; simp, ?_, ?_, ?_, ?_, ?_⟩
  · intro j hj
    rw [he, List.getElem?_set_ne (by omega), List.getElem?_set_ne (by omega)]
  · intro j hj
    rw [ht, List.getElem?_set_ne (by omega)]
  · rw [he, List.getElem?_set_ne (by omega), List.getElem?_set_self (by omega)]
  · rw [he, List.getElem?_set_self (by simp; omega)]
  · rw [ht, List.getElem?_set_self h2]

theorem count_segment_succ (l : List POINTINITTYPE) (k n : Nat) (tag a : POINTINITTYPE)
    (h : l[k]? = some tag) :
    ((l.drop k).take (n + 1)).count a
      = (if tag = a then 1 else 0) + ((l.drop (k + 1)).take n).count a := by
  have hk : k < l.length := by
    by_contra hc
    rw [List.getElem?_eq_none (by omega)] at h
    simp at h
  rw [List.drop_eq_getElem_cons hk, List.take_succ_cons, List.count_cons]
  have : l[k] = tag := by
    rw [List.getElem?_eq_getElem hk] at h
    exact Option.some.inj h
  rw [this]
  simp only [beq_iff_eq]
  omega

theorem reinitializeLoop_spec (l2o : List Nat) (nn : List (List Nat)) (emb : List Vector2f)
    (idMap : IDMapping) (randomVec : Nat → Vector2f) :
    ∀ (ids : List Nat) (k : Nat) (s s' : ReinitState),
      reinitializeLoop l2o nn emb idMap randomVec ids k s = some s' →
      2 * (k + ids.length) ≤ s.initEmbedding.length → k + ids.length ≤ s.initTypes.length →
      s'.initEmbedding.length = s.initEmbedding.length ∧
      s'.initTypes.length = s.initTypes.length ∧
      (∀ j, j < 2 * k → s'.initEmbedding[j]? = s.initEmbedding[j]?) ∧
      (∀ j, j < k → s'.initTypes[j]? = s.initTypes[j]?) ∧
      (∀ (i id : Nat), ids[i]? = some id →
        ∃ p tag, SlotHolds s' (k + i) p tag ∧ PointRule l2o nn emb idMap id p tag) ∧
      s'.numPoints_oldPos = s.numPoints_oldPos
        + ((s'.initTypes.drop k).take ids.length).count POINTINITTYPE.previousPos ∧
      s'.numPoints_interPos = s.numPoints_interPos
        + ((s'.initTypes.drop k).take ids.length).count POINTINITTYPE.interpolPos ∧
      s'.numPoints_randPos = s.numPoints_randPos
        + ((s'.initTypes.drop k).take ids.length).count POINTINITTYPE.randomPos := by
  intro ids
  induction ids with
  | nil =>
    intro k s s' h _ _
    simp only [reinitializeLoop, Option.some.injEq] at h
    subst h
    simp
  | cons id rest ih =>
    intro k s s' h hE hT
    simp only [reinitializeLoop] at h
    simp only [List.length_cons] at hE hT
    cases hp : reinitializePoint l2o nn emb idMap randomVec k id s with
    | none => simp [hp] at h
    | some s1 =>
      simp only [hp] at h
      obtain ⟨p, tag, hw, hrule⟩ := reinitializePoint_spec _ _ _ _ _ _ _ _ _ hp
      obtain ⟨hl1, hl2, hf1, hf2, hslot⟩ := writesPoint_frame s s1 k p tag hw (by omega) (by omega)
      obtain ⟨gl1, gl2, gf1, gf2, gslots, gc1, gc2, gc3⟩ :=
        ih (k + 1) s1 s' h (by rw [hl1]; omega) (by rw [hl2]; omega)
      have hslot' : SlotHolds s' k p tag :=
        ⟨by rw [gf1 _ (by omega)]; exact hslot.1, by rw [gf1 _ (by omega)]; exact hslot.2.1,
          by rw [gf2 _ (by omega)]; exact hslot.2.2⟩
      obtain ⟨_, _, hc1, hc2, hc3⟩ := hw
      refine ⟨by rw [gl1, hl1], by rw [gl2, hl2], ?_, ?_, ?_, ?_, ?_, ?_⟩
      · intro j hj
        rw [gf1 _ (by omega), hf1 _ hj]
      · intro j hj
        rw [gf2 _ (by omega), hf2 _ hj]
      · intro i id' hi
        cases i with
        | zero =>
          simp only [List.getElem?_cons_zero, Option.some.injEq] at hi
          subst hi
          exact ⟨p, tag, hslot', hrule⟩
        | succ i =>
          simp only [List.getElem?_cons_succ] at hi
          obtain ⟨p', tag', hs', hr'⟩ := gslots i id' hi
          refine ⟨p', tag', ?_, hr'⟩
          have : k + (i + 1) = k + 1 + i := by omega
          rw [this]
          exact hs'
      · rw [List.length_cons, count_segment_succ _ _ _ tag _ hslot'.2.2, gc1, hc1]; omega
      · rw [List.length_cons, count_segment_succ _ _ _ tag _ hslot'.2.2, gc2, hc2]; omega
      · rw [List.length_cons, count_segment_succ _ _ _ tag _ hslot'.2.2, gc3, hc3]; omega

theorem reinitializeLoop_total (l2o : List Nat) (nn : List (List Nat)) (emb : List Vector2f)
    (idMap : IDMapping) (randomVec : Nat → Vector2f)
    (hnn : ∀ nns ∈ nn, ∀ t ∈ nns, t < l2o.length)
    (hmap : ∀ (key : Nat) (entry : EmbIdAndPos), IDMapping.find idMap key = some entry →
      entry.posInEmbedding < emb.length) :
    ∀ (ids : List Nat) (k : Nat) (s : ReinitState),
      (∀ id ∈ ids, id < l2o.length ∧ id < nn.length) →
      ∃ s', reinitializeLoop l2o nn emb idMap randomVec ids k s = some s' := by
  intro ids
  induction ids with
  | nil => intro k s _; exact ⟨s, rfl⟩
  | cons id rest ih =>
    intro k s hids
    obtain ⟨s1, h1⟩ := reinitializePoint_total l2o nn emb idMap randomVec k id s
      (hids id (List.mem_cons_self _ _)) hnn hmap
    simp only [reinitializeLoop, h1]
    exact ih (k + 1) s1 (fun x hx => hids x (List.mem_cons_of_mem _ hx))

theorem length_resizeVec {α : Type} (v : List α) (n : Nat) (fill : α) :
    (resizeVec v n fill).length = n := by
  simp only [resizeVec, List.length_append, List.length_take, List.length_replicate]
  omega

/-- Everything `reinitializeEmbedding` guarantees when all reads are in
    range. -/
theorem reinitializeEmbedding_spec (l2o : List Nat) (nn : List (List Nat))
    (emb : List Vector2f) (idMap : IDMapping) (randomVec : Nat → Vector2f) (ids : List Nat)
    (initEmbedding : List ℚ) (initTypes : List POINTINITTYPE)
    (hvalid : ValidReinitInput l2o nn emb idMap ids) :
    ∃ r, reinitializeEmbedding l2o nn emb idMap randomVec ids initEmbedding initTypes = some r ∧
      r.initEmbedding.length = 2 * ids.length ∧ r.initTypes.length = ids.length ∧
      (∀ (i id : Nat), ids[i]? = some id →
        ∃ p tag, SlotHolds r i p tag ∧ PointRule l2o nn emb idMap id p tag) ∧
      r.numPoints_oldPos = r.initTypes.count POINTINITTYPE.previousPos ∧
      r.numPoints_interPos = r.initTypes.count POINTINITTYPE.interpolPos ∧
      r.numPoints_randPos = r.initTypes.count POINTINITTYPE.randomPos := by
  obtain ⟨hids, hnn, hmap0⟩ := hvalid
  have hmap : ∀ (key : Nat) (entry : EmbIdAndPos), IDMapping.find idMap key = some entry →
      entry.posInEmbedding < emb.length :=
    fun key e h => hmap0 _ (IDMapping.find_mem _ _ _ h)
  obtain ⟨r, hr⟩ := reinitializeLoop_total l2o nn emb idMap randomVec hnn hmap ids 0
    { initEmbedding := resizeVec initEmbedding (ids.length * 2) 0
      initTypes := resizeVec initTypes ids.length POINTINITTYPE.previousPos
      numPoints_oldPos := 0
      numPoints_interPos := 0
      numPoints_randPos := 0 } hids
  obtain ⟨h1, h2, _, _, hslots, hc1, hc2, hc3⟩ := reinitializeLoop_spec _ _ _ _ _ _ _ _ _ hr
    (by simp only [length_resizeVec]; omega) (by simp only [length_resizeVec]; omega)
  simp only [length_resizeVec] at h1 h2
  refine ⟨r, hr, by omega, h2, ?_, ?_, ?_, ?_⟩
  · intro i id hi
    simpa using hslots i id hi
  · simpa [← h2] using hc1
  · simpa [← h2] using hc2
  · simpa [← h2] using hc3

theorem count_tags (l : List POINTINITTYPE) :
    l.count POINTINITTYPE.previousPos + l.count POINTINITTYPE.interpolPos
      + l.count POINTINITTYPE.randomPos = l.length := by
  induction l with
  | nil => rfl
  | cons a l ih =>
    cases a <;> simp [List.count_cons] <;> omega

/-! ## Claims C11 to C15 -/

/-- Claim C11 fails on the code: for an empty selection `extractSubGraph` reads
`selected_idxes[selected_idxes.size() - 1]`, an access out of range, whatever the matrix, the
minimum degree and the threshold are; no empty matrix is returned. -/
theorem extractSubGraph_empty_selection (orig : HsneMatrix) (threshConnections : Nat)
    (thresh : ℚ) : extractSubGraph orig threshConnections [] thresh = none := by
  simp [extractSubGraph, extractSubGraphUnnormalized]

/-- Claim C12: when all reads are in range, `reinitializeEmbedding` returns, and for every new
landmark at position `i` whose original data-point id is a key of the old ID map the coordinate
slots `2i` and `2i+1` hold exactly the old position stored at that entry's `posInEmbedding` and
the landmark is tagged `previousPos`. -/
theorem reinitializeEmbedding_previous_position (l2o : List Nat) (nn : List (List Nat))
    (emb : List Vector2f) (idMap : IDMapping) (randomVec : Nat → Vector2f) (ids : List Nat)
    (initEmbedding : List ℚ) (initTypes : List POINTINITTYPE)
    (hvalid : ValidReinitInput l2o nn emb idMap ids) :
    ∃ r, reinitializeEmbedding l2o nn emb idMap randomVec ids initEmbedding initTypes = some r ∧
      ∀ (i id dataId : Nat) (entry : EmbIdAndPos), ids[i]? = some id →
        l2o[id]? = some dataId → IDMapping.find idMap dataId = some entry →
        ∃ p, emb[entry.posInEmbedding]? = some p ∧
          r.initEmbedding[2 * i]? = some p.1 ∧ r.initEmbedding[2 * i + 1]? = some p.2 ∧
          r.initTypes[i]? = some POINTINITTYPE.previousPos := by
  obtain ⟨r, hr, _, _, hslots, _⟩ :=
    reinitializeEmbedding_spec l2o nn emb idMap randomVec ids initEmbedding initTypes hvalid
  refine ⟨r, hr, ?_⟩
  intro i id dataId entry hi hd hf
  obtain ⟨p, tag, ⟨hx, hy, ht⟩, d, hd', hprev, _⟩ := hslots i id hi
  rw [hd, Option.some.injEq] at hd'
  subst hd'
  obtain ⟨hp, rfl⟩ := hprev entry hf
  exact ⟨p, hp, hx, hy, ht⟩

/-- Claim C12 on the example scale: landmark 0 (data id 10) was in the old embedding. -/
theorem reinitializeEmbedding_previous_position_witness :
    ∃ r, reinitializeEmbedding exampleLandmarkToData exampleTransitionNNs exampleEmbPositions
        exampleIdMap (fun _ => (7, 7)) [0, 3, 4] [] [] = some r ∧
      ∀ (i id dataId : Nat) (entry : EmbIdAndPos), [0, 3, 4][i]? = some id →
        exampleLandmarkToData[id]? = some dataId →
        IDMapping.find exampleIdMap dataId = some entry →
        ∃ p, exampleEmbPositions[entry.posInEmbedding]? = some p ∧
          r.initEmbedding[2 * i]? = some p.1 ∧ r.initEmbedding[2 * i + 1]? = some p.2 ∧
          r.initTypes[i]? = some POINTINITTYPE.previousPos :=
  reinitializeEmbedding_previous_position exampleLandmarkToData exampleTransitionNNs
    exampleEmbPositions exampleIdMap (fun _ => (7, 7)) [0, 3, 4] [] []
    (by unfold ValidReinitInput; decide)

/-- Claim C14: for every list of `n` new landmarks with all reads in range,
`reinitializeEmbedding` returns exactly `2n` coordinates and `n` provenance tags; its three
counters sum to `n`, and each counter equals the number of landmarks carrying its tag. -/
theorem reinitializeEmbedding_sizes_and_counts (l2o : List Nat) (nn : List (List Nat))
    (emb : List Vector2f) (idMap : IDMapping) (randomVec : Nat → Vector2f) (ids : List Nat)
    (initEmbedding : List ℚ) (initTypes : List POINTINITTYPE)
    (hvalid : ValidReinitInput l2o nn emb idMap ids) :
    ∃ r, reinitializeEmbedding l2o nn emb idMap randomVec ids initEmbedding initTypes = some r ∧
      r.initEmbedding.length = 2 * ids.length ∧ r.initTypes.length = ids.length ∧
      r.numPoints_oldPos + r.numPoints_interPos + r.numPoints_randPos = ids.length ∧
      r.numPoints_oldPos = r.initTypes.count POINTINITTYPE.previousPos ∧
      r.numPoints_interPos = r.initTypes.count POINTINITTYPE.interpolPos ∧
      r.numPoints_randPos = r.initTypes.count POINTINITTYPE.randomPos := by
  obtain ⟨r, hr, h1, h2, _, hc1, hc2, hc3⟩ :=
    reinitializeEmbedding_spec l2o nn emb idMap randomVec ids initEmbedding initTypes hvalid
  refine ⟨r, hr, h1, h2, ?_, hc1, hc2, hc3⟩
  rw [hc1, hc2, hc3, count_tags, h2]

/-- Claim C14 on the example scale, starting from output vectors that already hold data. -/
theorem reinitializeEmbedding_sizes_and_counts_witness :
    ∃ r, reinitializeEmbedding exampleLandmarkToData exampleTransitionNNs exampleEmbPositions
        exampleIdMap (fun _ => (7, 7)) [0, 3, 4] [5, 5, 5, 5, 5, 5, 5, 5]
        [POINTINITTYPE.randomPos] = some r ∧
      r.initEmbedding.length = 2 * [0, 3, 4].length ∧ r.initTypes.length = [0, 3, 4].length ∧
      r.numPoints_oldPos + r.numPoints_interPos + r.numPoints_randPos = [0, 3, 4].length ∧
      r.numPoints_oldPos = r.initTypes.count POINTINITTYPE.previousPos ∧
      r.numPoints_interPos = r.initTypes.count POINTINITTYPE.interpolPos ∧
      r.numPoints_randPos = r.initTypes.count POINTINITTYPE.randomPos :=
  reinitializeEmbedding_sizes_and_counts exampleLandmarkToData exampleTransitionNNs
    exampleEmbPositions exampleIdMap (fun _ => (7, 7)) [0, 3, 4] [5, 5, 5, 5, 5, 5, 5, 5]
    [POINTINITTYPE.randomPos] (by unfold ValidReinitInput; decide)

theorem IDMapping.find_append_single (m : IDMapping) (key k : Nat) (v : EmbIdAndPos) :
    IDMapping.find (m ++ [(key, v)]) k
      = match IDMapping.find m k with
        | some e => some e
        | none => if k = key then some v else none := by
  induction m with
  | nil =>
    simp only [IDMapping.find, List.nil_append, List.lookup]
    by_cases h : k = key
    · subst h; simp
    · have : (k == key) = false := by simpa using h
      simp [this, h]
  | cons a m ih =>
    obtain ⟨k0, v0⟩ := a
    simp only [IDMapping.find, List.cons_append, List.lookup] at ih ⊢
    by_cases h : k = k0
    · subst h; simp
    · have : (k == k0) = false := by simpa using h
      simp only [this]
      exact ih

theorem IDMapping.find_insert_new (m : IDMapping) (key k : Nat) (v : EmbIdAndPos)
    (h : IDMapping.find m key = none) :
    IDMapping.insert m key v = m ++ [(key, v)] ∧
    IDMapping.find (IDMapping.insert m key v) k
      = match IDMapping.find m k with
        | some e => some e
        | none => if k = key then some v else none := by
  have : IDMapping.insert m key v = m ++ [(key, v)] := by
    simp only [IDMapping.insert, h]
  exact ⟨this, by rw [this]; exact IDMapping.find_append_single m key k v⟩

theorem nodup_getElem_inj (l : List Nat) (h : l.Nodup) (a b d : Nat)
    (ha : l[a]? = some d) (hb : l[b]? = some d) : a = b := by
  obtain ⟨ha1, ha2⟩ := List.getElem?_eq_some_iff.1 ha
  obtain ⟨hb1, hb2⟩ := List.getElem?_eq_some_iff.1 hb
  exact (List.Nodup.getElem_inj_iff h).1 (ha2.trans hb2.symm)

theorem recomputeIDMapLoop_spec (l2o : List Nat)
    (hinj : ∀ (a b d : Nat), l2o[a]? = some d → l2o[b]? = some d → a = b) :
    ∀ (ids : List Nat) (k : Nat) (m : IDMapping),
      (∀ id ∈ ids, id < l2o.length) → ids.Nodup →
      (∀ id ∈ ids, ∀ d : Nat, l2o[id]? = some d → IDMapping.find m d = none) →
      ∃ m', recomputeIDMapLoop l2o ids k m = some m' ∧ m'.length = m.length + ids.length ∧
        (∀ (i id d : Nat), ids[i]? = some id → l2o[id]? = some d →
          IDMapping.find m' d = some { localIdOnScale := id, posInEmbedding := k + i }) ∧
        (∀ (key : Nat) (e : EmbIdAndPos), IDMapping.find m key = some e →
          IDMapping.find m' key = some e) ∧
        (∀ (key : Nat) (e : EmbIdAndPos), IDMapping.find m' key = some e →
          IDMapping.find m key = some e ∨
          ∃ i : Nat, ids[i]? = some e.localIdOnScale ∧ l2o[e.localIdOnScale]? = some key ∧
            e.posInEmbedding = k + i) := by
  intro ids
  induction ids with
  | nil =>
    intro k m _ _ _
    exact ⟨m, rfl, rfl, by simp, fun _ _ h => h, fun _ _ h => Or.inl h⟩
  | cons id rest ih =>
    intro k m hv hnd hfresh
    have hid : id < l2o.length := hv id (List.mem_cons_self _ _)
    have hd : l2o[id]? = some l2o[id] := List.getElem?_eq_getElem hid
    have hnew : IDMapping.find m l2o[id] = none := hfresh id (List.mem_cons_self _ _) _ hd
    obtain ⟨hnotin, hnd'⟩ := List.nodup_cons.1 hnd
    have hins := fun k' => (IDMapping.find_insert_new m l2o[id] k'
      { localIdOnScale := id, posInEmbedding := k } hnew).2
    have hlen := (IDMapping.find_insert_new m l2o[id] 0
      { localIdOnScale := id, posInEmbedding := k } hnew).1
    obtain ⟨m', hm', hl', hpos, hkeep, horigin⟩ := ih (k + 1)
      (IDMapping.insert m l2o[id] { localIdOnScale := id, posInEmbedding := k })
      (fun x hx => hv x (List.mem_cons_of_mem _ hx)) hnd'
      (by
        intro id' hid' d' hd'
        rw [hins d', hfresh id' (List.mem_cons_of_mem _ hid') d' hd']
        have hne : d' ≠ l2o[id] := by
          intro hc
          subst hc
          have := hinj id' id _ hd' hd
          subst this
          exact hnotin hid'
        simp [hne])
    refine ⟨m', ?_, ?_, ?_, ?_, ?_⟩
    · simp only [recomputeIDMapLoop, hd]
      exact hm'
    · rw [hl', hlen]
      simp only [List.length_append, List.length_cons, List.length_nil]
      omega
    · intro i id' d hi hdi
      cases i with
      | zero =>
        simp only [List.getElem?_cons_zero, Option.some.injEq] at hi
        subst hi
        rw [hd, Option.some.injEq] at hdi
        subst hdi
        apply hkeep
        rw [hins, hnew]
        simp
      | succ i =>
        simp only [List.getElem?_cons_succ] at hi
        have := hpos i id' d hi hdi
        rw [this]
        congr 2
        omega
    · intro key e he
      apply hkeep
      rw [hins, he]
    · intro key e he
      rcases horigin key e he with h1 | ⟨i, hi1, hi2, hi3⟩
      · rw [hins] at h1
        cases hm : IDMapping.find m key with
        | some e' =>
          rw [hm] at h1
          exact Or.inl h1
        | none =>
          rw [hm] at h1
          simp only at h1
          split_ifs at h1 with hk
          simp only [Option.some.injEq] at h1
          subst h1
          subst hk
          exact Or.inr ⟨0, by simp, hd, by simp⟩
      · exact Or.inr ⟨i + 1, by simpa using hi1, hi2, by omega⟩

/-- Claim C15: for every duplicate-free list `ids` of fewer than `2^32` valid landmarks on a
scale whose landmark-to-data mapping is injective, `recomputeIDMap` returns a map that does not
depend on the old one: it has exactly as many entries as `ids`, every entry of it stems from a
position of `ids`, and for every position `i` the entry keyed by the original data-point id of
`ids[i]` is `(localIdOnScale = ids[i], posInEmbedding = i)`. -/
theorem recomputeIDMap_rebuilds (l2o : List Nat) (ids : List Nat) (idMap : IDMapping)
    (hnd : ids.Nodup) (hinj : l2o.Nodup)
    (hvalid : ∀ id ∈ ids, id < l2o.length) (hsize : ids.length < 2 ^ 32) :
    ∃ m, recomputeIDMap l2o ids idMap = some m ∧ m.length = ids.length ∧
      (∀ (i id d : Nat), ids[i]? = some id → l2o[id]? = some d →
        IDMapping.find m d = some { localIdOnScale := id, posInEmbedding := i }) ∧
      (∀ (key : Nat) (e : EmbIdAndPos), IDMapping.find m key = some e →
        ∃ i : Nat, ids[i]? = some e.localIdOnScale ∧ l2o[e.localIdOnScale]? = some key ∧
          e.posInEmbedding = i) := by
  obtain ⟨m, hm, hl, hpos, _, horigin⟩ := recomputeIDMapLoop_spec l2o
    (nodup_getElem_inj l2o hinj) ids 0 [] hvalid hnd (fun _ _ _ _ => rfl)
  refine ⟨m, by simp only [recomputeIDMap, hsize, if_true]; exact hm, by simpa using hl, ?_, ?_⟩
  · intro i id d hi hd
    simpa using hpos i id d hi hd
  · intro key e he
    rcases horigin key e he with h | ⟨i, h1, h2, h3⟩
    · simp [IDMapping.find] at h
    · exact ⟨i, h1, h2, by omega⟩

/-- Claim C15 on the example scale: the old map with the keys 10, 11, 12 is replaced by one
for the landmarks 0, 3, 4. -/
theorem recomputeIDMap_rebuilds_witness :
    ∃ m, recomputeIDMap exampleLandmarkToData [0, 3, 4] exampleIdMap = some m ∧
      m.length = [0, 3, 4].length ∧
      (∀ (i id d : Nat), [0, 3, 4][i]? = some id → exampleLandmarkToData[id]? = some d →
        IDMapping.find m d = some { localIdOnScale := id, posInEmbedding := i }) ∧
      (∀ (key : Nat) (e : EmbIdAndPos), IDMapping.find m key = some e →
        ∃ i : Nat, [0, 3, 4][i]? = some e.localIdOnScale ∧
          exampleLandmarkToData[e.localIdOnScale]? = some key ∧ e.posInEmbedding = i) :=
  recomputeIDMap_rebuilds exampleLandmarkToData [0, 3, 4] exampleIdMap (by decide) (by decide)
    (by decide) (by norm_num)

/-! ## Lemmas: influence hierarchy -/

theorem scaleInv_mono (td bu : LandmarkMap) (k : Nat) (h : ScaleInv td bu k) :
    ScaleInv td bu (k + 1) :=
  ⟨fun i b hi hb => h.1 i b (by omega) hb, h.2.1,
    fun l t x ht hx => Nat.lt_succ_of_lt (h.2.2.1 l t x ht hx), h.2.2.2⟩

theorem scaleInv_push (td bu : LandmarkMap) (k l : Nat) (t b : List Nat)
    (h : ScaleInv td bu k) (htd : td[l]? = some t) (hbu : bu[k]? = some b) :
    ScaleInv (td.set l (t ++ [k])) (bu.set k (b ++ [l])) (k + 1) := by
  obtain ⟨h1, h2, h3, h4⟩ := h
  have hb : b = [] := h1 k b (le_refl _) hbu
  subst hb
  have hl : l < td.length := (List.getElem?_eq_some_iff.1 htd).1
  have hk : k < bu.length := (List.getElem?_eq_some_iff.1 hbu).1
  have hcount : t.count k = 0 := by
    rw [List.count_eq_zero]
    intro hc
    have := h3 l t k htd hc
    omega
  refine ⟨?_, ?_, ?_, ?_⟩
  · intro i b' hi hb'
    rw [List.getElem?_set_ne (by omega)] at hb'
    exact h1 i b' (by omega) hb'
  · intro i b' hb'
    by_cases hik : k = i
    · subst hik
      rw [List.getElem?_set_self hk, Option.some.injEq] at hb'
      subst hb'
      simp
    · rw [List.getElem?_set_ne hik] at hb'
      exact h2 i b' hb'
  · intro l' t' x ht' hx
    by_cases hll : l = l'
    · subst hll
      rw [List.getElem?_set_self hl, Option.some.injEq] at ht'
      subst ht'
      rcases List.mem_append.1 hx with hx | hx
      · exact Nat.lt_succ_of_lt (h3 l t x htd hx)
      · simp only [List.mem_singleton] at hx
        omega
    · rw [List.getElem?_set_ne hll] at ht'
      exact Nat.lt_succ_of_lt (h3 l' t' x ht' hx)
  · intro l' t' i ht'
    by_cases hll : l = l'
    · subst hll
      rw [List.getElem?_set_self hl, Option.some.injEq] at ht'
      subst ht'
      rw [List.count_append]
      by_cases hik : k = i
      · subst hik
        rw [List.getElem?_set_self hk, hcount]
        simp
      · rw [List.getElem?_set_ne hik, h4 l t i htd]
        have : List.count i [k] = 0 := by
          rw [List.count_eq_zero]
          simpa using fun hc => hik hc.symm
        rw [this]
        simp
    · rw [List.getElem?_set_ne hll] at ht'
      rw [h4 l' t' i ht']
      by_cases hik : k = i
      · subst hik
        rw [List.getElem?_set_self hk, hbu]
        simp [hll]
      · rw [List.getElem?_set_ne hik]

theorem pushBackAt_spec (map map' : List LandmarkMap) (scale idx value : Nat)
    (h : pushBackAt map scale idx value = some map') :
    ∃ lm entries, map[scale]? = some lm ∧ lm[idx]? = some entries ∧
      map' = map.set scale (lm.set idx (entries ++ [value])) := by
  simp only [pushBackAt] at h
  cases h1 : map[scale]? with
  | none => simp [h1] at h
  | some lm =>
    simp only [h1] at h
    cases h2 : lm[idx]? with
    | none => simp [h2] at h
    | some entries =>
      simp only [h2, Option.some.injEq] at h
      exact ⟨lm, entries, rfl, h2, h.symm⟩

theorem recordTopInfluences_spec (influence : Influence) (k : Nat) :
    ∀ (Ls : List Nat) (maps maps' : InfluenceHierarchy),
      recordTopInfluences influence k Ls maps = some maps' → Ls.Nodup →
      (∀ L ∈ Ls, ∀ td bu, maps.influenceMapTopDown[L]? = some td →
        maps.influenceMapBottomUp[L]? = some bu → ScaleInv td bu k) →
      (∀ L : Nat, L ∉ Ls → maps'.influenceMapTopDown[L]? = maps.influenceMapTopDown[L]? ∧
        maps'.influenceMapBottomUp[L]? = maps.influenceMapBottomUp[L]?) ∧
      (∀ L ∈ Ls, ∀ td bu, maps'.influenceMapTopDown[L]? = some td →
        maps'.influenceMapBottomUp[L]? = some bu → ScaleInv td bu (k + 1)) := by
  intro Ls
  induction Ls with
  | nil =>
    intro maps maps' h _ _
    simp only [recordTopInfluences, Option.some.injEq] at h
    subst h
    exact ⟨fun _ _ => ⟨rfl, rfl⟩, fun L hL => absurd hL (List.not_mem_nil _)⟩
  | cons L rest ih =>
    intro maps maps' h hnd hpre
    obtain ⟨hLrest, hnd'⟩ := List.nodup_cons.1 hnd
    simp only [recordTopInfluences] at h
    cases hinf : influence[L]? with
    | none => simp [hinf] at h
    | some scaleMap =>
      simp only [hinf] at h
      cases hmax : maxElement scaleMap with
      | none =>
        simp only [hmax] at h
        obtain ⟨hout, hin⟩ := ih maps maps' h hnd'
          (fun L' hL' => hpre L' (List.mem_cons_of_mem _ hL'))
        refine ⟨fun L' hL' => hout L' (fun hc => hL' (List.mem_cons_of_mem _ hc)), ?_⟩
        intro L' hL' td bu htd hbu
        rcases List.mem_cons.1 hL' with rfl | hr
        · rw [(hout L' hLrest).1] at htd
          rw [(hout L' hLrest).2] at hbu
          exact scaleInv_mono _ _ _ (hpre L' (List.mem_cons_self _ _) td bu htd hbu)
        · exact hin L' hr td bu htd hbu
      | some largest =>
        simp only [hmax] at h
        cases hb : pushBackAt maps.influenceMapBottomUp L k largest.1 with
        | none => simp [hb] at h
        | some bottomUp =>
          simp only [hb] at h
          cases ht : pushBackAt maps.influenceMapTopDown L largest.1 k with
          | none => simp [ht] at h
          | some topDown =>
            simp only [ht] at h
            obtain ⟨buL, b, hbuL, hbk, rfl⟩ := pushBackAt_spec _ _ _ _ _ hb
            obtain ⟨tdL, t, htdL, htl, rfl⟩ := pushBackAt_spec _ _ _ _ _ ht
            have hLtd : L < maps.influenceMapTopDown.length :=
              (List.getElem?_eq_some_iff.1 htdL).1
            have hLbu : L < maps.influenceMapBottomUp.length :=
              (List.getElem?_eq_some_iff.1 hbuL).1
            obtain ⟨hout, hin⟩ := ih _ maps' h hnd' (by
              intro L' hL' td bu htd hbu
              have hne : L ≠ L' := fun hc => hLrest (hc ▸ hL')
              simp only [List.getElem?_set_ne hne] at htd hbu
              exact hpre L' (List.mem_cons_of_mem _ hL') td bu htd hbu)
            refine ⟨?_, ?_⟩
            · intro L' hL'
              have hne : L ≠ L' := fun hc => hL' (hc ▸ List.mem_cons_self _ _)
              have := hout L' (fun hc => hL' (List.mem_cons_of_mem _ hc))
              simp only [List.getElem?_set_ne hne] at this
              exact this
            · intro L' hL' td bu htd hbu
              rcases List.mem_cons.1 hL' with rfl | hr
              · rw [(hout L' hLrest).1] at htd
                rw [(hout L' hLrest).2] at hbu
                simp only [List.getElem?_set_self hLtd, List.getElem?_set_self hLbu,
                  Option.some.injEq] at htd hbu
                subst htd
                subst hbu
                exact scaleInv_push tdL buL k largest.1 t b
                  (hpre L' (List.mem_cons_self _ _) tdL buL htdL hbuL) htl hbk
              · exact hin L' hr td bu htd hbu

theorem mem_scalesAboveZero (numScales L : Nat) :
    L ∈ scalesAboveZero numScales ↔ 0 < L ∧ L < numScales := by
  simp only [scalesAboveZero, List.mem_range'_1]
  omega

theorem recordDataPoint_inv (l2o : List Nat) (numScales : Nat)
    (query : Nat → Influence → ℚ → Influence) (k : Nat) (maps maps' : InfluenceHierarchy)
    (h : recordDataPoint l2o numScales query k maps = some maps') (hinv : MapsInv maps k) :
    MapsInv maps' (k + 1) := by
  simp only [recordDataPoint] at h
  cases hq : influenceOnDataPoint (query k) numScales with
  | none => simp [hq] at h
  | some r =>
    obtain ⟨influence, queried⟩ := r
    simp only [hq] at h
    cases hd : l2o[k]? with
    | none => simp [hd] at h
    | some d =>
      simp only [hd] at h
      cases ht : pushBackAt maps.influenceMapTopDown 0 k d with
      | none => simp [ht] at h
      | some topDown =>
        simp only [ht] at h
        cases hb : pushBackAt maps.influenceMapBottomUp 0 k d with
        | none => simp [hb] at h
        | some bottomUp =>
          simp only [hb] at h
          obtain ⟨_, _, _, _, rfl⟩ := pushBackAt_spec _ _ _ _ _ ht
          obtain ⟨_, _, _, _, rfl⟩ := pushBackAt_spec _ _ _ _ _ hb
          obtain ⟨hout, hin⟩ := recordTopInfluences_spec influence k _ _ _ h
            (List.nodup_range' 1 (numScales - 1))
            (by
              intro L hL td bu htd hbu
              have hL0 : 0 < L := ((mem_scalesAboveZero _ _).1 hL).1
              simp only [List.getElem?_set_ne (Nat.ne_of_lt hL0)] at htd hbu
              exact hinv L td bu hL0 htd hbu)
          intro L td bu hL0 htd hbu
          by_cases hL : L ∈ scalesAboveZero numScales
          · exact hin L hL td bu htd hbu
          · rw [(hout L hL).1] at htd
            rw [(hout L hL).2] at hbu
            simp only [List.getElem?_set_ne (Nat.ne_of_lt hL0)] at htd hbu
            exact scaleInv_mono _ _ _ (hinv L td bu hL0 htd hbu)

theorem recordDataPoints_inv (l2o : List Nat) (numScales : Nat)
    (query : Nat → Influence → ℚ → Influence) :
    ∀ (m k : Nat) (maps maps' : InfluenceHierarchy),
      recordDataPoints l2o numScales query (List.range' k m) maps = some maps' →
      MapsInv maps k → MapsInv maps' (k + m) := by
  intro m
  induction m with
  | zero =>
    intro k maps maps' h hinv
    simp only [List.range'_zero, recordDataPoints, Option.some.injEq] at h
    subst h
    exact hinv
  | succ m ih =>
    intro k maps maps' h hinv
    simp only [List.range'_succ, recordDataPoints] at h
    cases hp : recordDataPoint l2o numScales query k maps with
    | none => simp [hp] at h
    | some maps1 =>
      simp only [hp] at h
      have := ih (k + 1) maps1 maps' h (recordDataPoint_inv _ _ _ _ _ _ hp hinv)
      have he : k + (m + 1) = k + 1 + m := by omega
      rw [he]
      exact this

theorem noEntries_resizeVec (map : List LandmarkMap) (n : Nat) (h : NoEntries map) :
    NoEntries (resizeVec map n []) := by
  intro lm hlm entries he
  simp only [resizeVec, List.mem_append] at hlm
  rcases hlm with hlm | hlm
  · exact h lm (List.mem_of_mem_take hlm) entries he
  · rw [(List.mem_replicate.1 hlm).2] at he
    exact absurd he (List.not_mem_nil _)

theorem noEntries_resizeAt (map map' : List LandmarkMap) (scale n : Nat) (h : NoEntries map)
    (hr : resizeAt map scale n = some map') : NoEntries map' := by
  simp only [resizeAt] at hr
  cases hs : map[scale]? with
  | none => simp [hs] at hr
  | some lm =>
    simp only [hs, Option.some.injEq] at hr
    subst hr
    intro lm' hlm' entries he
    rcases List.mem_or_eq_of_mem_set hlm' with hm | rfl
    · exact h lm' hm entries he
    · simp only [resizeVec, List.mem_append] at he
      rcases he with he | he
      · exact h lm (List.getElem?_mem hs) entries (List.mem_of_mem_take he)
      · exact (List.mem_replicate.1 he).2

theorem noEntries_resizeScales (scaleSizes : List Nat) (numDataPoints : Nat) :
    ∀ (Ls : List Nat) (maps maps' : InfluenceHierarchy),
      resizeScales scaleSizes numDataPoints Ls maps = some maps' →
      NoEntries maps.influenceMapTopDown → NoEntries maps.influenceMapBottomUp →
      NoEntries maps'.influenceMapTopDown ∧ NoEntries maps'.influenceMapBottomUp := by
  intro Ls
  induction Ls with
  | nil =>
    intro maps maps' h h1 h2
    simp only [resizeScales, Option.some.injEq] at h
    subst h
    exact ⟨h1, h2⟩
  | cons L rest ih =>
    intro maps maps' h h1 h2
    simp only [resizeScales] at h
    cases hs : scaleSizes[L]? with
    | none => simp [hs] at h
    | some size =>
      simp only [hs] at h
      cases ht : resizeAt maps.influenceMapTopDown L (size % 2 ^ 32) with
      | none => rw [ht] at h; simp at h
      | some topDown =>
        rw [ht] at h; simp only at h
        cases hb : resizeAt maps.influenceMapBottomUp L numDataPoints with
        | none => rw [hb] at h; simp at h
        | some bottomUp =>
          rw [hb] at h; simp only at h
          exact ih _ maps' h (noEntries_resizeAt _ _ _ _ h1 ht) (noEntries_resizeAt _ _ _ _ h2 hb)

theorem mapsInv_of_noEntries (maps : InfluenceHierarchy)
    (h1 : NoEntries maps.influenceMapTopDown) (h2 : NoEntries maps.influenceMapBottomUp) :
    MapsInv maps 0 := by
  intro L td bu _ htd hbu
  have htd' : ∀ (l : Nat) (t : List Nat), td[l]? = some t → t = [] :=
    fun l t ht => h1 td (List.getElem?_mem htd) t (List.getElem?_mem ht)
  have hbu' : ∀ (i : Nat) (b : List Nat), bu[i]? = some b → b = [] :=
    fun i b hb => h2 bu (List.getElem?_mem hbu) b (List.getElem?_mem hb)
  refine ⟨fun i b _ hb => hbu' i b hb, ?_, ?_, ?_⟩
  · intro i b hb
    rw [hbu' i b hb]
    simp
  · intro l t x ht hx
    rw [htd' l t ht] at hx
    exact absurd hx (List.not_mem_nil _)
  · intro l t i ht
    rw [htd' l t ht]
    have : ¬ bu[i]? = some [l] := by
      intro hc
      have := hbu' i _ hc
      simp at this
    simp [this]

/-- After `initializeInfluenceHierarchy` on maps that hold no entries, the maps of every scale
    above 0 are related by `ScaleInv`. -/
theorem initializeInfluenceHierarchy_inv (scaleSizes l2o : List Nat) (numScales : Nat)
    (query : Nat → Influence → ℚ → Influence) (maps r : InfluenceHierarchy)
    (h1 : NoEntries maps.influenceMapTopDown) (h2 : NoEntries maps.influenceMapBottomUp)
    (h : initializeInfluenceHierarchy scaleSizes l2o numScales query maps = some r) :
    ∃ n, MapsInv r n := by
  simp only [initializeInfluenceHierarchy] at h
  cases hs : scaleSizes[0]? with
  | none => simp [hs] at h
  | some size0 =>
    simp only [hs] at h
    cases ht : resizeAt (resizeVec maps.influenceMapTopDown numScales []) 0
        (size0 % 2 ^ 32) with
    | none => rw [ht] at h; simp at h
    | some topDown =>
      rw [ht] at h; simp only at h
      cases hb : resizeAt (resizeVec maps.influenceMapBottomUp numScales []) 0
          (size0 % 2 ^ 32) with
      | none => rw [hb] at h; simp at h
      | some bottomUp =>
        rw [hb] at h; simp only at h
        cases hr : resizeScales scaleSizes (size0 % 2 ^ 32) (scalesAboveZero numScales)
            { influenceMapTopDown := topDown, influenceMapBottomUp := bottomUp } with
        | none => rw [hr] at h; simp at h
        | some maps1 =>
          rw [hr] at h; simp only at h
          obtain ⟨g1, g2⟩ := noEntries_resizeScales _ _ _ _ _ hr
            (noEntries_resizeAt _ _ _ _ (noEntries_resizeVec _ _ h1) ht)
            (noEntries_resizeAt _ _ _ _ (noEntries_resizeVec _ _ h2) hb)
          rw [List.range_eq_range'] at h
          exact ⟨0 + size0 % 2 ^ 32,
            recordDataPoints_inv _ _ _ _ _ _ _ h (mapsInv_of_noEntries _ g1 g2)⟩

/-! ## Lemmas: transition neighbours -/

theorem length_partialSortCopy (temp_vec sortedNN : List (Nat × ℚ)) :
    (partialSortCopy temp_vec sortedNN).length = sortedNN.length := by
  simp only [partialSortCopy, List.length_append, List.length_take, List.length_drop,
    List.length_insertionSort]
  omega

theorem partialSortCopy_full (temp_vec sortedNN : List (Nat × ℚ))
    (h : sortedNN.length ≤ temp_vec.length) :
    partialSortCopy temp_vec sortedNN
      = (List.insertionSort (fun a b => a.2 ≥ b.2) temp_vec).take sortedNN.length := by
  simp only [partialSortCopy, Nat.min_eq_right h, List.drop_length, List.append_nil]

/-- Every list stored by `transitionNNRows` has as many entries as the buffer, and a row with
    at least that many entries is stored as its heaviest entries in descending order of
    weight. -/
theorem transitionNNRows_spec : ∀ (rows : List SparseVec) (sortedNN : List (Nat × ℚ)),
    (transitionNNRows rows sortedNN).length = rows.length ∧
    (∀ ids ∈ transitionNNRows rows sortedNN, ids.length = sortedNN.length) ∧
    (∀ (j : Nat) (row : SparseVec), rows[j]? = some row → sortedNN.length ≤ row.length →
      (transitionNNRows rows sortedNN)[j]?
        = some (((List.insertionSort (fun a b => a.2 ≥ b.2) row).take sortedNN.length).map
            Prod.fst))
  | [], sortedNN => by simp [transitionNNRows]
  | row0 :: rows, sortedNN => by
    obtain ⟨h1, h2, h3⟩ := transitionNNRows_spec rows (partialSortCopy row0 sortedNN)
    rw [length_partialSortCopy] at h2 h3
    refine ⟨by simp [transitionNNRows, h1], ?_, ?_⟩
    · intro ids hids
      simp only [transitionNNRows, List.mem_cons] at hids
      rcases hids with rfl | hids
      · simp [length_partialSortCopy]
      · exact h2 ids hids
    · intro j row hj hlen
      cases j with
      | zero =>
        simp only [List.getElem?_cons_zero, Option.some.injEq] at hj
        subst hj
        simp only [transitionNNRows, List.getElem?_cons_zero]
        rw [partialSortCopy_full _ _ hlen]
      | succ j =>
        simp only [List.getElem?_cons_succ] at hj
        simp only [transitionNNRows, List.getElem?_cons_succ]
        exact h3 j row hj hlen

/-! ## The influence maps after a run on maps without entries -/

/-- After `initializeInfluenceHierarchy` on maps that hold no entries (as after
construction), for every scale `L > 0`: data point `i` occurs in `topDown[L][l]` if and only if
`bottomUp[L][i]` is the one-element list `[l]`; every `bottomUp[L][i]` has at most one entry;
each data point occurs in at most one `topDown[L]` list, and at most once in it. -/
theorem initializeInfluenceHierarchy_top_influence (scaleSizes l2o : List Nat) (numScales : Nat)
    (query : Nat → Influence → ℚ → Influence) (maps r : InfluenceHierarchy)
    (h1 : NoEntries maps.influenceMapTopDown) (h2 : NoEntries maps.influenceMapBottomUp)
    (h : initializeInfluenceHierarchy scaleSizes l2o numScales query maps = some r)
    (L : Nat) (td bu : LandmarkMap) (hL : 0 < L)
    (htd : r.influenceMapTopDown[L]? = some td) (hbu : r.influenceMapBottomUp[L]? = some bu) :
    (∀ (i l : Nat) (t : List Nat), td[l]? = some t → (i ∈ t ↔ bu[i]? = some [l])) ∧
    (∀ (i : Nat) (b : List Nat), bu[i]? = some b → b.length ≤ 1) ∧
    (∀ (i l l' : Nat) (t t' : List Nat), td[l]? = some t → td[l']? = some t' →
      i ∈ t → i ∈ t' → l = l') ∧
    (∀ (i l : Nat) (t : List Nat), td[l]? = some t → t.count i ≤ 1) := by
  obtain ⟨n, hinv⟩ := initializeInfluenceHierarchy_inv _ _ _ _ _ _ h1 h2 h
  obtain ⟨_, g2, _, g4⟩ := hinv L td bu hL htd hbu
  have hiff : ∀ (i l : Nat) (t : List Nat), td[l]? = some t → (i ∈ t ↔ bu[i]? = some [l]) := by
    intro i l t ht
    rw [← List.count_pos_iff, g4 l t i ht]
    split_ifs with hc
    · simp [hc]
    · simp [hc]
  refine ⟨hiff, g2, ?_, ?_⟩
  · intro i l l' t t' ht ht' hi hi'
    have e1 := (hiff i l t ht).1 hi
    have e2 := (hiff i l' t' ht').1 hi'
    rw [e1] at e2
    simpa using e2
  · intro i l t ht
    rw [g4 l t i ht]
    split_ifs <;> omega

/-- The maps of scale 1 after a run on empty maps, on a hierarchy with three data points and
two landmarks on scale 1. -/
theorem initializeInfluenceHierarchy_top_influence_witness :
    (∀ (i l : Nat) (t : List Nat), [[], [0, 1]][l]? = some t →
      (i ∈ t ↔ [[1], [1], []][i]? = some [l])) ∧
    (∀ (i : Nat) (b : List Nat), [[1], [1], []][i]? = some b → b.length ≤ 1) ∧
    (∀ (i l l' : Nat) (t t' : List Nat), [[], [0, 1]][l]? = some t →
      [[], [0, 1]][l']? = some t' → i ∈ t → i ∈ t' → l = l') ∧
    (∀ (i l : Nat) (t : List Nat), [[], [0, 1]][l]? = some t → t.count i ≤ 1) :=
  initializeInfluenceHierarchy_top_influence [3, 2] [0, 1, 2] 2 exampleQuery
    { influenceMapTopDown := [], influenceMapBottomUp := [] }
    { influenceMapTopDown := [[[0], [1], [2]], [[], [0, 1]]],
      influenceMapBottomUp := [[[0], [1], [2]], [[1], [1], []]] }
    (by intro lm h; simp at h) (by intro lm h; simp at h) (by decide) 1 _ _ (by decide) rfl rfl

/-! ## Claims C16 to C19 -/

/-- Claim C16 fails on the code: `InfluenceHierarchy::initialize` resizes the two maps and
appends to them without clearing them, and `HsneHierarchy::initialize` runs it after a
`loadCache` that has filled the top-down map, or both maps, from the cache files before a
later file failed to load.  On the hierarchy with three data points and two landmarks on
scale 1, started on the top-down map of the cache, data points 0 and 1 occur twice in
`topDown[1][1]`; started on both maps of the cache, `bottomUp[1][0]` and `bottomUp[1][1]`
are `[1, 1]`, two entries where the comment in the source says the size will be at most 1, and
data point 0 occurs in `topDown[1][1]` although `bottomUp[1][0]` is not `[1]`. -/
theorem initializeInfluenceHierarchy_appends_to_loaded_maps :
    initializeInfluenceHierarchy [3, 2] [0, 1, 2] 2 exampleQuery
        { influenceMapTopDown := [[[0], [1], [2]], [[], [0, 1]]], influenceMapBottomUp := [] } =
      some { influenceMapTopDown := [[[0, 0], [1, 1], [2, 2]], [[], [0, 1, 0, 1]]],
             influenceMapBottomUp := [[[0], [1], [2]], [[1], [1], []]] } ∧
    initializeInfluenceHierarchy [3, 2] [0, 1, 2] 2 exampleQuery
        { influenceMapTopDown := [[[0], [1], [2]], [[], [0, 1]]],
          influenceMapBottomUp := [[[0], [1], [2]], [[1], [1], []]] } =
      some { influenceMapTopDown := [[[0, 0], [1, 1], [2, 2]], [[], [0, 1, 0, 1]]],
             influenceMapBottomUp := [[[0, 0], [1, 1], [2, 2]], [[1, 1], [1, 1], []]] } ∧
    ([0, 1, 0, 1] : List Nat).count 0 = 2 ∧ ([1, 1] : List Nat).length = 2 ∧
    (0 ∈ ([0, 1, 0, 1] : List Nat) ∧ ([1, 1] : List Nat) ≠ [1]) := by
  decide

/-- Claim C17 fails on the code: the flag `redo` is never cleared, so once the first query
leaves scale 1 without a landmark all three further queries are made, although the second one
(threshold 0.001) already finds a landmark on every scale above 0. -/
theorem influenceOnDataPoint_keeps_retrying :
    findsEmptyScale (exampleRetryQuery [] (1 / 1000)) (scalesAboveZero 2) = some false ∧
    influenceOnDataPoint exampleRetryQuery 2
      = some ([[(0, 1)], [(0, 1)]], [1 / 100, 1 / 1000, 1 / 10000, 1 / 100000]) := by
  constructor
  · norm_num [exampleRetryQuery, findsEmptyScale, scalesAboveZero, List.range']
  · norm_num [influenceOnDataPoint, retryInfluence, exampleRetryQuery, findsEmptyScale,
      scalesAboveZero, List.range']

/-- Claim C18 fails on the code: with two neighbours per landmark, the list stored for
landmark 1, whose row holds the single neighbour 0, is `[0, 2]`; its second entry is left over
from the row of landmark 0 and is no neighbour of landmark 1. -/
theorem computeTransitionNN_stale_neighbour :
    computeTransitionNN [[[(1, 5), (2, 4)], [(0, 3)], [(0, 1), (1, 2)]]] 1 2 []
      = some [[[1, 2], [0, 2], [1, 0]]] ∧
    2 ∉ ([(0, 3)] : SparseVec).map Prod.fst := by
  constructor
  · decide
  · decide

/-- Claim C19 fails on the code: the result of the check of "Knn exact" is dropped, so a
parameter file that differs from the current settings in exactly this field is accepted. -/
theorem checkCacheParameters_ignores_knn_exact (c : CacheSettings) :
    JsonObject.get (saveCacheParameters { c with exactKnn := !c.exactKnn }) "Knn exact"
      ≠ JsonValue.boolean c.exactKnn ∧
    checkCacheParameters true (some (saveCacheParameters { c with exactKnn := !c.exactKnn })) c
      = some true := by
  constructor
  · simp [JsonObject.get, saveCacheParameters, List.lookup]
  · simp [checkCacheParameters, checkParam, JsonObject.get, JsonObject.contains,
      saveCacheParameters, List.lookup]

/-! ## Cache round trip and claim C20 -/

theorem length_encodeLE : ∀ (width n : Nat), (encodeLE width n).length = width
  | 0, _ => rfl
  | width + 1, n => by simp [encodeLE, length_encodeLE width]

theorem decodeLE_encodeLE : ∀ (width n : Nat), decodeLE (encodeLE width n) = n % 256 ^ width
  | 0, n => by simp [encodeLE, decodeLE, Nat.mod_one]
  | width + 1, n => by
    simp only [encodeLE, decodeLE, decodeLE_encodeLE width]
    rw [pow_succ', Nat.mod_mul]

theorem readBytes_append (n : Nat) (a rest : List Nat) (h : a.length = n) :
    readBytes n (a ++ rest) = (a, rest) := by
  subst h
  simp [readBytes, resizeVec]

theorem loadIds_saveIds : ∀ (ids rest : List Nat), (∀ id ∈ ids, id < 2 ^ 32) →
    loadIds ids.length (saveIds ids ++ rest) = (ids, rest)
  | [], rest, _ => rfl
  | id :: ids, rest, h => by
    have hid : id < 2 ^ 32 := h id (List.mem_cons_self _ _)
    simp only [List.length_cons, loadIds, saveIds, List.append_assoc]
    rw [readBytes_append 4 _ _ (length_encodeLE 4 id)]
    simp only
    rw [loadIds_saveIds ids rest (fun x hx => h x (List.mem_cons_of_mem _ hx)),
      decodeLE_encodeLE, Nat.mod_eq_of_lt (by norm_num at hid ⊢; exact hid)]

theorem loadLandmarks_saveLandmarks : ∀ (landmarks : LandmarkMap) (rest : List Nat),
    (∀ ids ∈ landmarks, ids.length < 2 ^ 64 ∧ ∀ id ∈ ids, id < 2 ^ 32) →
    loadLandmarks landmarks.length (saveLandmarks landmarks ++ rest) = (landmarks, rest)
  | [], rest, _ => rfl
  | ids :: landmarks, rest, h => by
    obtain ⟨hlen, hids⟩ := h ids (List.mem_cons_self _ _)
    simp only [List.length_cons, loadLandmarks, saveLandmarks, List.append_assoc]
    rw [readBytes_append 8 _ _ (length_encodeLE 8 ids.length)]
    simp only
    rw [decodeLE_encodeLE, Nat.mod_eq_of_lt (by norm_num at hlen ⊢; exact hlen),
      loadIds_saveIds ids _ hids]
    simp only
    rw [loadLandmarks_saveLandmarks landmarks rest
      (fun x hx => h x (List.mem_cons_of_mem _ hx))]

theorem loadScales_saveScales : ∀ (maps : List LandmarkMap) (rest : List Nat),
    (∀ landmarks ∈ maps, landmarks.length < 2 ^ 64 ∧
      ∀ ids ∈ landmarks, ids.length < 2 ^ 64 ∧ ∀ id ∈ ids, id < 2 ^ 32) →
    loadScales maps.length (saveScales maps ++ rest) = (maps, rest)
  | [], rest, _ => rfl
  | landmarks :: maps, rest, h => by
    obtain ⟨hlen, hlm⟩ := h landmarks (List.mem_cons_self _ _)
    simp only [List.length_cons, loadScales, saveScales, List.append_assoc]
    rw [readBytes_append 8 _ _ (length_encodeLE 8 landmarks.length)]
    simp only
    rw [decodeLE_encodeLE, Nat.mod_eq_of_lt (by norm_num at hlen ⊢; exact hlen),
      loadLandmarks_saveLandmarks landmarks _ hlm]
    simp only
    rw [loadScales_saveScales maps rest (fun x hx => h x (List.mem_cons_of_mem _ hx))]

theorem loadScales_saveCache (maps : List LandmarkMap) (h : FitsCacheFormat maps) :
    (loadScales (decodeLE (readBytes 8 (encodeLE 8 maps.length ++ saveScales maps)).1)
      (readBytes 8 (encodeLE 8 maps.length ++ saveScales maps)).2).1 = maps := by
  obtain ⟨hlen, hrest⟩ := h
  rw [readBytes_append 8 _ _ (length_encodeLE 8 maps.length)]
  simp only
  rw [decodeLE_encodeLE, Nat.mod_eq_of_lt (by norm_num at hlen ⊢; exact hlen)]
  have := loadScales_saveScales maps [] hrest
  rw [List.append_nil] at this
  rw [this]

/-- Claim C20: for every list of scales, each a list of landmarks, each a possibly empty list
of 32-bit ids, the bytes written by `saveCacheHsneInfluenceHierarchy` (resp.
`saveCacheHsneTransitionNNOnScale`), read back by `loadCacheHsneInfluenceHierarchy` (resp.
`loadCacheHsneTransitionNNOnScale`) into an empty structure, give the identical structure. -/
theorem loadCache_saveCache_round_trip (maps : List LandmarkMap) (h : FitsCacheFormat maps) :
    loadCacheHsneInfluenceHierarchy true (some (saveCacheHsneInfluenceHierarchy maps))
      = some maps ∧
    loadCacheHsneTransitionNNOnScale true (some (saveCacheHsneTransitionNNOnScale maps))
      = some maps := by
  constructor
  · simp only [loadCacheHsneInfluenceHierarchy, saveCacheHsneInfluenceHierarchy,
      Bool.not_true, Bool.false_eq_true, if_false, Option.some.injEq]
    exact loadScales_saveCache maps h
  · simp only [loadCacheHsneTransitionNNOnScale, saveCacheHsneTransitionNNOnScale,
      Bool.not_true, Bool.false_eq_true, if_false, Option.some.injEq]
    exact loadScales_saveCache maps h

/-- Claim C20 on a structure with two scales, an empty list and an id above 255. -/
theorem loadCache_saveCache_round_trip_witness :
    loadCacheHsneInfluenceHierarchy true
        (some (saveCacheHsneInfluenceHierarchy [[[1, 2], []], [[300]]]))
      = some [[[1, 2], []], [[300]]] ∧
    loadCacheHsneTransitionNNOnScale true
        (some (saveCacheHsneTransitionNNOnScale [[[1, 2], []], [[300]]]))
      = some [[[1, 2], []], [[300]]] :=
  loadCache_saveCache_round_trip [[[1, 2], []], [[300]]] (by unfold FitsCacheFormat; decide)

/-! ## Claims C21, C22, C24, C25, C29 and C30 -/

/-- Claim C21 fails on the code: the assignment `_numScales = numScales` after the `if` block
is not guarded, so `setNumScales(0)` leaves the number of scales at 0 whatever it was before;
for every argument the getter returns the argument. -/
theorem HsneParameters.setNumScales_zero (p : HsneParameters) :
    (p.setNumScales 0).getNumScales = 0 ∧
    ∀ n : Nat, (p.setNumScales n).getNumScales = n :=
  ⟨rfl, fun _ => rfl⟩

/-- The loop of `computeExtends` folds `min` and `max` over the coordinates of the complete
    pairs, starting from the values it is entered with. -/
theorem computeExtendsLoop_eq : ∀ (emb : List ℚ) (a b c d : ℚ),
    computeExtendsLoop emb (a, b, c, d)
      = ((xCoords emb).foldl min a, (xCoords emb).foldl max b,
         (yCoords emb).foldl min c, (yCoords emb).foldl max d)
  | [], a, b, c, d => by simp [computeExtendsLoop, xCoords, yCoords]
  | [x], a, b, c, d => by simp [computeExtendsLoop, xCoords, yCoords]
  | x :: y :: rest, a, b, c, d => by
    simp only [computeExtendsLoop, xCoords, yCoords, List.foldl_cons]
    rw [computeExtendsLoop_eq rest]
    have h1 : (if a > x then x else a) = min a x := by
      rw [min_def]; split_ifs <;> first | rfl | (exfalso; linarith)
    have h2 : (if b < x then x else b) = max b x := by
      rw [max_def]; split_ifs <;> first | rfl | (exfalso; linarith) | linarith
    have h3 : (if c > y then y else c) = min c y := by
      rw [min_def]; split_ifs <;> first | rfl | (exfalso; linarith)
    have h4 : (if d < y then y else d) = max d y := by
      rw [max_def]; split_ifs <;> first | rfl | (exfalso; linarith) | linarith
    rw [h1, h2, h3, h4]

/-- What `computeExtends` returns: the bounding box of the points and the origin. -/
theorem computeExtends_eq (emb : List ℚ) :
    computeExtends emb
      = EmbeddingExtends.create ((xCoords emb).foldl min 0) ((xCoords emb).foldl max 0)
          ((yCoords emb).foldl min 0) ((yCoords emb).foldl max 0) := by
  simp only [computeExtends, computeExtendsLoop_eq]

/-- Claim C24 fails on the code: the four bounds start at 0 and not at the first point, so for
the single point `(1, 1)` the returned box is `[0, 1] x [0, 1]` with both extends 1, while the
smallest x and y coordinate is 1 and the bounding box of the point has extends 0. -/
theorem computeExtends_includes_origin :
    computeExtends [1, 1] = EmbeddingExtends.create 0 1 0 1 ∧
    (computeExtends [1, 1]).x_min ≠ 1 ∧ (computeExtends [1, 1]).extend_x = 1 := by
  have h : computeExtends [1, 1] = EmbeddingExtends.create 0 1 0 1 := by
    norm_num [computeExtends, computeExtendsLoop]
  refine ⟨h, ?_, ?_⟩
  · rw [h]; simp [EmbeddingExtends.create]
  · rw [h]; simp [EmbeddingExtends.create]

/-- Claim C25: `interpol2D` returns the centroid of its three arguments, in exact arithmetic;
the result is the same for all six orders of the arguments, and the points `(1,0)`, `(-1,0)`,
`(0,3)` give `(0,1)`. -/
theorem interpol2D_centroid (p1 p2 p3 : Vector2f) :
    interpol2D p1 p2 p3 = ((p1.1 + p2.1 + p3.1) / 3, (p1.2 + p2.2 + p3.2) / 3) ∧
    interpol2D p1 p3 p2 = interpol2D p1 p2 p3 ∧ interpol2D p2 p1 p3 = interpol2D p1 p2 p3 ∧
    interpol2D p2 p3 p1 = interpol2D p1 p2 p3 ∧ interpol2D p3 p1 p2 = interpol2D p1 p2 p3 ∧
    interpol2D p3 p2 p1 = interpol2D p1 p2 p3 ∧
    interpol2D (1, 0) (-1, 0) (0, 3) = (0, 1) := by
  refine ⟨rfl, ?_, ?_, ?_, ?_, ?_, ?_⟩ <;> simp only [interpol2D, Prod.mk.injEq] <;>
    constructor <;> ring_nf

/-- Claim C29 fails on the code: with `newScaleLevel = 0` the loop body is never run and the
output vector is not written, so the function hands back whatever the vector held before the
call and not the selection. -/
theorem computeLocalIDsOnCoarserScale_level_zero (imageSelectionIDs : List Nat)
    (hsneHierarchy : HsneHierarchy) (tresh_influence : ℚ) (localIDsOnCoarserScale : List Nat) :
    computeLocalIDsOnCoarserScale 0 imageSelectionIDs hsneHierarchy tresh_influence
      localIDsOnCoarserScale = localIDsOnCoarserScale := rfl

/-- Claim C30 fails on the code: for an image of 2 x 2 pixels and the ROI from `(0,0)` to
`(1,1)`, `extractIdBlock` returns the single index 0 and `getNumPixelInROI` is 1, while
`pixelInRoi` also holds for the pixel `(1,0)` with index 1: its bounds include the top right
corner, those of the block do not. -/
theorem pixelInRoi_includes_top_right :
    extractIdBlock ⟨0, 0⟩ ⟨1, 1⟩ (initImageIndices 2 2) = some [0] ∧
    ROI.getNumPixelInROI ⟨⟨0, 0⟩, ⟨1, 1⟩⟩ = 1 ∧
    pixelInRoi 1 0 ⟨⟨0, 0⟩, ⟨1, 1⟩⟩ = true ∧
    (1 + 0 * 2) ∉ ([0] : List Nat) := by
  refine ⟨by decide, by decide, by decide, by decide⟩

/-! ## Claims C26 and C27 -/

/-- The selection that `extractSubGraph` with a positive minimum degree leaves to the caller. -/
theorem extractSubGraph_filter_selection (orig : HsneMatrix) (t : Nat) (sel : List Nat)
    (thresh : ℚ) (ht : 0 < t) (hnd : sel.Nodup)
    (hrows : ∀ row ∈ orig, (row.map Prod.fst).Nodup) (sel' : List Nat) (M : HsneMatrix)
    (h : extractSubGraph orig t sel thresh = some (sel', M)) :
    sel' = sel.filter (fun id => decide (t ≤ inducedOutDegree orig sel thresh id)) ∧
    M.length = sel'.length := by
  obtain ⟨M0, h0, rfl⟩ := (extractSubGraph_eq orig t sel thresh sel' M).1 h
  have hshape := extractSubGraphUnnormalized_shape orig t sel thresh sel' M0 h0
  obtain ⟨last, map, M1, _, ha, hc, hcase⟩ :=
    extractSubGraphUnnormalized_inv orig t sel thresh _ h0
  rcases hcase with ⟨_, hf⟩ | ⟨ht0, _⟩
  swap
  · omega
  obtain ⟨hlen, _⟩ := firstPass_length orig sel _ _ map M1 ha hc
  have hsize : sel.length < 2 ^ 32 := hlen ▸ filterLowDegree_size t sel M1 _ hf
  have hpm := assignIndices_isPositionMap sel _ map ha hnd (by omega)
  obtain ⟨_, hrow, hedge⟩ := firstPass_edges orig sel _ _ map M1 hnd hsize hrows ha hc
  have hkeys : ∀ row ∈ M1, (row.map Prod.fst).Nodup := by
    intro row hrowmem
    obtain ⟨k, hk⟩ := List.mem_iff_getElem?.1 hrowmem
    have hklt : k < sel.length := hlen ▸ (List.getElem?_eq_some_iff.1 hk).1
    obtain ⟨srcRow, row', hsrc, hM, hperm⟩ := hrow k sel[k] (List.getElem?_eq_getElem hklt)
    rw [hk] at hM
    simp only [Option.some.injEq] at hM
    subst hM
    rw [(hperm.map Prod.fst).nodup_iff]
    exact nodup_keys_mappedEntries sel map _ hpm srcRow
      (hrows srcRow (List.getElem?_mem hsrc))
  obtain ⟨_, hsel, _⟩ := filterLowDegree_edges t sel M1 sel' M0 hlen hkeys hf
  have hmask : degreeMask t M1
      = sel.map (fun id => decide (t ≤ inducedOutDegree orig sel thresh id)) := by
    apply List.ext_getElem?
    intro k
    simp only [degreeMask, List.getElem?_map]
    by_cases hklt : k < sel.length
    · obtain ⟨srcRow, row, hsrc, hM, hperm⟩ := hrow k sel[k] (List.getElem?_eq_getElem hklt)
      rw [hM, List.getElem?_eq_getElem hklt]
      simp only [Option.map_some', Option.some.injEq]
      have hdeg : row.length = inducedOutDegree orig sel thresh sel[k] := by
        rw [hperm.length_eq, length_mappedEntries sel map _ hpm hsize srcRow]
        unfold inducedOutDegree
        rw [List.getD_eq_getElem?_getD, hsrc]
        rfl
      rw [hdeg]
    · have h1 : M1[k]? = none := List.getElem?_eq_none (by omega)
      have h2 : sel[k]? = none := List.getElem?_eq_none (by omega)
      rw [h1, h2]
      rfl
  refine ⟨?_, by rw [length_normalizeWeights]; exact hshape.1⟩
  rw [hsel, hmask, selectByMask_map_filter]

/-- Claim C26 as stated fails: with filter number 2, landmark 2 (one transition) is removed
and with it the transitions of the landmarks 0 and 1 to it, so both rows of the returned matrix
hold a single entry. -/
theorem extractSubGraph_row_below_filter :
    ∃ M, extractSubGraph [[(1, 1), (2, 1)], [(0, 1), (2, 1)], [(0, 1)]] 2 [0, 1, 2] 0
        = some ([0, 1], M) ∧
      ∃ row ∈ M, row.length < 2 := by
  refine ⟨normalizeWeights [[(1, 1)], [(0, 1)]],
    (extractSubGraph_eq _ _ _ _ _ _).2 ⟨[[(1, 1)], [(0, 1)]], by decide, rfl⟩, ?_⟩
  simp [normalizeWeights]

/-- Claim C26, amended: with a filter number `t > 0` and a duplicate-free selection over a
matrix whose rows store each index once, `extractSubGraph` returns whenever the selection is
non-empty, shorter than `2^32` and all ids and targets are valid; every landmark it leaves in
the selection belongs to the selection handed in and has at least `t` transitions with a weight
above the threshold to landmarks of that selection, and the returned matrix has one row per
remaining landmark. -/
theorem extractSubGraph_kept_had_degree (orig : HsneMatrix) (t : Nat) (sel : List Nat)
    (thresh : ℚ) (ht : 0 < t) (hnd : sel.Nodup)
    (hrows : ∀ row ∈ orig, (row.map Prod.fst).Nodup) :
    (sel ≠ [] → sel.length < 2 ^ 32 → (∀ id ∈ sel, id < orig.length) →
      (∀ row ∈ orig, ∀ e ∈ row, e.1 < orig.length) →
      ∃ r, extractSubGraph orig t sel thresh = some r) ∧
    ∀ sel' M, extractSubGraph orig t sel thresh = some (sel', M) →
      (∀ id ∈ sel', id ∈ sel ∧ t ≤ inducedOutDegree orig sel thresh id) ∧
      M.length = sel'.length := by
  constructor
  · intro hne hsize hvalid hsq
    obtain ⟨last, hlast⟩ : ∃ last, sel.getLast? = some last := by
      cases hl : sel.getLast? with
      | none => exact absurd (List.getLast?_eq_none_iff.1 hl) hne
      | some last => exact ⟨last, rfl⟩
    obtain ⟨map, M1, ha, hc⟩ := firstPass_total orig sel (fun value => decide (thresh < value))
      (max orig.length ((last + 1) % 2 ^ 32)) hnd hsize (le_max_left _ _) hvalid hsq
    obtain ⟨hlen, hcols⟩ := firstPass_length orig sel _ _ map M1 ha hc
    obtain ⟨r, hr⟩ := filterLowDegree_total t sel M1 (by omega) hcols
    refine ⟨(r.1, normalizeWeights r.2), ?_⟩
    rw [extractSubGraph_eq]
    refine ⟨r.2, ?_, rfl⟩
    simp only [extractSubGraphUnnormalized, hlast, ha, hc, ht, if_true, hr]
  · intro sel' M h
    obtain ⟨hsel, hlen⟩ := extractSubGraph_filter_selection orig t sel thresh ht hnd hrows sel' M h
    refine ⟨?_, hlen⟩
    intro id hid
    rw [hsel, List.mem_filter] at hid
    exact ⟨hid.1, by simpa using hid.2⟩

/-- Claim C26, amended, on the matrix of the counterexample: the landmarks 0 and 1 remain. -/
theorem extractSubGraph_kept_had_degree_witness :
    (([0, 1, 2] : List Nat) ≠ [] → ([0, 1, 2] : List Nat).length < 2 ^ 32 →
      (∀ id ∈ ([0, 1, 2] : List Nat),
        id < ([[(1, 1), (2, 1)], [(0, 1), (2, 1)], [(0, 1)]] : HsneMatrix).length) →
      (∀ row ∈ ([[(1, 1), (2, 1)], [(0, 1), (2, 1)], [(0, 1)]] : HsneMatrix), ∀ e ∈ row,
        e.1 < ([[(1, 1), (2, 1)], [(0, 1), (2, 1)], [(0, 1)]] : HsneMatrix).length) →
      ∃ r, extractSubGraph [[(1, 1), (2, 1)], [(0, 1), (2, 1)], [(0, 1)]] 2 [0, 1, 2] 0
        = some r) ∧
    ∀ sel' M, extractSubGraph [[(1, 1), (2, 1)], [(0, 1), (2, 1)], [(0, 1)]] 2 [0, 1, 2] 0
        = some (sel', M) →
      (∀ id ∈ sel', id ∈ ([0, 1, 2] : List Nat) ∧
        2 ≤ inducedOutDegree [[(1, 1), (2, 1)], [(0, 1), (2, 1)], [(0, 1)]] [0, 1, 2] 0 id) ∧
      M.length = sel'.length :=
  extractSubGraph_kept_had_degree [[(1, 1), (2, 1)], [(0, 1), (2, 1)], [(0, 1)]] 2 [0, 1, 2] 0
    (by decide) (by decide) (by decide)

/-! ## Selection maps and claim C28 -/

theorem writeBottomToLocal_spec (pos : Nat) : ∀ (L map : List Nat),
    (∀ b ∈ L, b < map.length) →
    ∃ map', writeBottomToLocal pos L map = some map' ∧ map'.length = map.length ∧
      (∀ b ∈ L, map'[b]? = some pos) ∧ (∀ b : Nat, b ∉ L → map'[b]? = map[b]?)
  | [], map, _ => ⟨map, rfl, rfl, by simp, fun _ _ => rfl⟩
  | b0 :: rest, map, h => by
    have h0 : b0 < map.length := h b0 (List.mem_cons_self _ _)
    obtain ⟨map', hw, hl, hin, hout⟩ := writeBottomToLocal_spec pos rest (map.set b0 pos)
      (by intro b hb; rw [List.length_set]; exact h b (List.mem_cons_of_mem _ hb))
    refine ⟨map', ?_, by rw [hl, List.length_set], ?_, ?_⟩
    · simp only [writeBottomToLocal, h0, if_true, hw]
    · intro b hb
      by_cases hbr : b ∈ rest
      · exact hin b hbr
      · rcases List.mem_cons.1 hb with rfl | hb'
        · rw [hout b hbr, List.getElem?_set_self h0]
        · exact absurd hb' hbr
    · intro b hb
      have hne : b0 ≠ b := fun hc => hb (hc ▸ List.mem_cons_self _ _)
      rw [hout b (fun hc => hb (List.mem_cons_of_mem _ hc)), List.getElem?_set_ne hne]

theorem selectionMapsLoop_spec (td : LandmarkMap) (ids : List Nat) (numPoints : Nat)
    (hvalid : ∀ a ∈ ids, a < td.length)
    (hpoints : ∀ a ∈ ids, ∀ x ∈ td.getD a [], x < numPoints) :
    ∀ (m k : Nat) (b2l : List Nat) (l2b : LandmarkMap), k + m ≤ ids.length →
      SelectionMapsInv td ids numPoints k b2l l2b →
      ∃ b2l' l2b', selectionMapsLoop td ids (List.range' k m) (b2l, l2b) = some (b2l', l2b') ∧
        SelectionMapsInv td ids numPoints (k + m) b2l' l2b' := by
  intro m
  induction m with
  | zero =>
    intro k b2l l2b _ hinv
    exact ⟨b2l, l2b, rfl, hinv⟩
  | succ m ih =>
    intro k b2l l2b hk hinv
    obtain ⟨i1, i2, i3, i5⟩ := hinv
    have hklt : k < ids.length := by omega
    have hid : ids[k]? = some ids[k] := List.getElem?_eq_getElem hklt
    have hmem : ids[k] ∈ ids := List.getElem_mem _
    have htd : td[ids[k]]? = some (td.getD ids[k] []) := by
      rw [List.getD_eq_getElem?_getD, List.getElem?_eq_getElem (hvalid _ hmem)]
      rfl
    obtain ⟨b2l1, hw, hl1, hin, hout⟩ := writeBottomToLocal_spec k (td.getD ids[k] []) b2l
      (by intro b hb; rw [i1]; exact hpoints _ hmem b hb)
    have hinv1 : SelectionMapsInv td ids numPoints (k + 1) b2l1
        (l2b.set k (td.getD ids[k] [])) := by
      refine ⟨by rw [hl1, i1], by rw [List.length_set, i2], ?_, ?_⟩
      · intro pos id hpos hposid
        by_cases hpk : k = pos
        · subst hpk
          rw [hid, Option.some.injEq] at hposid
          subst hposid
          rw [List.getElem?_set_self (by omega)]
        · rw [List.getElem?_set_ne hpk]
          exact i3 pos id (by omega) hposid
      · intro b v hbv
        by_cases hb : b ∈ td.getD ids[k] []
        · rw [hin b hb, Option.some.injEq] at hbv
          subst hbv
          exact Or.inr ⟨by omega, ids[k], hid, hb⟩
        · rw [hout b hb] at hbv
          rcases i5 b v hbv with ⟨hv, hnone⟩ | ⟨hv, hsome⟩
          · refine Or.inl ⟨hv, ?_⟩
            intro pos id hpos hposid
            by_cases hpk : pos = k
            · subst hpk
              rw [hid, Option.some.injEq] at hposid
              subst hposid
              exact hb
            · exact hnone pos id (by omega) hposid
          · exact Or.inr ⟨by omega, hsome⟩
    obtain ⟨b2l', l2b', hloop, hinv'⟩ := ih (k + 1) b2l1 _ (by omega) hinv1
    refine ⟨b2l', l2b', ?_, by rw [show k + (m + 1) = k + 1 + m by omega]; exact hinv'⟩
    simp only [List.range'_succ, selectionMapsLoop, hid, htd]
    rw [if_pos (by omega), hw]
    exact hloop

/-- Claim C28: for a duplicate-free list of fewer than `2^32` valid landmarks on a scale whose
top-down lists are pairwise disjoint and hold data points below `numPoints`,
`computeSelectionMapsAtScale` returns; `mappingLocalToBottom` has one entry per listed landmark,
equal to that landmark's top-down list; `mappingBottomToLocal` has one entry per data point;
for every data point `b` and position `pos`, `mappingBottomToLocal[b] = pos` if and only if `b`
is in `mappingLocalToBottom[pos]`; and `mappingBottomToLocal[b] = 2^32 - 1` exactly for the
points contained in no list. -/
theorem computeSelectionMapsAtScale_consistent (influenceMapTopDown : List LandmarkMap)
    (numPoints scale : Nat) (ids : List Nat) (td : LandmarkMap)
    (hscale : influenceMapTopDown[scale]? = some td) (hnd : ids.Nodup)
    (hsize : ids.length < 2 ^ 32) (hvalid : ∀ a ∈ ids, a < td.length)
    (hpoints : ∀ a ∈ ids, ∀ x ∈ td.getD a [], x < numPoints)
    (hdisj : ∀ a ∈ ids, ∀ c ∈ ids, a ≠ c → ∀ x ∈ td.getD a [], x ∉ td.getD c []) :
    ∃ b2l l2b, computeSelectionMapsAtScale influenceMapTopDown numPoints scale ids
        = some (b2l, l2b) ∧
      l2b.length = ids.length ∧
      (∀ pos id : Nat, ids[pos]? = some id → l2b[pos]? = td[id]?) ∧
      b2l.length = numPoints ∧
      (∀ b pos : Nat, b < numPoints → pos < ids.length →
        (b2l[b]? = some pos ↔ ∃ list : List Nat, l2b[pos]? = some list ∧ b ∈ list)) ∧
      (∀ b : Nat, b < numPoints →
        (b2l[b]? = some (2 ^ 32 - 1) ↔
          ∀ (pos : Nat) (list : List Nat), l2b[pos]? = some list → b ∉ list)) := by
  have hinit : SelectionMapsInv td ids numPoints 0 (List.replicate numPoints UINT32_MAX)
      (List.replicate ids.length []) := by
    refine ⟨by simp, by simp, fun pos id hpos _ => absurd hpos (Nat.not_lt_zero _), ?_⟩
    intro b v hbv
    refine Or.inl ⟨?_, fun pos id hpos _ => absurd hpos (Nat.not_lt_zero _)⟩
    have := List.getElem?_mem hbv
    exact (List.mem_replicate.1 this).2
  obtain ⟨b2l, l2b, hloop, i1, i2, i3, i5⟩ := selectionMapsLoop_spec td ids numPoints hvalid
    hpoints ids.length 0 _ _ (by omega) hinit
  rw [Nat.zero_add] at i3 i5
  have hposlt : ∀ pos id : Nat, ids[pos]? = some id → pos < ids.length :=
    fun pos id h => (List.getElem?_eq_some_iff.1 h).1
  have htd : ∀ id ∈ ids, td[id]? = some (td.getD id []) := by
    intro id hid
    rw [List.getD_eq_getElem?_getD, List.getElem?_eq_getElem (hvalid _ hid)]
    rfl
  have hmax : ∀ v : Nat, v < ids.length → v ≠ UINT32_MAX := by
    intro v hv
    simp only [UINT32_MAX]
    omega
  refine ⟨b2l, l2b, ?_, i2, ?_, i1, ?_, ?_⟩
  · simp only [computeSelectionMapsAtScale, hscale, Nat.mod_eq_of_lt hsize]
    rw [List.range_eq_range']
    exact hloop
  · intro pos id hpos
    rw [i3 pos id (hposlt pos id hpos) hpos, htd id (List.getElem?_mem hpos)]
  · intro b pos hb hpos
    have hid : ids[pos]? = some ids[pos] := List.getElem?_eq_getElem hpos
    constructor
    · intro hbv
      rcases i5 b pos hbv with ⟨hv, _⟩ | ⟨_, id, hid', hmem⟩
      · exact absurd hv (hmax pos hpos)
      · exact ⟨td.getD id [], i3 pos id hpos hid', hmem⟩
    · rintro ⟨list, hlist, hmem⟩
      rw [i3 pos _ hpos hid, Option.some.injEq] at hlist
      subst hlist
      have hbl : b < b2l.length := by rw [i1]; exact hb
      have hbv : b2l[b]? = some b2l[b] := List.getElem?_eq_getElem hbl
      rcases i5 b _ hbv with ⟨_, hnone⟩ | ⟨hv, id, hid', hmem'⟩
      · exact absurd hmem (hnone pos _ hpos hid)
      · have hsame : ids[pos] = id := by
          by_contra hne
          exact hdisj _ (List.getElem_mem _) id (List.getElem?_mem hid') hne b hmem hmem'
        have hv' : b2l[b] < ids.length := hv
        have : b2l[b] = pos := by
          have e1 : ids[b2l[b]] = ids[pos] := by
            rw [List.getElem?_eq_getElem hv', Option.some.injEq] at hid'
            rw [hid', hsame]
          exact (List.Nodup.getElem_inj_iff hnd).1 e1
        rw [hbv, this]
  · intro b hb
    have hu : (2 ^ 32 - 1 : Nat) = UINT32_MAX := rfl
    rw [hu]
    constructor
    · intro hbv pos list hlist hmem
      have hpos : pos < ids.length := by
        rw [← i2]
        exact (List.getElem?_eq_some_iff.1 hlist).1
      have hid : ids[pos]? = some ids[pos] := List.getElem?_eq_getElem hpos
      rw [i3 pos _ hpos hid, Option.some.injEq] at hlist
      subst hlist
      rcases i5 b _ hbv with ⟨_, hnone⟩ | ⟨hv, _⟩
      · exact hnone pos _ hpos hid hmem
      · exact absurd rfl (hmax _ hv)
    · intro hnone
      have hbl : b < b2l.length := by rw [i1]; exact hb
      have hbv : b2l[b]? = some b2l[b] := List.getElem?_eq_getElem hbl
      rcases i5 b _ hbv with ⟨hv, _⟩ | ⟨hv, id, hid', hmem'⟩
      · rw [hbv, hv]
      · exact absurd hmem' (hnone _ _ (i3 _ id hv hid'))

/-- Claim C28 on a scale with three landmarks over five data points, of which the landmarks 2
and 0 are listed. -/
theorem computeSelectionMapsAtScale_consistent_witness :
    ∃ b2l l2b, computeSelectionMapsAtScale [[], [[0, 2], [1], [3]]] 5 1 [2, 0]
        = some (b2l, l2b) ∧
      l2b.length = ([2, 0] : List Nat).length ∧
      (∀ pos id : Nat, ([2, 0] : List Nat)[pos]? = some id →
        l2b[pos]? = ([[0, 2], [1], [3]] : LandmarkMap)[id]?) ∧
      b2l.length = 5 ∧
      (∀ b pos : Nat, b < 5 → pos < ([2, 0] : List Nat).length →
        (b2l[b]? = some pos ↔ ∃ list : List Nat, l2b[pos]? = some list ∧ b ∈ list)) ∧
      (∀ b : Nat, b < 5 →
        (b2l[b]? = some (2 ^ 32 - 1) ↔
          ∀ (pos : Nat) (list : List Nat), l2b[pos]? = some list → b ∉ list)) :=
  computeSelectionMapsAtScale_consistent [[], [[0, 2], [1], [3]]] 5 1 [2, 0]
    [[0, 2], [1], [3]] rfl (by decide) (by norm_num) (by decide) (by decide) (by decide)

/-! ## Updates up and down and claim C23 -/

/-- Without a minimum degree `extractSubGraph` leaves the selection as it is. -/
theorem extractSubGraph_filter_zero (orig : HsneMatrix) (sel : List Nat) (thresh : ℚ)
    (sel' : List Nat) (M : HsneMatrix) (h : extractSubGraph orig 0 sel thresh = some (sel', M)) :
    sel' = sel := by
  obtain ⟨M0, h0, _⟩ := (extractSubGraph_eq orig 0 sel thresh sel' M).1 h
  obtain ⟨_, _, M1, _, _, _, hcase⟩ := extractSubGraphUnnormalized_inv orig 0 sel thresh _ h0
  rcases hcase with ⟨hpos, _⟩ | ⟨_, hr⟩
  · omega
  · exact (Prod.mk.inj hr).1

/-- An update with direction UP or DOWN: what it reads and what it leaves behind. -/
theorem runUpdateScale_directed (w w' : HsneScaleUpdateWorker) (roi : ROI)
    (imageIndices : MatrixXui) (h : HsneHierarchy) (mats : List HsneMatrix)
    (hdir : w.traversalDirection ≠ TraversalDirection.AUTO) :
    w.runUpdateScale roi imageIndices h mats = some w' ↔
      ∃ sel lookup M ids M',
        extractIdBlock roi.layerBottomLeft roi.layerTopRight imageIndices = some sel ∧
        computeLocalIDsOnCoarserScaleHeuristic
          (applyTraversalDirection w.traversalDirection w.currentScaleLevel) sel h
          = some lookup ∧
        mats[applyTraversalDirection w.traversalDirection w.currentScaleLevel]? = some M ∧
        extractSubGraph M w.landmarkFilterNumber lookup 0 = some (ids, M') ∧
        w' = { w with
          newScaleLevel := applyTraversalDirection w.traversalDirection w.currentScaleLevel
          localIDsOnNewScale := ids
          newTransitionMatrix := M'
          currentScaleLevel := applyTraversalDirection w.traversalDirection w.currentScaleLevel } := by
  unfold HsneScaleUpdateWorker.runUpdateScale HsneScaleUpdateWorker.computeLocalIDs
  simp only [hdir, if_false]
  cases hsel : extractIdBlock roi.layerBottomLeft roi.layerTopRight imageIndices with
  | none => simp
  | some sel =>
    simp only [Option.some.injEq, exists_and_left, exists_eq_left']
    cases hlook : computeLocalIDsOnCoarserScaleHeuristic
        (applyTraversalDirection w.traversalDirection w.currentScaleLevel) sel h with
    | none => simp
    | some lookup =>
      simp only [Option.map_some', Option.some.injEq, exists_eq_left']
      cases hM : mats[applyTraversalDirection w.traversalDirection w.currentScaleLevel]? with
      | none => simp
      | some M =>
        simp only [Option.some.injEq, exists_eq_left']
        cases hex : extractSubGraph M w.landmarkFilterNumber lookup 0 with
        | none => simp
        | some r =>
          obtain ⟨ids, M'⟩ := r
          simp only [Option.some.injEq, Prod.mk.injEq]
          constructor
          · intro hw
            exact ⟨ids, M', ⟨rfl, rfl⟩, hw.symm⟩
          · rintro ⟨ids', M'', ⟨rfl, rfl⟩, hw⟩
            exact hw.symm

theorem threePoint_update_up :
    (idleWorker.setData false (-1) { target := 1, heuristic := false } 2
        TraversalDirection.UP).runUpdateScale threePixelRoi (initImageIndices 3 1)
        threePointHierarchy threePointMatrices = some workerAfterUp := by
  rw [runUpdateScale_directed _ _ _ _ _ _ (by simp [HsneScaleUpdateWorker.setData])]
  refine ⟨[0, 1, 2], [0, 1], [[(0, 1), (1, 1)], [(0, 1), (1, 1)]], [0, 1],
    normalizeWeights [[(0, 1), (1, 1)], [(0, 1), (1, 1)]], by decide, by decide, by decide,
    (extractSubGraph_eq _ _ _ _ _ _).2 ⟨[[(0, 1), (1, 1)], [(0, 1), (1, 1)]], by decide, rfl⟩,
    rfl⟩

theorem threePoint_update_down :
    (workerAfterUp.setData false (-1) { target := 1, heuristic := false } 2
        TraversalDirection.DOWN).runUpdateScale threePixelRoi (initImageIndices 3 1)
        threePointHierarchy threePointMatrices = some workerAfterDown := by
  rw [runUpdateScale_directed _ _ _ _ _ _ (by simp [HsneScaleUpdateWorker.setData])]
  refine ⟨[0, 1, 2], [0, 1, 2], [[(1, 1), (2, 1)], [(0, 1), (2, 1)], [(0, 1)]], [0, 1],
    normalizeWeights [[(1, 1)], [(0, 1)]], by decide, by decide, by decide,
    (extractSubGraph_eq _ _ _ _ _ _).2 ⟨[[(1, 1)], [(0, 1)]], by decide, rfl⟩, rfl⟩

/-- Claim C23 as stated fails: with the landmark filter at 2, an update UP from level 0
followed by an update DOWN brings the worker back to level 0, but its landmark list is
`[0, 1]` while the bottom-up lookup of the selection at level 0 is `[0, 1, 2]`: the sub-graph
extraction of the update has removed landmark 2. -/
theorem up_then_down_filtered :
    ∃ w1 w2,
      (idleWorker.setData false (-1) { target := 1, heuristic := false } 2
        TraversalDirection.UP).runUpdateScale threePixelRoi (initImageIndices 3 1)
        threePointHierarchy threePointMatrices = some w1 ∧
      (w1.setData false (-1) { target := 1, heuristic := false } 2
        TraversalDirection.DOWN).runUpdateScale threePixelRoi (initImageIndices 3 1)
        threePointHierarchy threePointMatrices = some w2 ∧
      w2.currentScaleLevel = 0 ∧ w2.localIDsOnNewScale = [0, 1] ∧
      extractIdBlock threePixelRoi.layerBottomLeft threePixelRoi.layerTopRight
        (initImageIndices 3 1) = some [0, 1, 2] ∧
      computeLocalIDsOnCoarserScaleHeuristic 0 [0, 1, 2] threePointHierarchy
        = some [0, 1, 2] :=
  ⟨workerAfterUp, workerAfterDown, threePoint_update_up, threePoint_update_down, rfl, rfl,
    by decide, by decide⟩

/-- Claim C23, amended: for every starting level below the top scale, an update with direction
UP followed by an update with direction DOWN, when both return, leaves the worker at the
starting level again; the second update computes the bottom-up lookup of its selection at that
level, and its landmark list is what `extractSubGraph` with the filter number of the update
leaves of that lookup, which is the lookup itself when the filter number is 0. -/
theorem HsneScaleUpdateWorker.up_then_down (w0 w1 w2 : HsneScaleUpdateWorker)
    (h : HsneHierarchy) (mats : List HsneMatrix) (imageIndices : MatrixXui) (roi1 roi2 : ROI)
    (fix1 fix2 : Bool) (tr1 tr2 : ℚ) (vb1 vb2 : VisualTarget) (t1 t2 : Nat)
    (hL : w0.currentScaleLevel < h.getTopScale)
    (h1 : (w0.setData fix1 tr1 vb1 t1 TraversalDirection.UP).runUpdateScale roi1 imageIndices
      h mats = some w1)
    (h2 : (w1.setData fix2 tr2 vb2 t2 TraversalDirection.DOWN).runUpdateScale roi2
      imageIndices h mats = some w2) :
    w2.currentScaleLevel = w0.currentScaleLevel ∧
    ∃ sel lookup M,
      extractIdBlock roi2.layerBottomLeft roi2.layerTopRight imageIndices = some sel ∧
      computeLocalIDsOnCoarserScaleHeuristic w0.currentScaleLevel sel h = some lookup ∧
      mats[w0.currentScaleLevel]? = some M ∧
      extractSubGraph M t2 lookup 0 = some (w2.localIDsOnNewScale, w2.newTransitionMatrix) ∧
      (t2 = 0 → w2.localIDsOnNewScale = lookup) := by
  have htop : h.getTopScale < 2 ^ 32 := by
    unfold HsneHierarchy.getTopScale
    exact Nat.mod_lt _ (by norm_num)
  obtain ⟨_, _, _, ids1, M1, _, _, _, _, hw1⟩ :=
    (runUpdateScale_directed _ _ roi1 imageIndices h mats
      (by simp [HsneScaleUpdateWorker.setData])).1 h1
  obtain ⟨sel, lookup, M, ids2, M2, hsel, hlook, hM, hex, hw2⟩ :=
    (runUpdateScale_directed _ _ roi2 imageIndices h mats
      (by simp [HsneScaleUpdateWorker.setData])).1 h2
  have hlevel1 : w1.currentScaleLevel = w0.currentScaleLevel + 1 := by
    rw [hw1]
    simp only [HsneScaleUpdateWorker.setData, applyTraversalDirection]
    exact Nat.mod_eq_of_lt (by omega)
  have hback : applyTraversalDirection TraversalDirection.DOWN w1.currentScaleLevel
      = w0.currentScaleLevel := by
    rw [hlevel1]
    simp only [applyTraversalDirection]
    omega
  simp only [HsneScaleUpdateWorker.setData, hback] at hlook hM hex hw2
  subst hw2
  refine ⟨rfl, sel, lookup, M, hsel, hlook, hM, hex, ?_⟩
  intro ht
  subst ht
  exact extractSubGraph_filter_zero M lookup 0 ids2 M2 hex

/-- Claim C23, amended, on `threePointHierarchy` with filter number 2. -/
theorem HsneScaleUpdateWorker.up_then_down_witness :
    workerAfterDown.currentScaleLevel = idleWorker.currentScaleLevel ∧
    ∃ sel lookup M,
      extractIdBlock threePixelRoi.layerBottomLeft threePixelRoi.layerTopRight
        (initImageIndices 3 1) = some sel ∧
      computeLocalIDsOnCoarserScaleHeuristic idleWorker.currentScaleLevel sel
        threePointHierarchy = some lookup ∧
      threePointMatrices[idleWorker.currentScaleLevel]? = some M ∧
      extractSubGraph M 2 lookup 0
        = some (workerAfterDown.localIDsOnNewScale, workerAfterDown.newTransitionMatrix) ∧
      (2 = 0 → workerAfterDown.localIDsOnNewScale = lookup) :=
  HsneScaleUpdateWorker.up_then_down idleWorker workerAfterUp workerAfterDown
    threePointHierarchy threePointMatrices (initImageIndices 3 1) threePixelRoi threePixelRoi
    false false (-1) (-1) { target := 1, heuristic := false } { target := 1, heuristic := false }
    2 2 (by decide) threePoint_update_up threePoint_update_down

end Hsne
